import Mathlib

/-!
# Firmament: locality-aware placement, simulated data layer, transfer-aware interference hook

A shallow embedding of

* `src/sim/dfs/simulated_data_layer_manager.cc`
* `src/sim/interference/no_interference_transfer_including.cc`
* `src/scheduling/fulcrum_c/fulcrum_c_scheduler.cc`

Conventions of the embedding.

* `uint64_t` values are natural numbers; every machine operation reduces modulo `2 ^ 64`
  (`add64`, `sub64`, `mul64`).
* `ResourceID_t`, `EquivClass_t`, `TaskID_t` and block ids are natural numbers: the code only
  compares them for equality.
* `unordered_map` / `multimap` containers are association lists; the order of the list is the
  iteration order of the container.
* A failed `CHECK` (or a null dereference) is the result `none`.
-/

namespace Firmament

/-! ## Machine arithmetic -/

/-- Number of values of a `uint64_t`. -/
def UINT64_SIZE : Nat := 2 ^ 64

/-- Addition of two `uint64_t`. -/
def add64 (a b : Nat) : Nat := (a + b) % UINT64_SIZE

/-- Subtraction of two `uint64_t`: wraps around when `a < b`. -/
def sub64 (a b : Nat) : Nat := (a % UINT64_SIZE + UINT64_SIZE - b % UINT64_SIZE) % UINT64_SIZE

/-- Multiplication of two `uint64_t`. -/
def mul64 (a b : Nat) : Nat := (a * b) % UINT64_SIZE

/-! ## Map helpers (`misc/map-util.h`) -/

/-- Modelled from the spec: `misc/map-util.h` is not among the sources. `FindOrNull` looks a key
up and yields the mapped value, if any (the C++ helper yields a pointer to it, or `NULL`). -/
def FindOrNull {β : Type} : List (Nat × β) → Nat → Option β
  | [], _ => none
  | (k, v) :: rest, key => if k = key then some v else FindOrNull rest key

/-- Overwrites the value stored under an existing key, in place. -/
def updateEntry {β : Type} : List (Nat × β) → Nat → β → List (Nat × β)
  | [], _, _ => []
  | (k, v) :: rest, key, value =>
    if k = key then (k, value) :: rest else (k, v) :: updateEntry rest key value

/-- Modelled from the spec: `misc/map-util.h` is not among the sources. `InsertIfNotPresent`
adds the pair only when the key is absent ("pick the first replica seen"). -/
def InsertIfNotPresent {β : Type} (m : List (Nat × β)) (key : Nat) (value : β) :
    List (Nat × β) :=
  match FindOrNull m key with
  | some _ => m
  | none => m ++ [(key, value)]

/-- Modelled from the spec: `misc/map-util.h` is not among the sources. `InsertOrUpdate`
adds the pair when the key is absent and overwrites the mapped value otherwise ("upgrade
whenever a better one appears"). -/
def InsertOrUpdate {β : Type} (m : List (Nat × β)) (key : Nat) (value : β) :
    List (Nat × β) :=
  match FindOrNull m key with
  | some _ => updateEntry m key value
  | none => m ++ [(key, value)]

/-! ## Simulated data layer (`simulated_data_layer_manager.cc`) -/

/-- A replica as returned by locality lookups (`DataLocation`). -/
structure DataLocation where
  machine_res_id_ : Nat
  rack_id_ : Nat
  block_id_ : Nat
  size_bytes_ : Nat
deriving DecidableEq, Repr

/-- One input dependency of a task (`ReferenceDescriptor`): file path and declared size. -/
structure ReferenceDescriptor where
  location : String
  size : Nat
deriving DecidableEq, Repr

/-- What `SimulatedDataLayerManager` reads from its collaborators: the DFS variant
(`dfs_->GetFileLocations`), the rack lookup `GetRackForMachine` (declared in the header), the two
transfer-time flags and the macro `BYTES_TO_MBITS` of `base/units.h`. -/
structure SimulatedDataLayerManager where
  GetFileLocations : String → List DataLocation
  GetRackForMachine : Nat → Nat
  simulated_remote_transfer_time : Nat
  simulated_rack_transfer_time : Nat
  BYTES_TO_MBITS : Nat

/-- Body of the `for (auto& location : locations)` loop of `GetClosestReplicas`. -/
def closestReplicaStep (machine_res_id rack_ec : Nat)
    (closest_block_replicas : List (Nat × DataLocation)) (location : DataLocation) :
    List (Nat × DataLocation) :=
  let inserted := InsertIfNotPresent closest_block_replicas location.block_id_ location
  match FindOrNull inserted location.block_id_ with
  | none => inserted
  | some closest_loc =>
    if machine_res_id ≠ closest_loc.machine_res_id_ then
      if machine_res_id = location.machine_res_id_ then
        InsertOrUpdate inserted location.block_id_ location
      else if rack_ec = location.rack_id_ ∧ rack_ec ≠ closest_loc.rack_id_ then
        InsertOrUpdate inserted location.block_id_ location
      else inserted
    else inserted

/-- Embedding of `SimulatedDataLayerManager::GetClosestReplicas`: the result map after the call. -/
def GetClosestReplicas (dl : SimulatedDataLayerManager) (file_location : String)
    (machine_res_id : Nat) (closest_block_replicas : List (Nat × DataLocation)) :
    List (Nat × DataLocation) :=
  let rack_ec := dl.GetRackForMachine machine_res_id
  let locations := dl.GetFileLocations file_location
  locations.foldl (closestReplicaStep machine_res_id rack_ec) closest_block_replicas

/-- Lifecycle timestamps and inputs of a task (`TaskDescriptor`). `start_time` is an optional
protobuf field: `clear_start_time` resets the value to 0 and drops the presence bit. -/
structure TaskDescriptor where
  uid : Nat
  dependencies : List ReferenceDescriptor
  submit_time : Nat
  start_time : Nat
  has_start_time : Bool
  finish_time : Nat
  total_run_time : Nat
  total_unscheduled_time : Nat
deriving DecidableEq, Repr

/-- The statistics `ComputeDataStatsForMachine` produces: its return value and the two
out-parameters. -/
structure DataStats where
  input_size : Nat
  data_on_rack : Nat
  data_on_machine : Nat
deriving DecidableEq, Repr

/-- The loop `for (auto& it : closest_block_replicas)` of `ComputeDataStatsForMachine`, run on
the accumulators `(data_on_rack, data_on_machine, file_size)`. The three sums are taken modulo
`2 ^ 64`, so the iteration order of the `unordered_map` does not change them. -/
def accumulateReplicas (machine_res_id rack_ec : Nat) :
    List (Nat × DataLocation) → Nat × Nat × Nat → Nat × Nat × Nat
  | [], acc => acc
  | (_, location) :: rest, (data_on_rack, data_on_machine, file_size) =>
    accumulateReplicas machine_res_id rack_ec rest
      (if rack_ec = location.rack_id_ then add64 data_on_rack location.size_bytes_
        else data_on_rack,
       if machine_res_id = location.machine_res_id_ then
          add64 data_on_machine location.size_bytes_
        else data_on_machine,
       add64 file_size location.size_bytes_)

/-- The loop over the dependencies of `ComputeDataStatsForMachine`; `none` when
`CHECK_EQ(dependency->size(), file_size)` fails. -/
def computeDataStatsLoop (dl : SimulatedDataLayerManager) (machine_res_id : Nat) :
    List ReferenceDescriptor → DataStats → Option DataStats
  | [], acc => some acc
  | dependency :: rest, acc =>
    let closest_block_replicas := GetClosestReplicas dl dependency.location machine_res_id []
    match accumulateReplicas machine_res_id (dl.GetRackForMachine machine_res_id)
        closest_block_replicas (acc.data_on_rack, acc.data_on_machine, 0) with
    | (data_on_rack, data_on_machine, file_size) =>
      if dependency.size = file_size then
        computeDataStatsLoop dl machine_res_id rest
          { input_size := add64 acc.input_size dependency.size,
            data_on_rack := data_on_rack,
            data_on_machine := data_on_machine }
      else none

/-- Embedding of `SimulatedDataLayerManager::ComputeDataStatsForMachine`, started from the values
the two out-parameters hold on entry. -/
def ComputeDataStatsForMachine (dl : SimulatedDataLayerManager) (td : TaskDescriptor)
    (machine_res_id data_on_rack data_on_machine : Nat) : Option DataStats :=
  computeDataStatsLoop dl machine_res_id td.dependencies
    { input_size := 0, data_on_rack := data_on_rack, data_on_machine := data_on_machine }

/-- Embedding of `SimulatedDataLayerManager::GetEstimatedTransferTimeUS`; `none` when a `CHECK`
fails. -/
def GetEstimatedTransferTimeUS (dl : SimulatedDataLayerManager) (td : TaskDescriptor)
    (machine_res_id : Nat) : Option Nat :=
  match ComputeDataStatsForMachine dl td machine_res_id 0 0 with
  | none => none
  | some stats =>
    if stats.input_size ≥ stats.data_on_rack then
      let remote_data := sub64 stats.input_size stats.data_on_rack
      let rack_data := sub64 stats.data_on_rack stats.data_on_machine
      let remote_transfer_time :=
        mul64 dl.simulated_remote_transfer_time remote_data / dl.BYTES_TO_MBITS
      let rack_transfer_time :=
        mul64 dl.simulated_rack_transfer_time rack_data / dl.BYTES_TO_MBITS
      some (add64 remote_transfer_time rack_transfer_time)
    else none

/-- The formula of the specification: one integer division of the summed numerator. -/
def specTransferUS (dl : SimulatedDataLayerManager) (stats : DataStats) : Nat :=
  (dl.simulated_remote_transfer_time * (stats.input_size - stats.data_on_rack)
    + dl.simulated_rack_transfer_time * (stats.data_on_rack - stats.data_on_machine))
    / dl.BYTES_TO_MBITS

/-- What `AddFilesForTask` reads from its collaborators, none of them among the sources: the
runtime distribution `runtime_dist_->ProportionShorterTasks`, the input distribution
`input_block_dist_->Inverse` (the cumulative probability passed between them is a `double`,
kept abstract here) and the flag `simulated_block_size`. -/
structure FileSynthesis (Probability : Type) where
  ProportionShorterTasks : Nat → Probability
  Inverse : Probability → Nat
  simulated_block_size : Nat

/-- One call `dfs_->AddBlocksForTask(td, num_blocks, max_machine_spread)`. -/
structure AddBlocksCall where
  task_uid : Nat
  num_blocks : Nat
  max_machine_spread : Nat
deriving DecidableEq, Repr

/-- Embedding of `SimulatedDataLayerManager::AddFilesForTask`: the value returned and the calls
made to the DFS policy. -/
def AddFilesForTask {Probability : Type} (fs : FileSynthesis Probability)
    (td : TaskDescriptor) (avg_runtime : Nat) (long_running_service : Bool)
    (max_machine_spread : Nat) : Nat × List AddBlocksCall :=
  if ¬ long_running_service then
    let cumulative_probability := fs.ProportionShorterTasks avg_runtime
    let input_size := fs.Inverse cumulative_probability
    let num_blocks :=
      if input_size % fs.simulated_block_size ≠ 0 then
        add64 (input_size / fs.simulated_block_size) 1
      else input_size / fs.simulated_block_size
    (mul64 num_blocks fs.simulated_block_size,
      [{ task_uid := td.uid, num_blocks := num_blocks,
         max_machine_spread := max_machine_spread }])
  else (0, [])

/-! ## Block-count distribution (`google_block_distribution.cc`), in exact real arithmetic

The C++ code computes in `double`. The embedding below replaces `double` by the real numbers, so
that `log2`, `exp2` and `std::round` are the exact functions; this is the arithmetic in which
the properties of the distribution are stated. -/

/-- The members of `GoogleBlockDistribution` that `inverse` reads. -/
structure GoogleBlockDistribution where
  p_min : ℝ
  min_blocks : ℕ
  coef : ℝ

/-- The constructor `GoogleBlockDistribution(percent_min, min_blocks, max_blocks)`. -/
noncomputable def GoogleBlockDistribution.construct (percent_min min_blocks max_blocks : ℕ) :
    GoogleBlockDistribution :=
  { p_min := (percent_min : ℝ) / 100.0,
    min_blocks := min_blocks,
    coef := (1 - (percent_min : ℝ) / 100.0) / Real.logb 2 (max_blocks : ℝ) }

/-- Embedding of `GoogleBlockDistribution::inverse`: `std::round` rounds to the nearest integer
and the result is converted to `uint64_t`. -/
noncomputable def GoogleBlockDistribution.inverse (d : GoogleBlockDistribution) (y : ℝ) : ℕ :=
  if y ≤ d.p_min then d.min_blocks
  else (round ((2 : ℝ) ^ ((y - d.p_min) / d.coef))).toNat

/-- The distribution function of the specification, `F(x) = p_min + coef · log2(x)`. -/
noncomputable def GoogleBlockDistribution.F (d : GoogleBlockDistribution) (x : ℝ) : ℝ :=
  d.p_min + d.coef * Real.logb 2 x

/-! ## The end of the simulation in `double` arithmetic

`FLAGS_runtime` is a `uint64_t` flag and `FLAGS_trace_speed_up` a `double` flag, so the
expression `FLAGS_runtime / FLAGS_trace_speed_up + 1` of the interference hook is evaluated in
`double` (IEEE 754 binary64, rounding to nearest, ties to even) and then converted to `uint64_t`
by `set_finish_time`. Non-negative finite values are carried as a numerator and a denominator. -/

/-- A value of type `double`: a finite value `(−1) ^ negative · mant · 2 ^ exp` with
`mant < 2 ^ 53`, an infinity, or a NaN. -/
inductive Double where
  | finite (negative : Bool) (mant : Nat) (exp : Int)
  | infinity (negative : Bool)
  | nan

/-- The quotient `a / b` (`b > 0`) rounded to the nearest integer, a tie going to the even
one. -/
def roundHalfEven (a b : Nat) : Nat :=
  if 2 * (a % b) > b ∨ (2 * (a % b) = b ∧ (a / b) % 2 = 1) then a / b + 1 else a / b

/-- Rounding of `a / b ≥ 2 ^ 52` to 53 significant bits: the quotient is halved, at most `fuel`
times, until it is below `2 ^ 53`, rounded to an integer, and doubled back. -/
def roundWide : Nat → Nat → Nat → Nat
  | 0, a, b => roundHalfEven a b
  | fuel + 1, a, b =>
    if 2 ^ 53 * b ≤ a then 2 * roundWide fuel a (2 * b) else roundHalfEven a b

/-- Rounding of `a / b < 2 ^ 52` to 53 significant bits: the quotient is doubled, at most `fuel`
times, until it is at least `2 ^ 52`, rounded to an integer, and halved back; the result is a
numerator and a denominator. -/
def roundNarrow : Nat → Nat → Nat → Nat × Nat
  | 0, a, b => (roundHalfEven a b, 1)
  | fuel + 1, a, b =>
    if a < 2 ^ 52 * b then ((roundNarrow fuel (2 * a) b).1, 2 * (roundNarrow fuel (2 * a) b).2)
    else (roundHalfEven a b, 1)

/-- The `double` nearest to the rational `a / b ≥ 0` (`b > 0`), as a numerator and a
denominator: rounding to nearest, ties to even, to a significand of 53 bits. `a` halvings, or
`b + 52` doublings, are more than the quotient can need. The exponent range is left unbounded:
where `double` would overflow to an infinity the value here is at least `2 ^ 1023`, and where it
would be subnormal the value here is below `2 ^ (−1022)`, which changes nothing of what
`unknownTaskFinishTime` returns. -/
def roundToDouble (a b : Nat) : Nat × Nat :=
  if a = 0 then (0, 1)
  else if a < 2 ^ 52 * b then roundNarrow (b + 52) a b
  else (roundWide a a b, 1)

/-- The argument `FLAGS_runtime / FLAGS_trace_speed_up + 1` of `set_finish_time`: `FLAGS_runtime`
is converted to `double`, divided, 1.0 is added, each step rounding, and the sum is converted
to `uint64_t` by dropping its fractional part. `none` when that conversion is undefined: the
sum is a NaN (NaN speed-up, or `0 / 0`), an infinity (division by zero), at least `2 ^ 64`, or at
most `−1`. An infinite speed-up gives the quotient `±0`, hence 1. -/
def unknownTaskFinishTime (FLAGS_runtime : Nat) (FLAGS_trace_speed_up : Double) : Option Nat :=
  match FLAGS_trace_speed_up with
  | Double.nan => none
  | Double.infinity _ => some 1
  | Double.finite negative mant exp =>
    if mant = 0 then none
    else
      let runtime := roundToDouble FLAGS_runtime 1
      let quotient := roundToDouble (runtime.1 * 2 ^ (-exp).toNat)
        (runtime.2 * mant * 2 ^ exp.toNat)
      if negative = false then
        let sum := roundToDouble (quotient.1 + quotient.2) quotient.2
        if sum.1 / sum.2 < UINT64_SIZE then some (sum.1 / sum.2) else none
      else if quotient.1 ≤ quotient.2 then
        let sum := roundToDouble (quotient.2 - quotient.1) quotient.2
        some (sum.1 / sum.2)
      else
        let sum := roundToDouble (quotient.1 - quotient.2) quotient.2
        if sum.1 < sum.2 then some 0 else none

/-! ## Transfer-aware interference hook (`no_interference_transfer_including.cc`) -/

/-- Modelled from the spec: `sim/simulator_utils.h` is not among the sources. `TaskEndRuntimes`
is the record emitted to the end-time list, `{task.id, previous_end_time}` on eviction and
`{task.id, current_end_time}` on placement; a field that was not set is `none`. -/
structure TaskEndRuntimes where
  task_id_ : Nat
  previous_end_time_ : Option Nat
  current_end_time_ : Option Nat
deriving DecidableEq, Repr

/-- What `NoInterferenceTransfer` reads from its collaborators: `MachineResIDForResource` on
`resource_map_` (`misc/utils.h`; `none` when it dies), the data layer manager, the flags
`FLAGS_runtime` (`DECLARE_uint64`) and `FLAGS_trace_speed_up` (`DECLARE_double`), and the two
helpers of `sim/simulator_utils.h`. -/
structure NoInterferenceTransfer where
  MachineResIDForResource : Nat → Option Nat
  data_layer_manager_ : SimulatedDataLayerManager
  FLAGS_runtime : Nat
  FLAGS_trace_speed_up : Double
  ComputeTaskTotalRunTime : Nat → TaskDescriptor → Nat
  UpdateTaskTotalUnscheduledTime : TaskDescriptor → Nat

/-- What a lifecycle callback leaves behind: the task descriptor, the table `*task_runtime_`
and the vector `*tasks_end_time`. -/
structure HookState where
  td : TaskDescriptor
  task_runtime_ : List (Nat × Nat)
  tasks_end_time : List TaskEndRuntimes
deriving DecidableEq, Repr

/-- Embedding of `NoInterferenceTransfer::GetTransferTimeUS`. -/
def GetTransferTimeUS (hook : NoInterferenceTransfer) (td : TaskDescriptor) (res_id : Nat) :
    Option Nat :=
  match hook.MachineResIDForResource res_id with
  | none => none
  | some machine_res_id => GetEstimatedTransferTimeUS hook.data_layer_manager_ td machine_res_id

/-- The useful work done before an eviction or migration, as both callbacks compute it:
`0` unless `current_time_us - start_time >= transfer_time` (in `uint64_t`). -/
def taskExecutedFor (current_time_us start_time transfer_time : Nat) : Nat :=
  if sub64 current_time_us start_time ≥ transfer_time then
    max 0 (sub64 (sub64 current_time_us start_time) transfer_time)
  else 0

/-- Embedding of `NoInterferenceTransfer::OnTaskEviction`. -/
def OnTaskEviction (hook : NoInterferenceTransfer) (current_time_us : Nat) (s : HookState)
    (res_id : Nat) : Option HookState :=
  let task_id := s.td.uid
  let task_end_runtimes : TaskEndRuntimes :=
    { task_id_ := task_id, previous_end_time_ := some s.td.finish_time,
      current_end_time_ := none }
  match GetTransferTimeUS hook s.td res_id with
  | none => none
  | some transfer_time =>
    let task_executed_for := taskExecutedFor current_time_us s.td.start_time transfer_time
    let td1 := { s.td with
      total_run_time := hook.ComputeTaskTotalRunTime current_time_us s.td }
    let task_runtime :=
      match FindOrNull s.task_runtime_ task_id with
      | some runtime => InsertOrUpdate s.task_runtime_ task_id (sub64 runtime task_executed_for)
      | none => s.task_runtime_
    some
      { td := { td1 with start_time := 0, has_start_time := false,
                         submit_time := current_time_us },
        task_runtime_ := task_runtime,
        tasks_end_time := s.tasks_end_time ++ [task_end_runtimes] }

/-- Embedding of `NoInterferenceTransfer::OnTaskMigration`. `runtime_ptr` points at the value
stored in the table, so the `*runtime_ptr` inside `set_finish_time` is read after `InsertOrUpdate`
has overwritten that value. `none` also when the task has no entry and the conversion of
`FLAGS_runtime / FLAGS_trace_speed_up + 1` to `uint64_t` is undefined. -/
def OnTaskMigration (hook : NoInterferenceTransfer) (current_time_us : Nat) (s : HookState)
    (old_res_id res_id : Nat) : Option HookState :=
  let task_id := s.td.uid
  match GetTransferTimeUS hook s.td old_res_id with
  | none => none
  | some old_transfer_time =>
    match GetTransferTimeUS hook s.td res_id with
    | none => none
    | some new_transfer_time =>
      let task_executed_for :=
        taskExecutedFor current_time_us s.td.start_time old_transfer_time
      let td1 := { s.td with
        total_run_time := hook.ComputeTaskTotalRunTime current_time_us s.td }
      match FindOrNull s.task_runtime_ task_id with
      | some runtime =>
        let task_runtime :=
          InsertOrUpdate s.task_runtime_ task_id (sub64 runtime task_executed_for)
        match FindOrNull task_runtime task_id with
        | none => none
        | some runtime_now =>
          some
            { td := { td1 with
                finish_time :=
                  sub64 (add64 (add64 current_time_us new_transfer_time) runtime_now)
                    task_executed_for,
                submit_time := current_time_us,
                start_time := current_time_us, has_start_time := true },
              task_runtime_ := task_runtime,
              tasks_end_time := s.tasks_end_time }
      | none =>
        match unknownTaskFinishTime hook.FLAGS_runtime hook.FLAGS_trace_speed_up with
        | none => none
        | some finish =>
          some
            { td := { td1 with
                finish_time := finish,
                submit_time := current_time_us,
                start_time := current_time_us, has_start_time := true },
              task_runtime_ := s.task_runtime_,
              tasks_end_time := s.tasks_end_time }

/-- Embedding of `NoInterferenceTransfer::OnTaskPlacement`. `none` when the transfer estimate
dies, or when the task has no entry and the conversion of
`FLAGS_runtime / FLAGS_trace_speed_up + 1` to `uint64_t` is undefined. -/
def OnTaskPlacement (hook : NoInterferenceTransfer) (current_time_us : Nat) (s : HookState)
    (res_id : Nat) : Option HookState :=
  let task_id := s.td.uid
  let td1 := { s.td with start_time := current_time_us, has_start_time := true }
  let td2 := { td1 with total_unscheduled_time := hook.UpdateTaskTotalUnscheduledTime td1 }
  match GetTransferTimeUS hook td2 res_id with
  | none => none
  | some transfer_time =>
    let finish_time :=
      match FindOrNull s.task_runtime_ td2.uid with
      | some runtime => some (add64 (add64 current_time_us transfer_time) runtime)
      | none => unknownTaskFinishTime hook.FLAGS_runtime hook.FLAGS_trace_speed_up
    match finish_time with
    | none => none
    | some finish =>
      some
        { td := { td2 with finish_time := finish },
          task_runtime_ := s.task_runtime_,
          tasks_end_time := s.tasks_end_time ++
            [{ task_id_ := task_id, previous_end_time_ := none,
               current_end_time_ := some finish }] }

/-! ## Placement engine (`fulcrum_c_scheduler.cc`) -/

/-- Modelled from the spec: the protobuf `ResourceDescriptor` is not among the sources. The type
of a resource is "machine, processing unit, rack aggregator". -/
inductive ResourceType where
  | RESOURCE_PU
  | RESOURCE_MACHINE
  | RESOURCE_RACK
deriving DecidableEq, Repr

/-- Modelled from the spec: the protobuf `ResourceDescriptor` is not among the sources. The state
of a resource is "idle, busy, failed". -/
inductive ResourceState where
  | RESOURCE_IDLE
  | RESOURCE_BUSY
  | RESOURCE_FAILED
deriving DecidableEq, Repr

/-- The descriptor carried by a `ResourceStatus` of the resource map. -/
structure ResourceDescriptor where
  uuid : Nat
  type : ResourceType
  state : ResourceState
deriving DecidableEq, Repr

/-- Modelled from the spec: the protobuf `JobDescriptor` is not among the sources. The state of a
job is "pending, running, completed". -/
inductive JobState where
  | PENDING
  | RUNNING
  | COMPLETED
deriving DecidableEq, Repr

/-- A job, as far as `ScheduleJob` touches it. -/
structure JobDescriptor where
  uuid : Nat
  state : JobState
deriving DecidableEq, Repr

/-- Modelled from the spec: `misc/map-util.h` is not among the sources. `FindPtrOrNull` is
`FindOrNull` for maps whose values are pointers. -/
def FindPtrOrNull {β : Type} (m : List (Nat × β)) (key : Nat) : Option β := FindOrNull m key

/-- The scheduler: its mutable state (`resource_map_`, the runnable set `runnable_tasks_[job_id]`
of the job being scheduled, `rand_seed_`) with a log of the `HandleTaskPlacement` calls made, and
what it reads from its collaborators: the machine-to-PU multimap (each entry a machine id and the
uuid of one of its PUs, in multimap order), `MachineResIDForResource` (`misc/utils.h`),
`ComputeClusterDataStatistics` (the map `data_on_machines` it fills, in iteration order), the
outcome of `std::sort` on the vector of its keys, the task map, the flag
`fulcrum_randomly_place_tasks` and `rand_r` (value drawn and next seed). -/
structure FulcrumScheduler where
  resource_map_ : List (Nat × ResourceDescriptor)
  runnable_tasks_ : List Nat
  rand_seed_ : Nat
  placements : List (Nat × Nat)
  machine_res_id_pus_ : List (Nat × Nat)
  MachineResIDForResource : Nat → Option Nat
  ComputeClusterDataStatistics : TaskDescriptor → List (Nat × Nat)
  std_sort : List (Nat × Nat) → List Nat → List Nat
  task_map_ : List (Nat × TaskDescriptor)
  fulcrum_randomly_place_tasks : Bool
  rand_r : Nat → Nat × Nat

/-- The value `data_on_machines[m]` read by the comparator (`operator[]`: 0 for a new key). -/
def dataOn (data_on_machines : List (Nat × Nat)) (m : Nat) : Nat :=
  (FindOrNull data_on_machines m).getD 0

/-- The comparator handed to `std::sort`: `data_on_machines[lhs] > data_on_machines[rhs]`. -/
def moreData (data_on_machines : List (Nat × Nat)) (lhs rhs : Nat) : Prop :=
  dataOn data_on_machines lhs > dataOn data_on_machines rhs

/-- What `std::sort` guarantees about its outcome: a rearrangement of the input in which no
element comes before one that the comparator puts strictly first. The order of elements the
comparator does not separate is left open. -/
def StdSortOutcome (data_on_machines : List (Nat × Nat)) (input output : List Nat) : Prop :=
  output.Perm input ∧ output.Pairwise (fun a b => ¬ moreData data_on_machines b a)

/-- Inserts a machine into a vector sorted by descending data, after the machines holding at
least as much. -/
def insertByData (data_on_machines : List (Nat × Nat)) (m : Nat) : List Nat → List Nat
  | [] => [m]
  | x :: rest =>
    if dataOn data_on_machines m > dataOn data_on_machines x then m :: x :: rest
    else x :: insertByData data_on_machines m rest

/-- One admissible `std::sort`: insertion sort from the back of the vector, which leaves
machines holding equally much data in the reverse of their input order. -/
def insertionSortByData (data_on_machines : List (Nat × Nat)) : List Nat → List Nat
  | [] => []
  | m :: rest => insertByData data_on_machines m (insertionSortByData data_on_machines rest)

/-- The range `machine_res_id_pus_->equal_range(machine_res_id)`: uuids of the PUs listed for
the machine, in multimap order. -/
def equal_range (machine_res_id_pus : List (Nat × Nat)) (machine_res_id : Nat) : List Nat :=
  (machine_res_id_pus.filter (fun kv => decide (kv.1 = machine_res_id))).map (fun kv => kv.2)

/-- The loop over the PUs of one machine in `FindResourceForTask`. Result `none`: the lookup of
the PU gave `NULL` or `CHECK_EQ(type, RESOURCE_PU)` failed; `some none`: no idle PU here;
`some (some pu)`: `*best_resource = pu; return true`. -/
def findIdlePU (resource_map : List (Nat × ResourceDescriptor)) :
    List Nat → Option (Option Nat)
  | [] => some none
  | pu_res_id :: rest =>
    match FindPtrOrNull resource_map pu_res_id with
    | none => none
    | some pu_res_status =>
      if pu_res_status.type ≠ ResourceType.RESOURCE_PU then none
      else if pu_res_status.state = ResourceState.RESOURCE_IDLE then some (some pu_res_id)
      else findIdlePU resource_map rest

/-- The first loop of `FindResourceForTask`, over the sorted vector `data_machines`. -/
def localityPass (sched : FulcrumScheduler) : List Nat → Option (Option Nat)
  | [] => some none
  | res_id :: rest =>
    match FindPtrOrNull sched.resource_map_ res_id with
    | none => none
    | some res_status =>
      if res_status.type ≠ ResourceType.RESOURCE_MACHINE then none
      else
        match sched.MachineResIDForResource res_status.uuid with
        | none => none
        | some machine_res_id =>
          match findIdlePU sched.resource_map_
              (equal_range sched.machine_res_id_pus_ machine_res_id) with
          | none => none
          | some (some pu_res_id) => some (some pu_res_id)
          | some none => localityPass sched rest

/-- The second loop of `FindResourceForTask`, over the whole resource map. -/
def fallbackPass : List (Nat × ResourceDescriptor) → Option Nat
  | [] => none
  | (res_id, res_status) :: rest =>
    if res_status.state = ResourceState.RESOURCE_IDLE then some res_id else fallbackPass rest

/-- The vector `data_machines` of `FindResourceForTask` after `std::sort`. -/
def sortedDataMachines (sched : FulcrumScheduler) (task_desc : TaskDescriptor) : List Nat :=
  let data_on_machines := sched.ComputeClusterDataStatistics task_desc
  sched.std_sort data_on_machines (data_on_machines.map (fun kv => kv.1))

/-- Embedding of `FulcrumScheduler::FindResourceForTask`. Result `none`: a `CHECK` failed;
`some none`: `return false`; `some (some r)`: `*best_resource = r; return true`. -/
def FindResourceForTask (sched : FulcrumScheduler) (task_desc : TaskDescriptor) :
    Option (Option Nat) :=
  match localityPass sched (sortedDataMachines sched task_desc) with
  | none => none
  | some (some pu_res_id) => some (some pu_res_id)
  | some none => some (fallbackPass sched.resource_map_)

/-- The sampling loop of `FindRandomResourceForTask`, `max_attempts` draws left: the resource
chosen (if any) and the seed afterwards. -/
def randomAttempts (rand_r : Nat → Nat × Nat) (resources : List ResourceDescriptor) :
    Nat → Nat → Option Nat × Nat
  | 0, seed => (none, seed)
  | max_attempts + 1, seed =>
    let resource_index := ((rand_r seed).1 % 2 ^ 32) % resources.length
    match resources.get? resource_index with
    | some res =>
      if res.state = ResourceState.RESOURCE_IDLE then (some res.uuid, (rand_r seed).2)
      else randomAttempts rand_r resources max_attempts (rand_r seed).2
    | none => randomAttempts rand_r resources max_attempts (rand_r seed).2

/-- Embedding of `FulcrumScheduler::FindRandomResourceForTask`: `none` for an empty resource map
(the remainder by `resources.size()` is then undefined), otherwise the resource chosen by at most
2000 draws and the scheduler with the seed advanced. -/
def FindRandomResourceForTask (sched : FulcrumScheduler) (_task_desc : TaskDescriptor) :
    Option (Option Nat × FulcrumScheduler) :=
  let resources := sched.resource_map_.map (fun kv => kv.2)
  if resources.length = 0 then none
  else
    match randomAttempts sched.rand_r resources 2000 sched.rand_seed_ with
    | (best, seed) => some (best, { sched with rand_seed_ := seed })

/-- Modelled from the spec: `EventDrivenScheduler::HandleTaskPlacement` is not among the sources.
The commit of a placement "transition[s] the PU to busy" and invokes the placement callback; the
call is recorded in `placements` as the pair of the task uid and the uuid of the resource. -/
def HandleTaskPlacement (sched : FulcrumScheduler) (td : TaskDescriptor) (best_resource : Nat)
    (rd : ResourceDescriptor) : FulcrumScheduler :=
  { sched with
    resource_map_ := updateEntry sched.resource_map_ best_resource
      { rd with state := ResourceState.RESOURCE_BUSY },
    placements := sched.placements ++ [(td.uid, rd.uuid)] }

/-- The choice between the two placement modes in `ScheduleJob`
(`if (FLAGS_fulcrum_randomly_place_tasks)`): `best_resource` on success, and the scheduler
afterwards; `none` when a `CHECK` fails. -/
def findResource (sched : FulcrumScheduler) (td : TaskDescriptor) :
    Option (Option Nat × FulcrumScheduler) :=
  if sched.fulcrum_randomly_place_tasks then FindRandomResourceForTask sched td
  else (FindResourceForTask sched td).map (fun best => (best, sched))

/-- The loop of `ScheduleJob` over the local copy `runnable_tasks`, with the counter
`num_scheduled_tasks`; `none` when a `CHECK` fails. -/
def scheduleTasks : List Nat → FulcrumScheduler → Nat → Option (Nat × FulcrumScheduler)
  | [], sched, num_scheduled_tasks => some (num_scheduled_tasks, sched)
  | task_id :: rest, sched, num_scheduled_tasks =>
    match FindPtrOrNull sched.task_map_ task_id with
    | none => none
    | some td =>
      match findResource sched td with
      | none => none
      | some (none, sched1) => scheduleTasks rest sched1 num_scheduled_tasks
      | some (some best_resource, sched1) =>
        match FindPtrOrNull sched1.resource_map_ best_resource with
        | none => none
        | some rp =>
          let sched2 := { sched1 with
            runnable_tasks_ := sched1.runnable_tasks_.filter (fun t => decide (t ≠ td.uid)) }
          scheduleTasks rest (HandleTaskPlacement sched2 td best_resource rp)
            (num_scheduled_tasks + 1)

/-- Embedding of `FulcrumScheduler::ScheduleJob`: the value returned, the job descriptor and the
scheduler afterwards. `ComputeRunnableTasksForJob` (not among the sources) is taken to return the
runnable set of the job, `runnable_tasks_[job_id]`, of which the loop iterates a copy. -/
def ScheduleJob (sched : FulcrumScheduler) (jd : JobDescriptor) :
    Option (Nat × JobDescriptor × FulcrumScheduler) :=
  let runnable_tasks := sched.runnable_tasks_
  match scheduleTasks runnable_tasks sched 0 with
  | none => none
  | some (num_scheduled_tasks, sched1) =>
    some (num_scheduled_tasks,
      if num_scheduled_tasks > 0 then { jd with state := JobState.RUNNING } else jd,
      sched1)

/-! ## Auxiliary definitions used in the proofs -/

/-- What one listed replica does to the entry of its own block. -/
def pickCloser (machine_res_id rack_ec : Nat) (cur : Option DataLocation)
    (location : DataLocation) : Option DataLocation :=
  match cur with
  | none => some location
  | some closest_loc =>
    if machine_res_id ≠ closest_loc.machine_res_id_ then
      if machine_res_id = location.machine_res_id_ then some location
      else if rack_ec = location.rack_id_ ∧ rack_ec ≠ closest_loc.rack_id_ then some location
      else some closest_loc
    else some closest_loc

/-- The entry of block `b` while the listed replicas go by. -/
def closestOfBlock (machine_res_id rack_ec b : Nat) (cur : Option DataLocation) :
    List DataLocation → Option DataLocation
  | [] => cur
  | location :: rest =>
    closestOfBlock machine_res_id rack_ec b
      (if location.block_id_ = b then pickCloser machine_res_id rack_ec cur location else cur)
      rest

/-- The replicas `GetClosestReplicas` selects for one dependency, seen from the machine. -/
def selectedReplicas (dl : SimulatedDataLayerManager) (machine_res_id : Nat)
    (dependency : ReferenceDescriptor) : List DataLocation :=
  (GetClosestReplicas dl dependency.location machine_res_id []).map (fun kv => kv.2)

/-- The replicas selected for all the dependencies of a task, one after another. -/
def taskSelected (dl : SimulatedDataLayerManager) (td : TaskDescriptor)
    (machine_res_id : Nat) : List DataLocation :=
  (td.dependencies.map (selectedReplicas dl machine_res_id)).flatten

/-- Sum of the sizes of a list of replicas, as a natural number. -/
def totalBytes (l : List DataLocation) : Nat :=
  (l.map (fun r => r.size_bytes_)).sum

/-- The replicas of the list that carry the rack id. -/
def inRack (rack_ec : Nat) (l : List DataLocation) : List DataLocation :=
  l.filter (fun r => decide (rack_ec = r.rack_id_))

/-- The replicas of the list that are on the machine. -/
def onMachine (machine_res_id : Nat) (l : List DataLocation) : List DataLocation :=
  l.filter (fun r => decide (machine_res_id = r.machine_res_id_))

/-- Sum of the declared sizes of a list of dependencies, as a natural number. -/
def declaredBytes (deps : List ReferenceDescriptor) : Nat :=
  (deps.map (fun d => d.size)).sum

/-- The seed after `k` calls of `rand_r`. -/
def seedAfter (rand_r : Nat → Nat × Nat) : Nat → Nat → Nat
  | seed, 0 => seed
  | seed, k + 1 => seedAfter rand_r (rand_r seed).2 k

/-- The resource hit by draw number `k` (counting from 0) of the sampling loop. -/
def drawnResource (rand_r : Nat → Nat × Nat) (resources : List ResourceDescriptor)
    (seed k : Nat) : Option ResourceDescriptor :=
  resources.get? (((rand_r (seedAfter rand_r seed k)).1 % 2 ^ 32) % resources.length)

/-- Draw number `k` lands on an idle resource. -/
def drawIsIdle (rand_r : Nat → Nat × Nat) (resources : List ResourceDescriptor)
    (seed k : Nat) : Prop :=
  ∃ rd, drawnResource rand_r resources seed k = some rd ∧
    rd.state = ResourceState.RESOURCE_IDLE

/-- Reference definition worded after the specification, "first-seen replica of the best class":
among the listed replicas of block `b`, in listing order, the first one on the machine; when
there is none, the first one whose rack id is the rack of the machine; when there is none either,
the first one listed. -/
def firstOfBestClass (machine_res_id rack_ec b : Nat) (locations : List DataLocation) :
    Option DataLocation :=
  let of_block := locations.filter (fun l => l.block_id_ = b)
  match of_block.find? (fun l => machine_res_id = l.machine_res_id_) with
  | some l => some l
  | none =>
    match of_block.find? (fun l => rack_ec = l.rack_id_) with
    | some l => some l
    | none => of_block.head?

/-- The three locality classes of a replica seen from a target machine. -/
inductive LocalityClass where
  | on_machine
  | same_rack
  | remote
deriving DecidableEq, Repr

/-- The locality class of a replica seen from machine `machine_res_id` of rack `rack_ec`, with
the two tests `GetClosestReplicas` and `ComputeDataStatsForMachine` make. -/
def localityClass (machine_res_id rack_ec : Nat) (r : DataLocation) : LocalityClass :=
  if machine_res_id = r.machine_res_id_ then LocalityClass.on_machine
  else if rack_ec = r.rack_id_ then LocalityClass.same_rack
  else LocalityClass.remote

/-- The tasks of the list are attempted in turn, starting from `sched`; `placed` lists, in the
order of the attempts, the tasks for which a resource was found, each with the uuid of its
resource, and `sched'` is the scheduler after the last attempt. An attempt looks the task up in
the task map and looks for a resource in the state the attempts before it have left; when a
resource is found, the task leaves the runnable set and `HandleTaskPlacement` commits the
placement; when none is found, only the search has touched the state. -/
def placementRun :
    List Nat → FulcrumScheduler → List (Nat × Nat) → FulcrumScheduler → Prop
  | [], sched, placed, sched' => placed = [] ∧ sched' = sched
  | task_id :: rest, sched, placed, sched' =>
    ∃ td best sched1, FindPtrOrNull sched.task_map_ task_id = some td ∧
      findResource sched td = some (best, sched1) ∧
      match best with
      | none => placementRun rest sched1 placed sched'
      | some best_resource =>
        ∃ rp placed', FindPtrOrNull sched1.resource_map_ best_resource = some rp ∧
          placed = (td.uid, rp.uuid) :: placed' ∧
          placementRun rest
            (HandleTaskPlacement
              { sched1 with
                runnable_tasks_ := sched1.runnable_tasks_.filter (fun t => decide (t ≠ td.uid)) }
              td best_resource rp)
            placed' sched'

/-! ## Concrete clusters used as witnesses -/

/-- A file of two blocks seen from machine 1 (rack 1): block 0 (100 bytes) has its only replica
on machine 2 of rack 1, block 1 (499 bytes) on machine 3 of rack 2. -/
def twoBlockLocations : List DataLocation :=
  [{ machine_res_id_ := 2, rack_id_ := 1, block_id_ := 0, size_bytes_ := 100 },
   { machine_res_id_ := 3, rack_id_ := 2, block_id_ := 1, size_bytes_ := 499 }]

/-- Data layer holding `twoBlockLocations`, default transfer-time flags, and the given number of
bytes per Mbit. -/
def twoBlockLayer (bytes_to_mbits : Nat) : SimulatedDataLayerManager :=
  { GetFileLocations := fun _ => twoBlockLocations,
    GetRackForMachine := fun m => if m = 3 then 2 else 1,
    simulated_remote_transfer_time := 250,
    simulated_rack_transfer_time := 100,
    BYTES_TO_MBITS := bytes_to_mbits }

/-- A task with no timestamps set yet and the given dependencies. -/
def freshTask (uid : Nat) (dependencies : List ReferenceDescriptor) : TaskDescriptor :=
  { uid := uid, dependencies := dependencies, submit_time := 0, start_time := 0,
    has_start_time := false, finish_time := 0, total_run_time := 0,
    total_unscheduled_time := 0 }

/-- A task reading the two-block file, declared size 599 bytes. -/
def twoBlockTask : TaskDescriptor := freshTask 7 [{ location := "f", size := 599 }]

/-- A cluster of three machines: machine 1 in rack 1, machines 2 and 3 in rack 2. The file has
block 0 (`a` bytes) on machine 3 and block 1 (`c` bytes) on machine 2. Default transfer-time
flags, 131072 bytes per Mbit. -/
def clusterLayer (a c : Nat) : SimulatedDataLayerManager :=
  { GetFileLocations := fun _ =>
      [{ machine_res_id_ := 3, rack_id_ := 2, block_id_ := 0, size_bytes_ := a },
       { machine_res_id_ := 2, rack_id_ := 2, block_id_ := 1, size_bytes_ := c }],
    GetRackForMachine := fun m => if m = 1 then 1 else 2,
    simulated_remote_transfer_time := 250,
    simulated_rack_transfer_time := 100,
    BYTES_TO_MBITS := 131072 }

/-- The same cluster after both blocks have been replicated onto machine 1. -/
def localLayer (a c : Nat) : SimulatedDataLayerManager :=
  { GetFileLocations := fun _ =>
      [{ machine_res_id_ := 1, rack_id_ := 1, block_id_ := 0, size_bytes_ := a },
       { machine_res_id_ := 1, rack_id_ := 1, block_id_ := 1, size_bytes_ := c }],
    GetRackForMachine := fun m => if m = 1 then 1 else 2,
    simulated_remote_transfer_time := 250,
    simulated_rack_transfer_time := 100,
    BYTES_TO_MBITS := 131072 }

/-- An interference hook over the given data layer: PU 11 belongs to machine 1, PU 12 to
machine 2; the simulation runs for 1000000 microseconds at the speed-up 1.0. -/
def hookOver (dl : SimulatedDataLayerManager) : NoInterferenceTransfer :=
  { MachineResIDForResource := fun r =>
      if r = 11 then some 1 else if r = 12 then some 2 else none,
    data_layer_manager_ := dl,
    FLAGS_runtime := 1000000,
    FLAGS_trace_speed_up := Double.finite false 1 0,
    ComputeTaskTotalRunTime := fun t td => td.total_run_time + (t - td.start_time),
    UpdateTaskTotalUnscheduledTime := fun td =>
      td.total_unscheduled_time + (td.start_time - td.submit_time) }

/-- Task 7 reading the file of `clusterLayer a c`, not yet placed, with `remaining`
microseconds left to run and an empty end-time list. -/
def submittedTask (a c remaining : Nat) : HookState :=
  { td := freshTask 7 [{ location := "f", size := a + c }],
    task_runtime_ := [(7, remaining)],
    tasks_end_time := [] }

/-- No `CHECK` of the locality pass can fail on these machines: each is in the resource map as
a machine whose machine resource id is known, and each PU listed for it in the multimap is in
the resource map as a PU. -/
def checksPassOn (sched : FulcrumScheduler) (machines : List Nat) : Prop :=
  ∀ m ∈ machines, ∃ res_status, FindPtrOrNull sched.resource_map_ m = some res_status ∧
    res_status.type = ResourceType.RESOURCE_MACHINE ∧
    ∃ machine_res_id, sched.MachineResIDForResource res_status.uuid = some machine_res_id ∧
      ∀ pu ∈ equal_range sched.machine_res_id_pus_ machine_res_id,
        ∃ rd, FindPtrOrNull sched.resource_map_ pu = some rd ∧
          rd.type = ResourceType.RESOURCE_PU

/-- The machines holding input data of the task: the keys of `data_on_machines`. -/
def dataMachines (sched : FulcrumScheduler) (task_desc : TaskDescriptor) : List Nat :=
  (sched.ComputeClusterDataStatistics task_desc).map (fun kv => kv.1)

/-- A scheduler over the given resource map, machine-to-PU multimap and `data_on_machines`
(the same for every task), with runnable set, task map and placement mode as given. Machines
have ids below 10; the PUs of machine `m` have ids `10 * m + 1`, `10 * m + 2`, ... -/
def schedulerOver (resource_map : List (Nat × ResourceDescriptor))
    (machine_res_id_pus data_on_machines : List (Nat × Nat)) (runnable_tasks : List Nat)
    (task_map : List (Nat × TaskDescriptor)) (randomly : Bool) : FulcrumScheduler :=
  { resource_map_ := resource_map,
    runnable_tasks_ := runnable_tasks,
    rand_seed_ := 0,
    placements := [],
    machine_res_id_pus_ := machine_res_id_pus,
    MachineResIDForResource := fun r => some (if r < 10 then r else r / 10),
    ComputeClusterDataStatistics := fun _ => data_on_machines,
    std_sort := insertionSortByData,
    task_map_ := task_map,
    fulcrum_randomly_place_tasks := randomly,
    rand_r := fun seed => (seed, seed + 1) }

/-- A resource map entry. -/
def resource (uuid : Nat) (type : ResourceType) (state : ResourceState) :
    Nat × ResourceDescriptor :=
  (uuid, { uuid := uuid, type := type, state := state })

/-- Machine 1 holds 100 bytes and its PU 11 is busy; machine 2 holds 50 bytes, its PU 21 is
busy and its PU 22 idle; machine 3 holds nothing and its PU 31 is idle. -/
def twoDataMachines : FulcrumScheduler :=
  schedulerOver
    [resource 3 ResourceType.RESOURCE_MACHINE ResourceState.RESOURCE_BUSY,
     resource 31 ResourceType.RESOURCE_PU ResourceState.RESOURCE_IDLE,
     resource 1 ResourceType.RESOURCE_MACHINE ResourceState.RESOURCE_BUSY,
     resource 11 ResourceType.RESOURCE_PU ResourceState.RESOURCE_BUSY,
     resource 2 ResourceType.RESOURCE_MACHINE ResourceState.RESOURCE_BUSY,
     resource 21 ResourceType.RESOURCE_PU ResourceState.RESOURCE_BUSY,
     resource 22 ResourceType.RESOURCE_PU ResourceState.RESOURCE_IDLE]
    [(1, 11), (2, 21), (2, 22), (3, 31)] [(2, 50), (1, 100)] [] [] false

/-- The uids of the tasks of the runnable set, in iteration order, as the task map gives
them. -/
def runnableUids (sched : FulcrumScheduler) (runnable_tasks : List Nat) : List Nat :=
  runnable_tasks.filterMap (fun task_id =>
    (FindPtrOrNull sched.task_map_ task_id).map (fun td => td.uid))

/-- A job with tasks 1, 2 and 3 runnable on a cluster of one machine with the PUs 11 (idle),
12 (busy) and 13 (idle); no task has input data. -/
def threeTaskJob : FulcrumScheduler :=
  schedulerOver
    [resource 1 ResourceType.RESOURCE_MACHINE ResourceState.RESOURCE_BUSY,
     resource 11 ResourceType.RESOURCE_PU ResourceState.RESOURCE_IDLE,
     resource 12 ResourceType.RESOURCE_PU ResourceState.RESOURCE_BUSY,
     resource 13 ResourceType.RESOURCE_PU ResourceState.RESOURCE_IDLE]
    [(1, 11), (1, 12), (1, 13)] [] [1, 2, 3]
    [(1, freshTask 1 []), (2, freshTask 2 []), (3, freshTask 3 [])] false

/-- The same job when every PU is busy. -/
def threeTaskJobAllBusy : FulcrumScheduler :=
  schedulerOver
    [resource 1 ResourceType.RESOURCE_MACHINE ResourceState.RESOURCE_BUSY,
     resource 11 ResourceType.RESOURCE_PU ResourceState.RESOURCE_BUSY,
     resource 12 ResourceType.RESOURCE_PU ResourceState.RESOURCE_BUSY,
     resource 13 ResourceType.RESOURCE_PU ResourceState.RESOURCE_BUSY]
    [(1, 11), (1, 12), (1, 13)] [] [1, 2, 3]
    [(1, freshTask 1 []), (2, freshTask 2 []), (3, freshTask 3 [])] false

/-- Every placement attempt of the loop of `ScheduleJob` fails: for each task of the list in
turn the task is in the task map and no resource is found for it. -/
def everyAttemptFails : List Nat → FulcrumScheduler → Prop
  | [], _ => True
  | task_id :: rest, sched =>
    ∃ td sched1, FindPtrOrNull sched.task_map_ task_id = some td ∧
      findResource sched td = some (none, sched1) ∧ everyAttemptFails rest sched1

/-- A file of three blocks seen from machine 1 (rack 1). Block 0 has replicas on machine 3
(rack 2) and on machine 1 itself; block 1 on machine 5 (rack 3) and on machine 2 (rack 1);
block 2 only on machine 5 (rack 3). -/
def replicatedLayer : SimulatedDataLayerManager :=
  { GetFileLocations := fun _ =>
      [{ machine_res_id_ := 3, rack_id_ := 2, block_id_ := 0, size_bytes_ := 64 },
       { machine_res_id_ := 5, rack_id_ := 3, block_id_ := 1, size_bytes_ := 64 },
       { machine_res_id_ := 1, rack_id_ := 1, block_id_ := 0, size_bytes_ := 64 },
       { machine_res_id_ := 2, rack_id_ := 1, block_id_ := 1, size_bytes_ := 64 },
       { machine_res_id_ := 5, rack_id_ := 3, block_id_ := 2, size_bytes_ := 64 }],
    GetRackForMachine := fun m => if m ≤ 2 then 1 else if m ≤ 4 then 2 else 3,
    simulated_remote_transfer_time := 250,
    simulated_rack_transfer_time := 100,
    BYTES_TO_MBITS := 131072 }


/-- Machine 1 holds 100 bytes of the task's input but is not in the resource map; machine 2
holds 50 bytes and its PU 21 is idle. -/
def missingMachine : FulcrumScheduler :=
  schedulerOver
    [resource 2 ResourceType.RESOURCE_MACHINE ResourceState.RESOURCE_BUSY,
     resource 21 ResourceType.RESOURCE_PU ResourceState.RESOURCE_IDLE]
    [(2, 21)] [(2, 50), (1, 100)] [] [] false

/-- A data layer whose only replica sits on machine 1 but carries the rack id 2, while machine 1
is in rack 1. -/
def inconsistentLayer : SimulatedDataLayerManager :=
  { GetFileLocations := fun _ =>
      [{ machine_res_id_ := 1, rack_id_ := 2, block_id_ := 0, size_bytes_ := 1000 }],
    GetRackForMachine := fun _ => 1,
    simulated_remote_transfer_time := 250,
    simulated_rack_transfer_time := 100,
    BYTES_TO_MBITS := 131072 }

/-- A data layer with two files seen from machine 1 (rack 1): file `a` is one block of
`2 ^ 64 − 1` bytes on machine 2 of rack 1, file `b` one block of 1 byte on machine 3 of rack 2. -/
def hugeFileLayer : SimulatedDataLayerManager :=
  { GetFileLocations := fun file =>
      if file = "a" then
        [{ machine_res_id_ := 2, rack_id_ := 1, block_id_ := 0, size_bytes_ := 2 ^ 64 - 1 }]
      else
        [{ machine_res_id_ := 3, rack_id_ := 2, block_id_ := 1, size_bytes_ := 1 }],
    GetRackForMachine := fun m => if m = 3 then 2 else 1,
    simulated_remote_transfer_time := 250,
    simulated_rack_transfer_time := 100,
    BYTES_TO_MBITS := 131072 }

/-- File synthesis in which the input distribution always answers 320, with the default block
size of 512 MB. -/
def constantSynthesis : FileSynthesis Unit :=
  { ProportionShorterTasks := fun _ => (),
    Inverse := fun _ => 320,
    simulated_block_size := 536870912 }

/-- A file of two blocks seen from machine 1 (machines 1 and 2 are in rack 1, the others in
rack 2): block 0, of 1 byte, has its replica on the given machine with the given rack id;
block 1, of 1310 bytes, has its replica on machine 2 of rack 1. Default flags, 131072 bytes per
Mbit. -/
def tinyBlockLayer (machine rack : Nat) : SimulatedDataLayerManager :=
  { GetFileLocations := fun _ =>
      [{ machine_res_id_ := machine, rack_id_ := rack, block_id_ := 0, size_bytes_ := 1 },
       { machine_res_id_ := 2, rack_id_ := 1, block_id_ := 1, size_bytes_ := 1310 }],
    GetRackForMachine := fun m => if m ≤ 2 then 1 else 2,
    simulated_remote_transfer_time := 250,
    simulated_rack_transfer_time := 100,
    BYTES_TO_MBITS := 131072 }

/-- A task reading the file of `tinyBlockLayer`, declared size 1311 bytes. -/
def tinyBlockTask : TaskDescriptor := freshTask 7 [{ location := "f", size := 1311 }]

/-- Machines 1 and 2 hold 100 bytes each of the task's input, and their PUs 11 and 21 are both
idle; `data_on_machines` is iterated in the order given. -/
def tiedMachines (data_on_machines : List (Nat × Nat)) : FulcrumScheduler :=
  schedulerOver
    [resource 1 ResourceType.RESOURCE_MACHINE ResourceState.RESOURCE_BUSY,
     resource 11 ResourceType.RESOURCE_PU ResourceState.RESOURCE_IDLE,
     resource 2 ResourceType.RESOURCE_MACHINE ResourceState.RESOURCE_BUSY,
     resource 21 ResourceType.RESOURCE_PU ResourceState.RESOURCE_IDLE]
    [(1, 11), (2, 21)] data_on_machines [] [] false

theorem FindOrNull_append_single {β : Type} (m : List (Nat × β)) (k : Nat) (v : β) (b : Nat) :
    FindOrNull (m ++ [(k, v)]) b =
      match FindOrNull m b with
      | some x => some x
      | none => if k = b then some v else none := by
  induction m with
  | nil => simp [FindOrNull]
  | cons p rest ih =>
    obtain ⟨k', v'⟩ := p
    by_cases h : k' = b
    · simp [FindOrNull, h]
    · simp [FindOrNull, h, ih]

theorem FindOrNull_updateEntry {β : Type} (m : List (Nat × β)) (k : Nat) (v : β) (b : Nat) :
    FindOrNull (updateEntry m k v) b =
      if k = b then (FindOrNull m b).map (fun _ => v) else FindOrNull m b := by
  induction m with
  | nil => simp [FindOrNull, updateEntry]
  | cons p rest ih =>
    obtain ⟨k', v'⟩ := p
    by_cases h : k' = k
    · subst h
      by_cases hb : k' = b
      · simp [FindOrNull, updateEntry, hb]
      · simp [FindOrNull, updateEntry, hb]
    · by_cases hb : k' = b
      · subst hb
        have hkb : ¬ k = k' := fun e => h e.symm
        simp [FindOrNull, updateEntry, h, hkb]
      · simp [FindOrNull, updateEntry, h, hb, ih]

theorem FindOrNull_InsertIfNotPresent {β : Type} (m : List (Nat × β)) (k : Nat) (v : β)
    (b : Nat) :
    FindOrNull (InsertIfNotPresent m k v) b =
      if k = b then some ((FindOrNull m k).getD v) else FindOrNull m b := by
  unfold InsertIfNotPresent
  cases hk : FindOrNull m k with
  | some x =>
    by_cases hb : k = b
    · subst hb; simp [hk]
    · simp [hb]
  | none =>
    by_cases hb : k = b
    · subst hb; simp [FindOrNull_append_single, hk]
    · simp only [FindOrNull_append_single, hb, if_false]
      cases FindOrNull m b <;> rfl

theorem FindOrNull_InsertOrUpdate {β : Type} (m : List (Nat × β)) (k : Nat) (v : β)
    (b : Nat) :
    FindOrNull (InsertOrUpdate m k v) b = if k = b then some v else FindOrNull m b := by
  unfold InsertOrUpdate
  cases hk : FindOrNull m k with
  | some x =>
    by_cases hb : k = b
    · subst hb; simp [FindOrNull_updateEntry, hk]
    · simp [FindOrNull_updateEntry, hb]
  | none =>
    by_cases hb : k = b
    · subst hb; simp [FindOrNull_append_single, hk]
    · simp only [FindOrNull_append_single, hb, if_false]
      cases FindOrNull m b <;> rfl

/-! ## Closest replicas, block by block -/

theorem FindOrNull_closestReplicaStep (M rack : Nat) (m : List (Nat × DataLocation))
    (location : DataLocation) (b : Nat) :
    FindOrNull (closestReplicaStep M rack m location) b =
      if location.block_id_ = b then pickCloser M rack (FindOrNull m b) location
      else FindOrNull m b := by
  have hins : FindOrNull (InsertIfNotPresent m location.block_id_ location) location.block_id_
      = some ((FindOrNull m location.block_id_).getD location) := by
    simp [FindOrNull_InsertIfNotPresent]
  unfold closestReplicaStep
  simp only [hins]
  by_cases hb : location.block_id_ = b
  · subst hb
    cases hcur : FindOrNull m location.block_id_ with
    | none =>
      simp only [Option.getD_none, pickCloser, if_true]
      split_ifs <;>
        simp [FindOrNull_InsertOrUpdate, FindOrNull_InsertIfNotPresent, hcur]
    | some c =>
      simp only [Option.getD_some, pickCloser, if_true]
      split_ifs <;>
        simp [FindOrNull_InsertOrUpdate, FindOrNull_InsertIfNotPresent, hcur]
  · simp only [hb, if_false]
    split_ifs <;>
      simp [FindOrNull_InsertOrUpdate, FindOrNull_InsertIfNotPresent, hb]

theorem FindOrNull_foldl_closestReplicaStep (M rack b : Nat) (locations : List DataLocation) :
    ∀ m : List (Nat × DataLocation),
      FindOrNull (locations.foldl (closestReplicaStep M rack) m) b =
        closestOfBlock M rack b (FindOrNull m b) locations := by
  induction locations with
  | nil => intro m; rfl
  | cons location rest ih =>
    intro m
    simp only [List.foldl_cons, closestOfBlock, ih, FindOrNull_closestReplicaStep]

theorem FindOrNull_GetClosestReplicas (dl : SimulatedDataLayerManager) (file : String)
    (M b : Nat) :
    FindOrNull (GetClosestReplicas dl file M []) b =
      closestOfBlock M (dl.GetRackForMachine M) b none (dl.GetFileLocations file) := by
  unfold GetClosestReplicas
  simp only [FindOrNull_foldl_closestReplicaStep]
  rfl

/-- The entry of a block is always one of the replicas listed for it. -/
theorem closestOfBlock_mem (M rack b : Nat) (locations : List DataLocation) :
    ∀ cur r, closestOfBlock M rack b cur locations = some r →
      cur = some r ∨ (r ∈ locations ∧ r.block_id_ = b) := by
  induction locations with
  | nil => intro cur r h; exact Or.inl h
  | cons location rest ih =>
    intro cur r h
    simp only [closestOfBlock] at h
    rcases ih _ r h with h1 | ⟨h1, h2⟩
    · by_cases hb : location.block_id_ = b
      · simp only [hb, if_true] at h1
        cases cur with
        | none =>
          simp only [pickCloser, Option.some.injEq] at h1
          exact Or.inr ⟨by simp [h1], by rw [← h1]; exact hb⟩
        | some c =>
          simp only [pickCloser] at h1
          split_ifs at h1
          · exact Or.inr
              ⟨by simp [Option.some.inj h1], by rw [← Option.some.inj h1]; exact hb⟩
          · exact Or.inr
              ⟨by simp [Option.some.inj h1], by rw [← Option.some.inj h1]; exact hb⟩
          · exact Or.inl h1
          · exact Or.inl h1
      · simp only [hb, if_false] at h1
        exact Or.inl h1
    · exact Or.inr ⟨List.mem_cons_of_mem _ h1, h2⟩

/-- An entry on the target machine is never replaced. -/
theorem closestOfBlock_local_stays (M rack b : Nat) (locations : List DataLocation) :
    ∀ c : DataLocation, c.machine_res_id_ = M →
      closestOfBlock M rack b (some c) locations = some c := by
  induction locations with
  | nil => intro c _; rfl
  | cons location rest ih =>
    intro c hc
    simp only [closestOfBlock]
    by_cases hb : location.block_id_ = b
    · simp only [hb, if_true, pickCloser, hc, ne_eq, not_true_eq_false, if_false]
      exact ih c hc
    · simp only [hb, if_false]
      exact ih c hc

/-- A block with a replica on the target machine ends with an entry on the target machine. -/
theorem closestOfBlock_local (M rack b : Nat) (locations : List DataLocation) :
    ∀ cur, (∃ l ∈ locations, l.block_id_ = b ∧ l.machine_res_id_ = M) →
      ∃ r, closestOfBlock M rack b cur locations = some r ∧ r.machine_res_id_ = M := by
  induction locations with
  | nil => intro cur h; obtain ⟨l, hl, _⟩ := h; cases hl
  | cons location rest ih =>
    intro cur h
    obtain ⟨l, hl, hlb, hlm⟩ := h
    simp only [closestOfBlock]
    rcases List.mem_cons.mp hl with rfl | hrest
    · simp only [hlb, if_true]
      have hpick : ∃ c, pickCloser M rack cur l = some c ∧ c.machine_res_id_ = M := by
        cases cur with
        | none => exact ⟨l, rfl, hlm⟩
        | some c =>
          by_cases hc : M = c.machine_res_id_
          · exact ⟨c, by simp [pickCloser, hc], hc.symm⟩
          · exact ⟨l, by simp [pickCloser, hc, hlm], hlm⟩
      obtain ⟨c, hc1, hc2⟩ := hpick
      rw [hc1, closestOfBlock_local_stays M rack b rest c hc2]
      exact ⟨c, rfl, hc2⟩
    · exact ih _ ⟨l, hrest, hlb, hlm⟩

/-- With no replica of the block on the target machine, an entry in the rack of the target
stays in that rack. -/
theorem closestOfBlock_rack_stays (M rack b : Nat) (locations : List DataLocation)
    (hno : ∀ l ∈ locations, l.block_id_ = b → l.machine_res_id_ ≠ M) :
    ∀ c : DataLocation, c.rack_id_ = rack →
      ∃ r, closestOfBlock M rack b (some c) locations = some r ∧ r.rack_id_ = rack := by
  induction locations with
  | nil => intro c hc; exact ⟨c, rfl, hc⟩
  | cons location rest ih =>
    intro c hc
    have hno' : ∀ l ∈ rest, l.block_id_ = b → l.machine_res_id_ ≠ M :=
      fun l hl => hno l (List.mem_cons_of_mem _ hl)
    simp only [closestOfBlock]
    by_cases hb : location.block_id_ = b
    · have hloc : M ≠ location.machine_res_id_ :=
        fun e => hno location (List.mem_cons_self _ _) hb e.symm
      simp only [hb, if_true, pickCloser, hloc, if_false, hc, ne_eq, not_true_eq_false,
        and_false, ite_self]
      exact ih hno' c hc
    · simp only [hb, if_false]
      exact ih hno' c hc

/-- With no replica of the block on the target machine and one in the rack of the target, the
block ends with an entry in that rack. -/
theorem closestOfBlock_rack (M rack b : Nat) (locations : List DataLocation) :
    ∀ cur, (∀ c, cur = some c → c.machine_res_id_ ≠ M) →
      (∀ l ∈ locations, l.block_id_ = b → l.machine_res_id_ ≠ M) →
      (∃ l ∈ locations, l.block_id_ = b ∧ l.rack_id_ = rack) →
      ∃ r, closestOfBlock M rack b cur locations = some r ∧ r.rack_id_ = rack := by
  induction locations with
  | nil => intro cur _ _ h; obtain ⟨l, hl, _⟩ := h; cases hl
  | cons location rest ih =>
    intro cur hcur hno h
    obtain ⟨l, hl, hlb, hlr⟩ := h
    have hno' : ∀ l ∈ rest, l.block_id_ = b → l.machine_res_id_ ≠ M :=
      fun l hl => hno l (List.mem_cons_of_mem _ hl)
    simp only [closestOfBlock]
    rcases List.mem_cons.mp hl with rfl | hrest
    · have hloc : M ≠ l.machine_res_id_ :=
        fun e => hno l (List.mem_cons_self _ _) hlb e.symm
      simp only [hlb, if_true]
      have hpick : ∃ c, pickCloser M rack cur l = some c ∧ c.rack_id_ = rack := by
        cases cur with
        | none => exact ⟨l, rfl, hlr⟩
        | some c =>
          have hc : M ≠ c.machine_res_id_ := fun e => hcur c rfl e.symm
          by_cases hcr : rack = c.rack_id_
          · exact ⟨c, by simp [pickCloser, hc, hloc, hcr], hcr.symm⟩
          · exact ⟨l, by simp [pickCloser, hc, hloc, hcr, hlr], hlr⟩
      obtain ⟨c, hc1, hc2⟩ := hpick
      rw [hc1]
      exact closestOfBlock_rack_stays M rack b rest hno' c hc2
    · refine ih _ ?_ hno' ⟨l, hrest, hlb, hlr⟩
      intro c hc
      by_cases hb : location.block_id_ = b
      · simp only [hb, if_true] at hc
        have hloc : location.machine_res_id_ ≠ M := hno location (List.mem_cons_self _ _) hb
        cases cur with
        | none =>
          simp only [pickCloser, Option.some.injEq] at hc
          rw [← hc]; exact hloc
        | some c0 =>
          have hc0 : c0.machine_res_id_ ≠ M := hcur c0 rfl
          simp only [pickCloser] at hc
          split_ifs at hc
          · rw [← Option.some.inj hc]; exact hloc
          · rw [← Option.some.inj hc]; exact hloc
          · rw [← Option.some.inj hc]; exact hc0
          · rw [← Option.some.inj hc]; exact hc0
      · simp only [hb, if_false] at hc
        exact hcur c hc

/-- Claim C1. For every file, target machine `M` and list of replica locations returned for the
file, `GetClosestReplicas` started from an empty result map selects, for each block with a
replica on `M`, a listed replica of that block whose machine is `M`; and for each block with no
replica on `M` but at least one replica in the rack of `M`, a listed replica of that block in
the rack of `M`. -/
theorem C1_closest_replica_locality (dl : SimulatedDataLayerManager) (file : String)
    (M b : Nat) :
    ((∃ l ∈ dl.GetFileLocations file, l.block_id_ = b ∧ l.machine_res_id_ = M) →
      ∃ r, FindOrNull (GetClosestReplicas dl file M []) b = some r ∧
        r ∈ dl.GetFileLocations file ∧ r.block_id_ = b ∧ r.machine_res_id_ = M) ∧
    ((∀ l ∈ dl.GetFileLocations file, l.block_id_ = b → l.machine_res_id_ ≠ M) →
      (∃ l ∈ dl.GetFileLocations file, l.block_id_ = b ∧
        l.rack_id_ = dl.GetRackForMachine M) →
      ∃ r, FindOrNull (GetClosestReplicas dl file M []) b = some r ∧
        r ∈ dl.GetFileLocations file ∧ r.block_id_ = b ∧
        r.rack_id_ = dl.GetRackForMachine M) := by
  rw [FindOrNull_GetClosestReplicas]
  constructor
  · intro h
    obtain ⟨r, hr, hm⟩ := closestOfBlock_local M (dl.GetRackForMachine M) b _ none h
    rcases closestOfBlock_mem M _ b _ none r hr with h0 | ⟨h1, h2⟩
    · cases h0
    · exact ⟨r, hr, h1, h2, hm⟩
  · intro hno h
    obtain ⟨r, hr, hm⟩ :=
      closestOfBlock_rack M (dl.GetRackForMachine M) b _ none (fun c hc => by cases hc) hno h
    rcases closestOfBlock_mem M _ b _ none r hr with h0 | ⟨h1, h2⟩
    · cases h0
    · exact ⟨r, hr, h1, h2, hm⟩

/-- Claim C1, witness. Seen from machine 1, block 0 (listed first on a remote machine, then on
machine 1) ends on machine 1, and block 1 (listed first in a remote rack, then on machine 2 of
the rack of machine 1) ends in rack 1. -/
theorem C1_closest_replica_locality_witness :
    (∃ r, FindOrNull (GetClosestReplicas replicatedLayer "f" 1 []) 0 = some r ∧
      r ∈ replicatedLayer.GetFileLocations "f" ∧ r.block_id_ = 0 ∧ r.machine_res_id_ = 1) ∧
    (∃ r, FindOrNull (GetClosestReplicas replicatedLayer "f" 1 []) 1 = some r ∧
      r ∈ replicatedLayer.GetFileLocations "f" ∧ r.block_id_ = 1 ∧
      r.rack_id_ = replicatedLayer.GetRackForMachine 1) :=
  ⟨(C1_closest_replica_locality replicatedLayer "f" 1 0).1 (by decide),
   (C1_closest_replica_locality replicatedLayer "f" 1 1).2 (by decide) (by decide)⟩

/-! ## Transfer-time estimate -/

theorem add64_lt (a b : Nat) : add64 a b < UINT64_SIZE :=
  Nat.mod_lt _ (by unfold UINT64_SIZE; positivity)

theorem add64_eq_of_lt {a b : Nat} (h : a + b < UINT64_SIZE) : add64 a b = a + b :=
  Nat.mod_eq_of_lt h

theorem mul64_eq_of_lt {a b : Nat} (h : a * b < UINT64_SIZE) : mul64 a b = a * b :=
  Nat.mod_eq_of_lt h

theorem sub64_eq_of_le {a b : Nat} (ha : a < UINT64_SIZE) (hb : b ≤ a) : sub64 a b = a - b := by
  unfold sub64
  have hb' : b < UINT64_SIZE := lt_of_le_of_lt hb ha
  rw [Nat.mod_eq_of_lt ha, Nat.mod_eq_of_lt hb']
  have : a + UINT64_SIZE - b = (a - b) + UINT64_SIZE := by omega
  rw [this, Nat.add_mod_right]
  exact Nat.mod_eq_of_lt (by omega)

/-- Splitting an integer division over a sum loses at most one. -/
theorem div_add_div_le_add_div (a c B : Nat) :
    a / B + c / B ≤ (a + c) / B ∧ (a + c) / B ≤ a / B + c / B + 1 := by
  rcases Nat.eq_zero_or_pos B with hB | hB
  · subst hB; simp
  · rw [Nat.add_div hB]
    split_ifs <;> omega

theorem accumulateReplicas_lt (M rack : Nat) (l : List (Nat × DataLocation)) :
    ∀ acc : Nat × Nat × Nat, acc.1 < UINT64_SIZE → acc.2.1 < UINT64_SIZE →
      (accumulateReplicas M rack l acc).1 < UINT64_SIZE ∧
      (accumulateReplicas M rack l acc).2.1 < UINT64_SIZE := by
  induction l with
  | nil => intro acc h1 h2; exact ⟨h1, h2⟩
  | cons p rest ih =>
    intro acc h1 h2
    obtain ⟨k, location⟩ := p
    obtain ⟨r, m, f⟩ := acc
    simp only [accumulateReplicas]
    apply ih
    · simp only; split_ifs
      · exact add64_lt _ _
      · exact h1
    · simp only; split_ifs
      · exact add64_lt _ _
      · exact h2

/-- Every statistic computed by `ComputeDataStatsForMachine` from accumulators that fit in 64
bits fits in 64 bits. -/
theorem computeDataStatsLoop_lt (dl : SimulatedDataLayerManager) (M : Nat)
    (deps : List ReferenceDescriptor) :
    ∀ acc stats, computeDataStatsLoop dl M deps acc = some stats →
      acc.input_size < UINT64_SIZE → acc.data_on_rack < UINT64_SIZE →
      acc.data_on_machine < UINT64_SIZE →
      stats.input_size < UINT64_SIZE ∧ stats.data_on_rack < UINT64_SIZE ∧
        stats.data_on_machine < UINT64_SIZE := by
  induction deps with
  | nil =>
    intro acc stats h h1 h2 h3
    simp only [computeDataStatsLoop, Option.some.injEq] at h
    subst h; exact ⟨h1, h2, h3⟩
  | cons dependency rest ih =>
    intro acc stats h h1 h2 h3
    simp only [computeDataStatsLoop] at h
    have hb := accumulateReplicas_lt M (dl.GetRackForMachine M)
      (GetClosestReplicas dl dependency.location M [])
      (acc.data_on_rack, acc.data_on_machine, 0) h2 h3
    split_ifs at h with hsz
    exact ih _ stats h (add64_lt _ _) hb.1 hb.2

/-- Claim C2, counterexample. With the default flags (250 and 100 microseconds per Mbit) and
either 131072 or 125000 bytes per Mbit, a task with 499 remote bytes and 100 same-rack bytes
passes both checks and gets the estimate 0, while the one-division formula gives 1. -/
theorem C2_counterexample_one_division :
    (GetEstimatedTransferTimeUS (twoBlockLayer 131072) twoBlockTask 1 = some 0 ∧
      ComputeDataStatsForMachine (twoBlockLayer 131072) twoBlockTask 1 0 0 =
        some { input_size := 599, data_on_rack := 100, data_on_machine := 0 } ∧
      specTransferUS (twoBlockLayer 131072)
        { input_size := 599, data_on_rack := 100, data_on_machine := 0 } = 1) ∧
    (GetEstimatedTransferTimeUS (twoBlockLayer 125000) twoBlockTask 1 = some 0 ∧
      specTransferUS (twoBlockLayer 125000)
        { input_size := 599, data_on_rack := 100, data_on_machine := 0 } = 1) := by
  decide

/-- Claim C2, amended. Whenever `GetEstimatedTransferTimeUS` returns, the statistics satisfy
`input_size ≥ data_on_rack` and the value is the sum of two integer divisions, one per term:
`remote × remote_data / bytes_per_Mbit + rack × rack_data / bytes_per_Mbit` in unsigned 64-bit
arithmetic. When moreover `data_on_rack ≥ data_on_machine` and the summed numerator fits in 64
bits, nothing wraps and the value is that of the one-division formula or one less. -/
theorem C2_transfer_time_two_divisions (dl : SimulatedDataLayerManager) (td : TaskDescriptor)
    (M v : Nat) (h : GetEstimatedTransferTimeUS dl td M = some v) :
    ∃ stats, ComputeDataStatsForMachine dl td M 0 0 = some stats ∧
      stats.data_on_rack ≤ stats.input_size ∧
      v = add64
        (mul64 dl.simulated_remote_transfer_time (sub64 stats.input_size stats.data_on_rack)
          / dl.BYTES_TO_MBITS)
        (mul64 dl.simulated_rack_transfer_time (sub64 stats.data_on_rack stats.data_on_machine)
          / dl.BYTES_TO_MBITS) ∧
      (stats.data_on_machine ≤ stats.data_on_rack →
        dl.simulated_remote_transfer_time * (stats.input_size - stats.data_on_rack)
          + dl.simulated_rack_transfer_time * (stats.data_on_rack - stats.data_on_machine)
          < UINT64_SIZE →
        v = dl.simulated_remote_transfer_time * (stats.input_size - stats.data_on_rack)
              / dl.BYTES_TO_MBITS
            + dl.simulated_rack_transfer_time * (stats.data_on_rack - stats.data_on_machine)
              / dl.BYTES_TO_MBITS ∧
        v ≤ specTransferUS dl stats ∧ specTransferUS dl stats ≤ v + 1) := by
  unfold GetEstimatedTransferTimeUS at h
  cases hs : ComputeDataStatsForMachine dl td M 0 0 with
  | none => simp [hs] at h
  | some stats =>
    simp only [hs] at h
    split_ifs at h with hge
    simp only [Option.some.injEq] at h
    have hpos : (0 : Nat) < UINT64_SIZE := by unfold UINT64_SIZE; positivity
    obtain ⟨hi, hr, _⟩ := computeDataStatsLoop_lt dl M td.dependencies _ stats hs hpos hpos hpos
    refine ⟨stats, rfl, hge, h.symm, ?_⟩
    intro hmr hfit
    have hsplit := div_add_div_le_add_div
      (dl.simulated_remote_transfer_time * (stats.input_size - stats.data_on_rack))
      (dl.simulated_rack_transfer_time * (stats.data_on_rack - stats.data_on_machine))
      dl.BYTES_TO_MBITS
    have hq := Nat.div_le_self
      (dl.simulated_remote_transfer_time * (stats.input_size - stats.data_on_rack)
        + dl.simulated_rack_transfer_time * (stats.data_on_rack - stats.data_on_machine))
      dl.BYTES_TO_MBITS
    have hv : v = dl.simulated_remote_transfer_time * (stats.input_size - stats.data_on_rack)
              / dl.BYTES_TO_MBITS
            + dl.simulated_rack_transfer_time * (stats.data_on_rack - stats.data_on_machine)
              / dl.BYTES_TO_MBITS := by
      rw [← h, sub64_eq_of_le hi hge, sub64_eq_of_le hr hmr,
        mul64_eq_of_lt (by omega), mul64_eq_of_lt (by omega)]
      exact add64_eq_of_lt (by omega)
    refine ⟨hv, ?_, ?_⟩
    · rw [hv]; exact hsplit.1
    · rw [hv]; exact hsplit.2

/-- Claim C2, witness: the amended statement at the two-block task. -/
theorem C2_transfer_time_two_divisions_witness :
    GetEstimatedTransferTimeUS (twoBlockLayer 131072) twoBlockTask 1 = some 0 ∧
    ∃ stats, ComputeDataStatsForMachine (twoBlockLayer 131072) twoBlockTask 1 0 0 = some stats ∧
      stats.data_on_rack ≤ stats.input_size ∧
      0 = add64
        (mul64 (twoBlockLayer 131072).simulated_remote_transfer_time
            (sub64 stats.input_size stats.data_on_rack)
          / (twoBlockLayer 131072).BYTES_TO_MBITS)
        (mul64 (twoBlockLayer 131072).simulated_rack_transfer_time
            (sub64 stats.data_on_rack stats.data_on_machine)
          / (twoBlockLayer 131072).BYTES_TO_MBITS) ∧
      (stats.data_on_machine ≤ stats.data_on_rack →
        (twoBlockLayer 131072).simulated_remote_transfer_time
            * (stats.input_size - stats.data_on_rack)
          + (twoBlockLayer 131072).simulated_rack_transfer_time
            * (stats.data_on_rack - stats.data_on_machine)
          < UINT64_SIZE →
        0 = (twoBlockLayer 131072).simulated_remote_transfer_time
              * (stats.input_size - stats.data_on_rack)
              / (twoBlockLayer 131072).BYTES_TO_MBITS
            + (twoBlockLayer 131072).simulated_rack_transfer_time
              * (stats.data_on_rack - stats.data_on_machine)
              / (twoBlockLayer 131072).BYTES_TO_MBITS ∧
        0 ≤ specTransferUS (twoBlockLayer 131072) stats ∧
        specTransferUS (twoBlockLayer 131072) stats ≤ 0 + 1) :=
  ⟨by decide,
    C2_transfer_time_two_divisions (twoBlockLayer 131072) twoBlockTask 1 0 (by decide)⟩

/-! ## Interference hook -/

/-- The transfer-time estimate reads nothing of the task but its dependencies. -/
theorem GetTransferTimeUS_congr (hook : NoInterferenceTransfer) (td td' : TaskDescriptor)
    (res_id : Nat) (h : td'.dependencies = td.dependencies) :
    GetTransferTimeUS hook td' res_id = GetTransferTimeUS hook td res_id := by
  unfold GetTransferTimeUS GetEstimatedTransferTimeUS ComputeDataStatsForMachine
  rw [h]

/-- For a task started no later than `t`, the work credited is `(t − start) − transfer`,
truncated at 0. -/
theorem taskExecutedFor_eq {t start transfer : Nat} (ht : t < UINT64_SIZE) (hs : start ≤ t) :
    taskExecutedFor t start transfer = (t - start) - transfer := by
  unfold taskExecutedFor
  rw [sub64_eq_of_le ht hs]
  split_ifs with hge
  · rw [sub64_eq_of_le (by omega) hge]; simp
  · omega

/-- Halvings left over are not used: once `a / b < 2 ^ 53 · 2 ^ fuel`, more fuel gives the same
value. -/
theorem roundWide_fuel (fuel : Nat) :
    ∀ a b extra, a < 2 ^ 53 * b * 2 ^ fuel →
      roundWide (fuel + extra) a b = roundWide fuel a b := by
  induction fuel with
  | zero =>
    intro a b extra h
    have hnot : ¬ 2 ^ 53 * b ≤ a := by simp only [pow_zero, mul_one] at h; omega
    rw [Nat.zero_add]
    cases extra with
    | zero => rfl
    | succ e => simp only [roundWide, if_neg hnot]
  | succ fuel ih =>
    intro a b extra h
    have e : fuel + 1 + extra = (fuel + extra) + 1 := by omega
    have e2 : 2 ^ 53 * (2 * b) * 2 ^ fuel = 2 ^ 53 * b * 2 ^ (fuel + 1) := by
      rw [pow_succ 2 fuel]; ring
    rw [e]
    simp only [roundWide]
    split_ifs
    · rw [ih a (2 * b) extra (by rw [e2]; exact h)]
    · rfl

/-- Doublings left over are not used: once `2 ^ 52 ≤ (a / b) · 2 ^ fuel`, more fuel gives the
same value. -/
theorem roundNarrow_fuel (fuel : Nat) :
    ∀ a b extra, 2 ^ 52 * b ≤ a * 2 ^ fuel →
      roundNarrow (fuel + extra) a b = roundNarrow fuel a b := by
  induction fuel with
  | zero =>
    intro a b extra h
    have hnot : ¬ a < 2 ^ 52 * b := by simp only [pow_zero, mul_one] at h; omega
    rw [Nat.zero_add]
    cases extra with
    | zero => rfl
    | succ e => simp only [roundNarrow, if_neg hnot]
  | succ fuel ih =>
    intro a b extra h
    have e : fuel + 1 + extra = (fuel + extra) + 1 := by omega
    have e2 : 2 * a * 2 ^ fuel = a * 2 ^ (fuel + 1) := by
      rw [pow_succ 2 fuel]; ring
    rw [e]
    simp only [roundNarrow]
    split_ifs
    · rw [ih (2 * a) b extra (by rw [e2]; exact h)]
    · rfl

/-- The fuel handed to the two loops by `roundToDouble` is enough: more of it gives the same
value. -/
theorem roundToDouble_fuel (a b extra : Nat) (ha : 0 < a) (hb : 0 < b) :
    roundWide (a + extra) a b = roundWide a a b ∧
    roundNarrow (b + 52 + extra) a b = roundNarrow (b + 52) a b := by
  constructor
  · apply roundWide_fuel
    have h1 : a < 2 ^ a := Nat.lt_two_pow a
    have h2 : 0 < 2 ^ 53 * b := by positivity
    calc a < 2 ^ a := h1
      _ = 1 * 2 ^ a := (one_mul _).symm
      _ ≤ 2 ^ 53 * b * 2 ^ a := Nat.mul_le_mul_right _ h2
  · apply roundNarrow_fuel
    have h1 : b < 2 ^ b := Nat.lt_two_pow b
    calc 2 ^ 52 * b ≤ 2 ^ 52 * 2 ^ b := Nat.mul_le_mul_left _ (le_of_lt h1)
      _ = 1 * 2 ^ (b + 52) := by rw [one_mul, pow_add, mul_comm]
      _ ≤ a * 2 ^ (b + 52) := Nat.mul_le_mul_right _ ha

/-- Claim C4, the code at the scenario of the specification: placed at 0 with old transfer 10
and 100 microseconds left, migrated at 40 to a target with new transfer 3. The table entry
becomes 70, and the finish time is set to 83 = 40 + 3 + 70 − 30, not to 113 = 40 + 3 + 70: the
work done is subtracted a second time from the entry already updated. -/
theorem C4_migration_finish_subtracts_twice :
    GetTransferTimeUS (hookOver (clusterLayer 4000 1300)) (submittedTask 4000 1300 100).td 11
      = some 10 ∧
    GetTransferTimeUS (hookOver (clusterLayer 4000 1300)) (submittedTask 4000 1300 100).td 12
      = some 3 ∧
    ((OnTaskPlacement (hookOver (clusterLayer 4000 1300)) 0
        (submittedTask 4000 1300 100) 11).map
      (fun s => (s.td.start_time, s.td.finish_time))) = some (0, 110) ∧
    (((OnTaskPlacement (hookOver (clusterLayer 4000 1300)) 0
        (submittedTask 4000 1300 100) 11).bind
      (fun s => OnTaskMigration (hookOver (clusterLayer 4000 1300)) 40 s 11 12)).map
      (fun s => (FindOrNull s.task_runtime_ 7, s.td.finish_time))) = some (some 70, 83) := by
  decide

/-- Claim C5. For every eviction at time `t` of a task with `start ≤ t` for which the transfer
estimate `transfer` is computed, `OnTaskEviction` returns and, with
`executed_for = (t − start) − transfer` truncated at 0: an entry `remaining ≥ executed_for` of
the task becomes `remaining − executed_for`; and in every case the start time is cleared, the
submit time is `t`, the finish time is unchanged and exactly one record
`{task id, previous_end_time = finish}` is appended. -/
theorem C5_eviction_effects (hook : NoInterferenceTransfer) (t : Nat) (s : HookState)
    (res_id transfer : Nat) (ht : t < UINT64_SIZE) (hstart : s.td.start_time ≤ t)
    (h : GetTransferTimeUS hook s.td res_id = some transfer) :
    ∃ s', OnTaskEviction hook t s res_id = some s' ∧
      (∀ remaining, FindOrNull s.task_runtime_ s.td.uid = some remaining →
        remaining < UINT64_SIZE → (t - s.td.start_time) - transfer ≤ remaining →
        FindOrNull s'.task_runtime_ s.td.uid
          = some (remaining - ((t - s.td.start_time) - transfer))) ∧
      s'.td.start_time = 0 ∧ s'.td.has_start_time = false ∧
      s'.td.submit_time = t ∧ s'.td.finish_time = s.td.finish_time ∧
      s'.tasks_end_time = s.tasks_end_time ++
        [{ task_id_ := s.td.uid, previous_end_time_ := some s.td.finish_time,
           current_end_time_ := none }] := by
  have key : OnTaskEviction hook t s res_id = some
      { td := { s.td with
          total_run_time := hook.ComputeTaskTotalRunTime t s.td,
          start_time := 0, has_start_time := false, submit_time := t },
        task_runtime_ :=
          match FindOrNull s.task_runtime_ s.td.uid with
          | some runtime =>
            InsertOrUpdate s.task_runtime_ s.td.uid
              (sub64 runtime (taskExecutedFor t s.td.start_time transfer))
          | none => s.task_runtime_,
        tasks_end_time := s.tasks_end_time ++
          [{ task_id_ := s.td.uid, previous_end_time_ := some s.td.finish_time,
             current_end_time_ := none }] } := by
    simp only [OnTaskEviction, h]
  refine ⟨_, key, ?_, rfl, rfl, rfl, rfl, rfl⟩
  intro remaining hr hlt hle
  simp only [hr, FindOrNull_InsertOrUpdate, if_true, taskExecutedFor_eq ht hstart,
    sub64_eq_of_le hlt hle]

/-- Claim C5, witness: the scenario of the specification. Transfer 5, 100 microseconds left,
started at 0, evicted at 50: 45 microseconds are credited, 55 are left, the submit time is 50
and the start time is cleared. -/
theorem C5_eviction_effects_witness :
    GetTransferTimeUS (hookOver (clusterLayer 1700 1300)) (submittedTask 1700 1300 100).td 11
      = some 5 ∧
    ∃ s', OnTaskEviction (hookOver (clusterLayer 1700 1300)) 50 (submittedTask 1700 1300 100) 11
        = some s' ∧
      FindOrNull s'.task_runtime_ 7 = some 55 ∧
      s'.td.start_time = 0 ∧ s'.td.has_start_time = false ∧ s'.td.submit_time = 50 := by
  obtain ⟨s', h1, h2, h3, h4, h5, _, _⟩ :=
    C5_eviction_effects (hookOver (clusterLayer 1700 1300)) 50 (submittedTask 1700 1300 100) 11 5
      (by decide) (by decide) (by decide)
  exact ⟨by decide, s', h1, h2 100 (by decide) (by decide) (by decide), h3, h4, h5⟩

/-- Claim C6, the code where `executed_for` exceeds the entry. Task 7 is placed at time 0 with
20 microseconds left while its input is remote (transfer 10, finish 30); its blocks are then
replicated onto its machine, and it is evicted at time 25. The transfer estimate is now 0, so
`executed_for = 25 > 20`, and the entry becomes `2 ^ 64 − 5` instead of 0: the subtraction wraps
around. -/
theorem C6_eviction_entry_wraps :
    ((OnTaskPlacement (hookOver (clusterLayer 4000 1300)) 0
        (submittedTask 4000 1300 20) 11).map
      (fun s => (s.td.start_time, s.td.finish_time, FindOrNull s.task_runtime_ 7)))
      = some (0, 30, some 20) ∧
    GetTransferTimeUS (hookOver (localLayer 4000 1300)) (submittedTask 4000 1300 20).td 11
      = some 0 ∧
    taskExecutedFor 25 0 0 = 25 ∧
    (((OnTaskPlacement (hookOver (clusterLayer 4000 1300)) 0
        (submittedTask 4000 1300 20) 11).bind
      (fun s => OnTaskEviction (hookOver (localLayer 4000 1300)) 25 s 11)).map
      (fun s => FindOrNull s.task_runtime_ 7)) = some (some (2 ^ 64 - 5)) ∧
    (2 ^ 64 - 5 : Nat) ≠ 0 := by
  decide

/-- Claim C7, the code on a run where the entry grows. Task 7 is placed at time 0 with 20
microseconds left and transfer 10, and its blocks are then replicated onto its machine. When it
is evicted at time 25, its entry is 20 before the eviction and `2 ^ 64 − 5` after it; and when
it is migrated at time 25 from PU 11 to PU 12 instead, its entry is 20 before the migration and
`2 ^ 64 − 5` after it. -/
theorem C7_entry_grows_on_wrap :
    (∃ before after,
      ((OnTaskPlacement (hookOver (clusterLayer 4000 1300)) 0
          (submittedTask 4000 1300 20) 11).map
        (fun s => FindOrNull s.task_runtime_ 7)) = some (some before) ∧
      (((OnTaskPlacement (hookOver (clusterLayer 4000 1300)) 0
          (submittedTask 4000 1300 20) 11).bind
        (fun s => OnTaskEviction (hookOver (localLayer 4000 1300)) 25 s 11)).map
        (fun s => FindOrNull s.task_runtime_ 7)) = some (some after) ∧
      before < after) ∧
    (∃ before after,
      ((OnTaskPlacement (hookOver (clusterLayer 4000 1300)) 0
          (submittedTask 4000 1300 20) 11).map
        (fun s => FindOrNull s.task_runtime_ 7)) = some (some before) ∧
      (((OnTaskPlacement (hookOver (clusterLayer 4000 1300)) 0
          (submittedTask 4000 1300 20) 11).bind
        (fun s => OnTaskMigration (hookOver (localLayer 4000 1300)) 25 s 11 12)).map
        (fun s => FindOrNull s.task_runtime_ 7)) = some (some after) ∧
      before < after) := by
  refine ⟨⟨20, 2 ^ 64 - 5, ?_, ?_, ?_⟩, ⟨20, 2 ^ 64 - 5, ?_, ?_, ?_⟩⟩ <;> decide

/-! ## Placement engine: choice of a resource -/

theorem FindOrNull_mem {β : Type} (m : List (Nat × β)) (k : Nat) (v : β)
    (h : FindOrNull m k = some v) : (k, v) ∈ m := by
  induction m with
  | nil => simp [FindOrNull] at h
  | cons p rest ih =>
    obtain ⟨k', v'⟩ := p
    by_cases hk : k' = k
    · simp only [FindOrNull, hk, if_true, Option.some.injEq] at h
      subst hk; subst h; exact List.mem_cons_self _ _
    · simp only [FindOrNull, hk, if_false] at h
      exact List.mem_cons_of_mem _ (ih h)

theorem findIdlePU_ne_none (rm : List (Nat × ResourceDescriptor)) (pus : List Nat)
    (h : ∀ pu ∈ pus, ∃ rd, FindPtrOrNull rm pu = some rd ∧
      rd.type = ResourceType.RESOURCE_PU) :
    findIdlePU rm pus ≠ none := by
  induction pus with
  | nil => simp [findIdlePU]
  | cons p rest ih =>
    obtain ⟨rd, h1, h2⟩ := h p (List.mem_cons_self _ _)
    simp only [findIdlePU, h1, h2, ne_eq, not_true_eq_false, if_false]
    split_ifs
    · simp
    · exact ih (fun pu hpu => h pu (List.mem_cons_of_mem _ hpu))

/-- On a resource map in which the data-bearing machines and their PUs are all present with
the right types, the locality pass runs to its end: no `CHECK` fails. -/
theorem localityPass_ne_none (sched : FulcrumScheduler) (l : List Nat)
    (h : checksPassOn sched l) : localityPass sched l ≠ none := by
  induction l with
  | nil => simp [localityPass]
  | cons m rest ih =>
    obtain ⟨rs, h1, h2, mid, h3, h4⟩ := h m (List.mem_cons_self _ _)
    have hpu := findIdlePU_ne_none sched.resource_map_ _ h4
    simp only [localityPass, h1, h2, h3, ne_eq, not_true_eq_false, if_false]
    cases hf : findIdlePU sched.resource_map_ (equal_range sched.machine_res_id_pus_ mid) with
    | none => exact absurd hf hpu
    | some r =>
      cases r with
      | none => exact ih (fun m' hm' => h m' (List.mem_cons_of_mem _ hm'))
      | some pu => simp

/-- Insertion into a vector rearranges the vector with the new machine added. -/
theorem insertByData_perm (d : List (Nat × Nat)) (m : Nat) (l : List Nat) :
    (insertByData d m l).Perm (m :: l) := by
  induction l with
  | nil => exact List.Perm.refl _
  | cons x rest ih =>
    simp only [insertByData]
    split_ifs
    · exact List.Perm.refl _
    · exact (List.Perm.cons x ih).trans (List.Perm.swap m x rest)

theorem insertByData_sorted (d : List (Nat × Nat)) (m : Nat) (l : List Nat)
    (h : l.Pairwise (fun a b => ¬ moreData d b a)) :
    (insertByData d m l).Pairwise (fun a b => ¬ moreData d b a) := by
  induction l with
  | nil => simp [insertByData]
  | cons x rest ih =>
    obtain ⟨hx, hrest⟩ := List.pairwise_cons.mp h
    simp only [insertByData]
    split_ifs with hgt
    · refine List.pairwise_cons.mpr ⟨fun b hb => ?_, h⟩
      rcases List.mem_cons.mp hb with rfl | hb'
      · unfold moreData; omega
      · have := hx b hb'
        unfold moreData at this ⊢; omega
    · refine List.pairwise_cons.mpr ⟨fun b hb => ?_, ih hrest⟩
      rcases List.mem_cons.mp ((insertByData_perm d m rest).subset hb) with rfl | hb'
      · unfold moreData; omega
      · exact hx b hb'

/-- Insertion sort is an admissible outcome of `std::sort` with the comparator of
`FindResourceForTask`, on every input. -/
theorem insertionSortByData_outcome (d : List (Nat × Nat)) (l : List Nat) :
    StdSortOutcome d l (insertionSortByData d l) := by
  induction l with
  | nil => exact ⟨List.Perm.refl _, List.Pairwise.nil⟩
  | cons m rest ih =>
    exact ⟨(insertByData_perm d m _).trans (List.Perm.cons m ih.1),
      insertByData_sorted d m _ ih.2⟩

/-- Looking for a resource changes neither the runnable set, nor the placement log, nor the
task map. -/
theorem findResource_frame (sched sched1 : FulcrumScheduler) (td : TaskDescriptor)
    (best : Option Nat) (h : findResource sched td = some (best, sched1)) :
    sched1.runnable_tasks_ = sched.runnable_tasks_ ∧ sched1.placements = sched.placements ∧
      sched1.task_map_ = sched.task_map_ := by
  unfold findResource at h
  split_ifs at h
  · unfold FindRandomResourceForTask at h
    simp only at h
    split_ifs at h
    simp only [Option.some.injEq, Prod.mk.injEq] at h
    rw [← h.2]
    exact ⟨rfl, rfl, rfl⟩
  · cases hf : FindResourceForTask sched td with
    | none => rw [hf] at h; cases h
    | some b =>
      rw [hf] at h
      simp only [Option.map_some', Option.some.injEq, Prod.mk.injEq] at h
      rw [← h.2]
      exact ⟨rfl, rfl, rfl⟩

/-- The loop of `ScheduleJob`: the placement log grows by one entry per task counted, exactly
the tasks logged leave the runnable set, and they are tasks of the set, each taken once. -/
theorem scheduleTasks_spec (l : List Nat) :
    ∀ (sched : FulcrumScheduler) (n n' : Nat) (sched' : FulcrumScheduler),
      scheduleTasks l sched n = some (n', sched') →
      ∃ placed : List (Nat × Nat),
        sched'.placements = sched.placements ++ placed ∧
        n' = n + placed.length ∧
        sched'.runnable_tasks_ = sched.runnable_tasks_.filter
          (fun t => decide (t ∉ placed.map Prod.fst)) ∧
        (placed.map Prod.fst).Sublist (runnableUids sched l) ∧
        sched'.task_map_ = sched.task_map_ := by
  induction l with
  | nil =>
    intro sched n n' sched' h
    simp only [scheduleTasks, Option.some.injEq, Prod.mk.injEq] at h
    obtain ⟨rfl, rfl⟩ := h
    exact ⟨[], by simp, rfl, by simp, by simp [runnableUids], rfl⟩
  | cons task_id rest ih =>
    intro sched n n' sched' h
    simp only [scheduleTasks] at h
    cases htd : FindPtrOrNull sched.task_map_ task_id with
    | none => rw [htd] at h; cases h
    | some td =>
      rw [htd] at h
      simp only at h
      have huids : runnableUids sched (task_id :: rest) = td.uid :: runnableUids sched rest := by
        simp [runnableUids, htd]
      cases hfound : findResource sched td with
      | none => rw [hfound] at h; cases h
      | some res =>
        obtain ⟨best, sched1⟩ := res
        obtain ⟨f1, f2, f3⟩ := findResource_frame sched sched1 td best hfound
        have huids1 : runnableUids sched1 rest = runnableUids sched rest := by
          simp only [runnableUids, f3]
        rw [hfound] at h
        cases best with
        | none =>
          simp only at h
          obtain ⟨placed, p1, p2, p3, p4, p5⟩ := ih sched1 n n' sched' h
          refine ⟨placed, by rw [p1, f2], p2, by rw [p3, f1], ?_, by rw [p5, f3]⟩
          rw [huids, ← huids1]
          exact List.Sublist.cons _ p4
        | some best_resource =>
          simp only at h
          cases hrp : FindPtrOrNull sched1.resource_map_ best_resource with
          | none => rw [hrp] at h; cases h
          | some rp =>
            rw [hrp] at h
            simp only at h
            obtain ⟨placed, p1, p2, p3, p4, p5⟩ := ih _ _ n' sched' h
            simp only [HandleTaskPlacement] at p1 p3 p4 p5
            refine ⟨(td.uid, rp.uuid) :: placed, ?_, ?_, ?_, ?_, ?_⟩
            · rw [p1, f2]; simp
            · rw [p2]; simp; omega
            · rw [p3, f1, List.filter_filter]
              congr 1
              funext t
              simp only [List.map_cons, List.mem_cons, not_or, Bool.decide_and,
                decide_not, Bool.and_comm]
            · rw [huids]
              have : runnableUids (HandleTaskPlacement
                  { sched1 with runnable_tasks_ :=
                      sched1.runnable_tasks_.filter (fun t => decide (t ≠ td.uid)) }
                  td best_resource rp) rest = runnableUids sched rest := by
                simp only [runnableUids, HandleTaskPlacement, f3]
              simp only [HandleTaskPlacement] at this
              rw [List.map_cons]
              exact List.Sublist.cons₂ _ (this ▸ p4)
            · rw [p5, f3]

theorem scheduleTasks_of_everyAttemptFails (l : List Nat) :
    ∀ (sched : FulcrumScheduler) (n n' : Nat) (sched' : FulcrumScheduler),
      scheduleTasks l sched n = some (n', sched') → everyAttemptFails l sched → n' = n := by
  induction l with
  | nil =>
    intro sched n n' sched' h _
    simp only [scheduleTasks, Option.some.injEq, Prod.mk.injEq] at h
    exact h.1.symm
  | cons task_id rest ih =>
    intro sched n n' sched' h hfail
    obtain ⟨td, sched1, h1, h2, h3⟩ := hfail
    simp only [scheduleTasks, h1, h2] at h
    exact ih sched1 n n' sched' h h3

/-- The loop of `ScheduleJob` returns exactly when the attempts can all be made, and then it has
counted the tasks for which a resource was found. -/
theorem scheduleTasks_iff_placementRun (l : List Nat) :
    ∀ (sched : FulcrumScheduler) (n n' : Nat) (sched' : FulcrumScheduler),
      scheduleTasks l sched n = some (n', sched') ↔
        ∃ placed, placementRun l sched placed sched' ∧ n' = n + placed.length := by
  induction l with
  | nil =>
    intro sched n n' sched'
    simp only [scheduleTasks, Option.some.injEq, Prod.mk.injEq, placementRun]
    constructor
    · rintro ⟨rfl, rfl⟩
      exact ⟨[], ⟨rfl, rfl⟩, rfl⟩
    · rintro ⟨placed, ⟨rfl, rfl⟩, rfl⟩
      exact ⟨rfl, rfl⟩
  | cons task_id rest ih =>
    intro sched n n' sched'
    simp only [scheduleTasks, placementRun]
    cases htd : FindPtrOrNull sched.task_map_ task_id with
    | none =>
      simp only
      constructor
      · intro h; cases h
      · rintro ⟨_, ⟨_, _, _, h, _⟩, _⟩; cases h
    | some td =>
      simp only
      cases hfound : findResource sched td with
      | none =>
        simp only
        constructor
        · intro h; cases h
        · rintro ⟨_, ⟨td', _, _, h1, h2, _⟩, _⟩
          cases h1
          rw [hfound] at h2
          cases h2
      | some res =>
        obtain ⟨best, sched1⟩ := res
        cases best with
        | none =>
          simp only
          rw [ih sched1 n n' sched']
          constructor
          · rintro ⟨placed, hrun, hn⟩
            exact ⟨placed, ⟨td, none, sched1, rfl, hfound, hrun⟩, hn⟩
          · rintro ⟨placed, ⟨td', best', sched1', h1, h2, h3⟩, hn⟩
            cases h1
            rw [hfound] at h2
            cases h2
            exact ⟨placed, h3, hn⟩
        | some best_resource =>
          simp only
          cases hrp : FindPtrOrNull sched1.resource_map_ best_resource with
          | none =>
            simp only
            constructor
            · intro h; cases h
            · rintro ⟨_, ⟨td', best', sched1', h1, h2, h3⟩, _⟩
              cases h1
              rw [hfound] at h2
              cases h2
              obtain ⟨rp, _, h4, _⟩ := h3
              rw [hrp] at h4
              cases h4
          | some rp =>
            simp only
            rw [ih _ (n + 1) n' sched']
            constructor
            · rintro ⟨placed, hrun, hn⟩
              refine ⟨(td.uid, rp.uuid) :: placed,
                ⟨td, some best_resource, sched1, rfl, hfound, rp, placed, hrp, rfl, hrun⟩, ?_⟩
              rw [hn, List.length_cons]
              omega
            · rintro ⟨placed, ⟨td', best', sched1', h1, h2, h3⟩, hn⟩
              cases h1
              rw [hfound] at h2
              cases h2
              obtain ⟨rp', placed', h4, h5, h6⟩ := h3
              rw [hrp] at h4
              cases h4
              refine ⟨placed', h6, ?_⟩
              rw [hn, h5, List.length_cons]
              omega

/-- The placement log grows by the tasks for which a resource was found. -/
theorem placementRun_placements (l : List Nat) :
    ∀ (sched : FulcrumScheduler) (placed : List (Nat × Nat)) (sched' : FulcrumScheduler),
      placementRun l sched placed sched' →
      sched'.placements = sched.placements ++ placed := by
  induction l with
  | nil =>
    rintro sched placed sched' ⟨rfl, rfl⟩
    simp
  | cons task_id rest ih =>
    rintro sched placed sched' ⟨td, best, sched1, h1, h2, h3⟩
    obtain ⟨_, f2, _⟩ := findResource_frame sched sched1 td best h2
    cases best with
    | none =>
      rw [ih sched1 placed sched' h3, f2]
    | some best_resource =>
      obtain ⟨rp, placed', _, h5, h6⟩ := h3
      rw [ih _ placed' sched' h6, h5]
      simp [HandleTaskPlacement, f2]

/-- The attempts on a list of tasks from a given state have one outcome. -/
theorem placementRun_unique (l : List Nat) (sched : FulcrumScheduler)
    (placed placed' : List (Nat × Nat)) (sched' sched'' : FulcrumScheduler)
    (h : placementRun l sched placed sched') (h' : placementRun l sched placed' sched'') :
    placed' = placed ∧ sched'' = sched' := by
  have e := (scheduleTasks_iff_placementRun l sched 0 _ sched').mpr ⟨placed, h, rfl⟩
  have e' := (scheduleTasks_iff_placementRun l sched 0 _ sched'').mpr ⟨placed', h', rfl⟩
  rw [e] at e'
  simp only [Option.some.injEq, Prod.mk.injEq] at e'
  have hs : sched'' = sched' := e'.2.symm
  refine ⟨?_, hs⟩
  have p := placementRun_placements l sched placed sched' h
  have p' := placementRun_placements l sched placed' sched'' h'
  rw [hs, p] at p'
  exact (List.append_cancel_left p').symm

/-- Whenever the attempts on the runnable tasks can all be made, that is no `CHECK` fails,
`ScheduleJob` returns. -/
theorem ScheduleJob_of_placementRun (sched : FulcrumScheduler) (jd : JobDescriptor)
    (placed : List (Nat × Nat)) (sched' : FulcrumScheduler)
    (h : placementRun sched.runnable_tasks_ sched placed sched') :
    ScheduleJob sched jd = some (placed.length,
      if placed.length > 0 then { jd with state := JobState.RUNNING } else jd, sched') := by
  have e := (scheduleTasks_iff_placementRun _ sched 0 _ sched').mpr ⟨placed, h, rfl⟩
  simp only [Nat.zero_add] at e
  simp only [ScheduleJob, e]

/-- Claim C10. Whenever `ScheduleJob` returns, the attempts on the runnable tasks have been made
in turn (`placementRun`), and with `placed` the tasks for which a resource was found, which the
attempts determine: the value returned is the number of them; one placement callback has been
made for each of them and for no other task, in the order of the attempts; each is a task of the
runnable set, taken once; exactly they are removed from the runnable set; the job is set to
RUNNING when the number is positive and left as it was when the number is 0; and when every
placement attempt fails the value is 0, so that the job, the runnable set and the placement log
are unchanged. -/
theorem C10_schedule_job (sched : FulcrumScheduler) (jd : JobDescriptor) (n : Nat)
    (jd' : JobDescriptor) (sched' : FulcrumScheduler)
    (h : ScheduleJob sched jd = some (n, jd', sched')) :
    ∃ placed : List (Nat × Nat),
      placementRun sched.runnable_tasks_ sched placed sched' ∧
      (∀ placed' sched'', placementRun sched.runnable_tasks_ sched placed' sched'' →
        placed' = placed ∧ sched'' = sched') ∧
      n = placed.length ∧
      sched'.placements = sched.placements ++ placed ∧
      (placed.map Prod.fst).Sublist (runnableUids sched sched.runnable_tasks_) ∧
      sched'.runnable_tasks_ = sched.runnable_tasks_.filter
        (fun t => decide (t ∉ placed.map Prod.fst)) ∧
      (0 < n → jd' = { jd with state := JobState.RUNNING }) ∧
      (n = 0 → jd' = jd ∧ sched'.runnable_tasks_ = sched.runnable_tasks_ ∧
        sched'.placements = sched.placements) ∧
      (everyAttemptFails sched.runnable_tasks_ sched → n = 0) := by
  simp only [ScheduleJob] at h
  cases hloop : scheduleTasks sched.runnable_tasks_ sched 0 with
  | none => rw [hloop] at h; cases h
  | some res =>
    obtain ⟨n1, sched1⟩ := res
    rw [hloop] at h
    simp only [Option.some.injEq, Prod.mk.injEq] at h
    obtain ⟨hn, hjd, hs⟩ := h
    subst hn; subst hs
    obtain ⟨placed0, p1, p2, p3, p4, _⟩ := scheduleTasks_spec _ sched 0 n1 sched1 hloop
    obtain ⟨placed, hrun, _⟩ :=
      (scheduleTasks_iff_placementRun _ sched 0 n1 sched1).mp hloop
    have hsame : placed0 = placed := by
      have q := placementRun_placements _ sched placed sched1 hrun
      rw [p1] at q
      exact List.append_cancel_left q
    subst hsame
    have hlen : n1 = placed0.length := by omega
    refine ⟨placed0, hrun,
      fun placed' sched'' h' => placementRun_unique _ sched placed0 placed' sched1 sched'' hrun h',
      hlen, p1, p4, p3, ?_, ?_, ?_⟩
    · intro hpos
      rw [← hjd, if_pos hpos]
    · intro hzero
      have hnil : placed0 = [] := List.length_eq_zero.mp (by omega)
      subst hnil
      refine ⟨?_, ?_, ?_⟩
      · rw [← hjd, if_neg (by omega)]
      · rw [p3]; simp
      · rw [p1]; simp
    · intro hfail
      exact scheduleTasks_of_everyAttemptFails _ sched 0 n1 sched1 hloop hfail

/-- Claim C10, witness. With PUs 11 and 13 idle and tasks 1, 2, 3 runnable, `ScheduleJob`
places tasks 1 and 2, returns 2, leaves task 3 runnable and sets the job to RUNNING. -/
theorem C10_schedule_job_witness :
    ∃ n jd' sched',
      ScheduleJob threeTaskJob { uuid := 5, state := JobState.PENDING }
        = some (n, jd', sched') ∧
      n = 2 ∧ jd' = { uuid := 5, state := JobState.RUNNING } ∧
      sched'.runnable_tasks_ = [3] ∧ sched'.placements = [(1, 11), (2, 13)] ∧
      placementRun threeTaskJob.runnable_tasks_ threeTaskJob [(1, 11), (2, 13)] sched' := by
  have hrun : (ScheduleJob threeTaskJob { uuid := 5, state := JobState.PENDING }).map
      (fun r => (r.1, r.2.1, r.2.2.runnable_tasks_, r.2.2.placements))
      = some (2, { uuid := 5, state := JobState.RUNNING }, [3], [(1, 11), (2, 13)]) := by
    decide
  cases hres : ScheduleJob threeTaskJob { uuid := 5, state := JobState.PENDING } with
  | none => rw [hres] at hrun; cases hrun
  | some r =>
    obtain ⟨n, jd', sched'⟩ := r
    rw [hres] at hrun
    simp only [Option.map_some', Option.some.injEq, Prod.mk.injEq] at hrun
    obtain ⟨h1, h2, h3, h4⟩ := hrun
    obtain ⟨placed, p0, _, _, p2, _⟩ := C10_schedule_job threeTaskJob _ n jd' sched' hres
    have hplaced : placed = [(1, 11), (2, 13)] := by
      rw [h4] at p2
      exact (List.append_cancel_left
        (show ([] : List (Nat × Nat)) ++ [(1, 11), (2, 13)] = threeTaskJob.placements ++ placed
          from p2)).symm
    rw [hplaced] at p0
    exact ⟨n, jd', sched', rfl, h1, h2, h3, h4, p0⟩

/-! ## Locality pass on a machine missing from the resource map -/

theorem localityPass_append (sched : FulcrumScheduler) (pre rest : List Nat) :
    localityPass sched (pre ++ rest) =
      match localityPass sched pre with
      | some none => localityPass sched rest
      | r => r := by
  induction pre with
  | nil => simp [localityPass]
  | cons m pre' ih =>
    simp only [List.cons_append, localityPass]
    cases FindPtrOrNull sched.resource_map_ m with
    | none => rfl
    | some rs =>
      simp only
      split_ifs
      · rfl
      · cases sched.MachineResIDForResource rs.uuid with
        | none => rfl
        | some mid =>
          simp only
          cases findIdlePU sched.resource_map_ (equal_range sched.machine_res_id_pus_ mid) with
          | none => rfl
          | some r =>
            cases r with
            | none => exact ih
            | some pu => rfl

/-- Claim C11, counterexample. Machine 1 is a key of `data_on_machines` and absent from the
resource map; machine 2 also holds data and has an idle PU, which the fallback pass would find
as well. The call dies on `CHECK_NOTNULL` instead of skipping machine 1. -/
theorem C11_counterexample_missing_machine_aborts :
    sortedDataMachines missingMachine (freshTask 7 []) = [1, 2] ∧
    FindPtrOrNull missingMachine.resource_map_ 1 = none ∧
    localityPass missingMachine [2] = some (some 21) ∧
    fallbackPass missingMachine.resource_map_ = some 21 ∧
    FindResourceForTask missingMachine (freshTask 7 []) = none := by
  decide

/-- Claim C11, amended. When a machine id of `data_on_machines` is absent from the resource
map, `FindResourceForTask` returns the idle PU found on the machines tried before it, if there
is one, and otherwise dies on `CHECK_NOTNULL` when it reaches the machine: the machines after it
and the fallback pass are never reached. -/
theorem C11_missing_machine_is_fatal (sched : FulcrumScheduler) (td : TaskDescriptor)
    (pre : List Nat) (m : Nat) (post : List Nat)
    (hsorted : sortedDataMachines sched td = pre ++ m :: post)
    (hmissing : FindPtrOrNull sched.resource_map_ m = none) :
    FindResourceForTask sched td =
      match localityPass sched pre with
      | some (some pu) => some (some pu)
      | _ => none := by
  have hm : localityPass sched (m :: post) = none := by
    simp only [localityPass, hmissing]
  unfold FindResourceForTask
  rw [hsorted, localityPass_append, hm]
  cases localityPass sched pre with
  | none => rfl
  | some r =>
    cases r with
    | none => rfl
    | some pu => rfl

/-- Claim C11, witness: on `missingMachine` the missing machine is tried first and the call
dies. -/
theorem C11_missing_machine_is_fatal_witness :
    sortedDataMachines missingMachine (freshTask 7 []) = [] ++ 1 :: [2] ∧
    FindPtrOrNull missingMachine.resource_map_ 1 = none ∧
    FindResourceForTask missingMachine (freshTask 7 []) = none :=
  ⟨by decide, by decide,
    C11_missing_machine_is_fatal missingMachine (freshTask 7 []) [] 1 [2] (by decide)
      (by decide)⟩

/-! ## Fatal checks of the transfer-time estimate -/

/-- Claim C14, counterexample. The only replica is on the target machine but carries another
rack id: the statistics are `input_size = 1000`, `data_on_rack = 0`, `data_on_machine = 1000`,
which violate `data_on_rack ≥ data_on_machine`, and the call returns a value all the same
(`rack_data` wraps around). -/
theorem C14_counterexample_unchecked_rack_invariant :
    ComputeDataStatsForMachine inconsistentLayer
        (freshTask 7 [{ location := "f", size := 1000 }]) 1 0 0
      = some { input_size := 1000, data_on_rack := 0, data_on_machine := 1000 } ∧
    GetEstimatedTransferTimeUS inconsistentLayer
        (freshTask 7 [{ location := "f", size := 1000 }]) 1
      = some (2 ^ 47) := by
  decide

/-- Claim C14, amended. `GetEstimatedTransferTimeUS` terminates fatally instead of returning a
value whenever the statistics computed violate `input_size ≥ data_on_rack` (or could not be
computed); it returns a value whenever they satisfy it, whatever `data_on_machine` is. -/
theorem C14_fatal_iff_rack_exceeds_input (dl : SimulatedDataLayerManager)
    (td : TaskDescriptor) (M : Nat) :
    (ComputeDataStatsForMachine dl td M 0 0 = none → GetEstimatedTransferTimeUS dl td M = none) ∧
    (∀ stats, ComputeDataStatsForMachine dl td M 0 0 = some stats →
      (stats.input_size < stats.data_on_rack → GetEstimatedTransferTimeUS dl td M = none) ∧
      (stats.data_on_rack ≤ stats.input_size →
        ∃ v, GetEstimatedTransferTimeUS dl td M = some v)) := by
  refine ⟨fun h => by simp only [GetEstimatedTransferTimeUS, h], fun stats h => ⟨?_, ?_⟩⟩
  · intro hlt
    simp only [GetEstimatedTransferTimeUS, h]
    rw [if_neg (by omega)]
  · intro hle
    simp only [GetEstimatedTransferTimeUS, h]
    rw [if_pos hle]
    exact ⟨_, rfl⟩

/-- Claim C14, witness. A task reading a same-rack file of `2 ^ 64 − 1` bytes and a remote file
of 1 byte: `input_size` wraps to 0 while `data_on_rack` is `2 ^ 64 − 1`, and the call dies. -/
theorem C14_fatal_iff_rack_exceeds_input_witness :
    ComputeDataStatsForMachine hugeFileLayer
        (freshTask 7 [{ location := "a", size := 2 ^ 64 - 1 }, { location := "b", size := 1 }])
        1 0 0
      = some { input_size := 0, data_on_rack := 2 ^ 64 - 1, data_on_machine := 0 } ∧
    GetEstimatedTransferTimeUS hugeFileLayer
        (freshTask 7 [{ location := "a", size := 2 ^ 64 - 1 }, { location := "b", size := 1 }])
        1 = none :=
  ⟨by decide,
    ((C14_fatal_iff_rack_exceeds_input hugeFileLayer
        (freshTask 7 [{ location := "a", size := 2 ^ 64 - 1 }, { location := "b", size := 1 }])
        1).2 { input_size := 0, data_on_rack := 2 ^ 64 - 1, data_on_machine := 0 }
        (by decide)).1 (by decide)⟩

/-! ## Migration -/

/-- Claim C17. For every migration at time `t` of a task with `start ≤ t` for which both
transfer estimates are computed, `OnTaskMigration` returns and, with
`executed_for = (t − start) − old_transfer` truncated at 0: an entry `remaining ≥ executed_for`
of the task becomes `remaining − executed_for`, the submit time and the start time are both `t`,
and nothing is appended to the end-time list. -/
theorem C17_migration_effects (hook : NoInterferenceTransfer) (t : Nat) (s : HookState)
    (old_res_id res_id old_transfer new_transfer remaining : Nat)
    (ht : t < UINT64_SIZE) (hstart : s.td.start_time ≤ t)
    (hold : GetTransferTimeUS hook s.td old_res_id = some old_transfer)
    (hnew : GetTransferTimeUS hook s.td res_id = some new_transfer)
    (hentry : FindOrNull s.task_runtime_ s.td.uid = some remaining)
    (hrem : remaining < UINT64_SIZE)
    (hle : (t - s.td.start_time) - old_transfer ≤ remaining) :
    ∃ s', OnTaskMigration hook t s old_res_id res_id = some s' ∧
      FindOrNull s'.task_runtime_ s.td.uid
        = some (remaining - ((t - s.td.start_time) - old_transfer)) ∧
      s'.td.submit_time = t ∧ s'.td.start_time = t ∧ s'.td.has_start_time = true ∧
      s'.tasks_end_time = s.tasks_end_time := by
  have hfind : FindOrNull (InsertOrUpdate s.task_runtime_ s.td.uid
      (sub64 remaining (taskExecutedFor t s.td.start_time old_transfer))) s.td.uid
      = some (remaining - ((t - s.td.start_time) - old_transfer)) := by
    simp only [FindOrNull_InsertOrUpdate, if_true, taskExecutedFor_eq ht hstart,
      sub64_eq_of_le hrem hle]
  have key : OnTaskMigration hook t s old_res_id res_id = some
      { td := { s.td with
          total_run_time := hook.ComputeTaskTotalRunTime t s.td,
          finish_time :=
            sub64 (add64 (add64 t new_transfer)
                (remaining - ((t - s.td.start_time) - old_transfer)))
              (taskExecutedFor t s.td.start_time old_transfer),
          submit_time := t, start_time := t, has_start_time := true },
        task_runtime_ := InsertOrUpdate s.task_runtime_ s.td.uid
          (sub64 remaining (taskExecutedFor t s.td.start_time old_transfer)),
        tasks_end_time := s.tasks_end_time } := by
    simp only [OnTaskMigration, hold, hnew, hentry, hfind]
  exact ⟨_, key, hfind, rfl, rfl, rfl, rfl⟩

/-- Claim C17, witness: the scenario of the specification. Placed at 0 with old transfer 10 and
100 microseconds left, migrated at 40: 30 microseconds are credited, 70 are left, and the submit
and start times are 40. -/
theorem C17_migration_effects_witness :
    ∃ s', OnTaskMigration (hookOver (clusterLayer 4000 1300)) 40
        (submittedTask 4000 1300 100) 11 12 = some s' ∧
      FindOrNull s'.task_runtime_ 7 = some 70 ∧
      s'.td.submit_time = 40 ∧ s'.td.start_time = 40 ∧ s'.tasks_end_time = [] := by
  obtain ⟨s', h1, h2, h3, h4, _, h6⟩ :=
    C17_migration_effects (hookOver (clusterLayer 4000 1300)) 40 (submittedTask 4000 1300 100)
      11 12 10 3 100 (by decide) (by decide) (by decide) (by decide) (by decide) (by decide)
      (by decide)
  exact ⟨s', h1, h2, h3, h4, h6⟩

/-! ## Files of a task -/

/-- Claim C18, counterexample. The input distribution answers 320 and the block size is the
default 512 MB: `AddFilesForTask` asks the DFS policy for 1 block, not 320, and returns 512 MB,
not 320 times 512 MB. -/
theorem C18_counterexample_blocks_from_bytes :
    AddFilesForTask constantSynthesis (freshTask 7 []) 1000 false 0
      = (536870912, [{ task_uid := 7, num_blocks := 1, max_machine_spread := 0 }]) ∧
    constantSynthesis.Inverse (constantSynthesis.ProportionShorterTasks 1000) = 320 := by
  decide

/-- Claim C18, amended. For every non-service task, `AddFilesForTask` takes the answer `x` of the
input distribution for the probability of the runtime distribution as a size in bytes: it asks
the DFS policy, once, for `n` blocks, where `n` is the least number of blocks of
`simulated_block_size` bytes that hold `x` bytes, and returns `n` times the block size (as a
64-bit product). -/
theorem C18_blocks_cover_input_size {Probability : Type} (fs : FileSynthesis Probability)
    (td : TaskDescriptor) (avg_runtime max_machine_spread : Nat)
    (hbs : 0 < fs.simulated_block_size)
    (hx : fs.Inverse (fs.ProportionShorterTasks avg_runtime) < UINT64_SIZE) :
    ∃ n, AddFilesForTask fs td avg_runtime false max_machine_spread
        = (mul64 n fs.simulated_block_size,
            [{ task_uid := td.uid, num_blocks := n,
               max_machine_spread := max_machine_spread }]) ∧
      fs.Inverse (fs.ProportionShorterTasks avg_runtime) ≤ n * fs.simulated_block_size ∧
      (∀ k, fs.Inverse (fs.ProportionShorterTasks avg_runtime) ≤ k * fs.simulated_block_size →
        n ≤ k) ∧
      (n * fs.simulated_block_size < UINT64_SIZE →
        (AddFilesForTask fs td avg_runtime false max_machine_spread).1
          = n * fs.simulated_block_size) := by
  set x := fs.Inverse (fs.ProportionShorterTasks avg_runtime) with hxdef
  set bs := fs.simulated_block_size with hbsdef
  have hdm := Nat.div_add_mod x bs
  have hmod := Nat.mod_lt x hbs
  by_cases hrem : x % bs = 0
  · refine ⟨x / bs, ?_, ?_, ?_, ?_⟩
    · simp [AddFilesForTask, ← hxdef, ← hbsdef, hrem]
    · rw [Nat.mul_comm]; omega
    · intro k hk
      have : bs * (x / bs) ≤ bs * k := by rw [Nat.mul_comm bs k]; omega
      exact Nat.le_of_mul_le_mul_left this hbs
    · intro hfit
      simp [AddFilesForTask, ← hxdef, ← hbsdef, hrem, mul64_eq_of_lt hfit]
  · have hq : x / bs + 1 < UINT64_SIZE := by
      have h2 : 2 ≤ bs := by
        rcases Nat.lt_or_ge bs 2 with h | h
        · have : bs = 1 := by omega
          rw [this, Nat.mod_one] at hrem
          exact absurd rfl hrem
        · exact h
      have : x / bs ≤ x / 2 := Nat.div_le_div_left h2 (by norm_num)
      have hx2 : x / 2 + 1 < UINT64_SIZE := by unfold UINT64_SIZE at hx ⊢; omega
      omega
    refine ⟨x / bs + 1, ?_, ?_, ?_, ?_⟩
    · simp [AddFilesForTask, ← hxdef, ← hbsdef, hrem, add64_eq_of_lt hq]
    · rw [Nat.add_mul, Nat.one_mul, Nat.mul_comm]; omega
    · intro k hk
      by_contra hlt
      have hk' : k ≤ x / bs := by omega
      have : bs * k ≤ bs * (x / bs) := Nat.mul_le_mul_left bs hk'
      rw [Nat.mul_comm bs k] at this
      omega
    · intro hfit
      simp [AddFilesForTask, ← hxdef, ← hbsdef, hrem, add64_eq_of_lt hq, mul64_eq_of_lt hfit]

/-- Claim C18, witness: an answer of 320 bytes is held by one block of 512 MB. -/
theorem C18_blocks_cover_input_size_witness :
    ∃ n, AddFilesForTask constantSynthesis (freshTask 7 []) 1000 false 0
        = (mul64 n 536870912, [{ task_uid := 7, num_blocks := n, max_machine_spread := 0 }]) ∧
      320 ≤ n * 536870912 ∧ n ≤ 1 := by
  obtain ⟨n, h1, h2, h3, _⟩ :=
    C18_blocks_cover_input_size constantSynthesis (freshTask 7 []) 1000 0 (by decide)
      (by decide)
  exact ⟨n, h1, h2, h3 1 (by decide)⟩

/-- Claim C19. For every task flagged as a long-running service, whatever the average runtime
and the machine spread, `AddFilesForTask` returns 0 and makes no call to the DFS policy. -/
theorem C19_service_adds_no_files {Probability : Type} (fs : FileSynthesis Probability)
    (td : TaskDescriptor) (avg_runtime max_machine_spread : Nat) :
    AddFilesForTask fs td avg_runtime true max_machine_spread = (0, []) := by
  simp [AddFilesForTask]

/-! ## The statistics as sums over the selected replicas -/

theorem totalBytes_cons (r : DataLocation) (l : List DataLocation) :
    totalBytes (r :: l) = r.size_bytes_ + totalBytes l := by
  simp [totalBytes]

theorem totalBytes_append (l₁ l₂ : List DataLocation) :
    totalBytes (l₁ ++ l₂) = totalBytes l₁ + totalBytes l₂ := by
  simp [totalBytes]

theorem inRack_append (rack : Nat) (l₁ l₂ : List DataLocation) :
    inRack rack (l₁ ++ l₂) = inRack rack l₁ ++ inRack rack l₂ := by
  simp [inRack]

theorem onMachine_append (M : Nat) (l₁ l₂ : List DataLocation) :
    onMachine M (l₁ ++ l₂) = onMachine M l₁ ++ onMachine M l₂ := by
  simp [onMachine]

theorem totalBytes_inRack_le (rack : Nat) (l : List DataLocation) :
    totalBytes (inRack rack l) ≤ totalBytes l := by
  induction l with
  | nil => simp [inRack, totalBytes]
  | cons r rest ih =>
    by_cases h : rack = r.rack_id_
    · have : inRack rack (r :: rest) = r :: inRack rack rest := by simp [inRack, h]
      rw [this, totalBytes_cons, totalBytes_cons]; omega
    · have : inRack rack (r :: rest) = inRack rack rest := by simp [inRack, h]
      rw [this, totalBytes_cons]; omega

/-- When every replica on the machine carries the rack id of the machine, the bytes on the
machine are among the bytes in the rack. -/
theorem totalBytes_onMachine_le_inRack (M rack : Nat) (l : List DataLocation)
    (hcons : ∀ r ∈ l, r.machine_res_id_ = M → r.rack_id_ = rack) :
    totalBytes (onMachine M l) ≤ totalBytes (inRack rack l) := by
  induction l with
  | nil => simp [onMachine, inRack, totalBytes]
  | cons r rest ih =>
    have ih' := ih (fun q hq => hcons q (List.mem_cons_of_mem _ hq))
    by_cases hm : M = r.machine_res_id_
    · have hr : rack = r.rack_id_ := (hcons r (List.mem_cons_self _ _) hm.symm).symm
      have h1 : onMachine M (r :: rest) = r :: onMachine M rest := by simp [onMachine, hm]
      have h2 : inRack rack (r :: rest) = r :: inRack rack rest := by simp [inRack, hr]
      rw [h1, h2, totalBytes_cons, totalBytes_cons]; omega
    · have h1 : onMachine M (r :: rest) = onMachine M rest := by simp [onMachine, hm]
      rw [h1]
      by_cases hr : rack = r.rack_id_
      · have h2 : inRack rack (r :: rest) = r :: inRack rack rest := by simp [inRack, hr]
        rw [h2, totalBytes_cons]; omega
      · have h2 : inRack rack (r :: rest) = inRack rack rest := by simp [inRack, hr]
        rw [h2]; exact ih'

/-- The inner loop of `ComputeDataStatsForMachine` adds, modulo `2 ^ 64`, the bytes in the rack,
the bytes on the machine and all the bytes of the selected replicas. -/
theorem accumulateReplicas_eq (M rack : Nat) (l : List (Nat × DataLocation)) :
    ∀ r m f : Nat, r < UINT64_SIZE → m < UINT64_SIZE → f < UINT64_SIZE →
      accumulateReplicas M rack l (r, m, f) =
        ((r + totalBytes (inRack rack (l.map (fun kv => kv.2)))) % UINT64_SIZE,
         (m + totalBytes (onMachine M (l.map (fun kv => kv.2)))) % UINT64_SIZE,
         (f + totalBytes (l.map (fun kv => kv.2))) % UINT64_SIZE) := by
  induction l with
  | nil =>
    intro r m f hr hm hf
    simp [accumulateReplicas, inRack, onMachine, totalBytes, Nat.mod_eq_of_lt hr,
      Nat.mod_eq_of_lt hm, Nat.mod_eq_of_lt hf]
  | cons p rest ih =>
    intro r m f hr hm hf
    obtain ⟨k, loc⟩ := p
    simp only [accumulateReplicas, List.map_cons]
    have hr' : (if rack = loc.rack_id_ then add64 r loc.size_bytes_ else r) < UINT64_SIZE := by
      split_ifs
      · exact add64_lt _ _
      · exact hr
    have hm' : (if M = loc.machine_res_id_ then add64 m loc.size_bytes_ else m)
        < UINT64_SIZE := by
      split_ifs
      · exact add64_lt _ _
      · exact hm
    rw [ih _ _ _ hr' hm' (add64_lt _ _)]
    have e3 : (add64 f loc.size_bytes_ + totalBytes (rest.map (fun kv => kv.2))) % UINT64_SIZE
        = (f + totalBytes (loc :: rest.map (fun kv => kv.2))) % UINT64_SIZE := by
      rw [totalBytes_cons]; unfold add64; rw [Nat.add_mod, Nat.mod_mod, ← Nat.add_mod]
      congr 1; omega
    have e1 : ((if rack = loc.rack_id_ then add64 r loc.size_bytes_ else r)
          + totalBytes (inRack rack (rest.map (fun kv => kv.2)))) % UINT64_SIZE
        = (r + totalBytes (inRack rack (loc :: rest.map (fun kv => kv.2)))) % UINT64_SIZE := by
      by_cases h : rack = loc.rack_id_
      · have : inRack rack (loc :: rest.map (fun kv => kv.2))
            = loc :: inRack rack (rest.map (fun kv => kv.2)) := by simp [inRack, h]
        rw [this, totalBytes_cons, if_pos h]
        unfold add64; rw [Nat.add_mod, Nat.mod_mod, ← Nat.add_mod]
        congr 1; omega
      · have : inRack rack (loc :: rest.map (fun kv => kv.2))
            = inRack rack (rest.map (fun kv => kv.2)) := by simp [inRack, h]
        rw [this, if_neg h]
    have e2 : ((if M = loc.machine_res_id_ then add64 m loc.size_bytes_ else m)
          + totalBytes (onMachine M (rest.map (fun kv => kv.2)))) % UINT64_SIZE
        = (m + totalBytes (onMachine M (loc :: rest.map (fun kv => kv.2)))) % UINT64_SIZE := by
      by_cases h : M = loc.machine_res_id_
      · have : onMachine M (loc :: rest.map (fun kv => kv.2))
            = loc :: onMachine M (rest.map (fun kv => kv.2)) := by simp [onMachine, h]
        rw [this, totalBytes_cons, if_pos h]
        unfold add64; rw [Nat.add_mod, Nat.mod_mod, ← Nat.add_mod]
        congr 1; omega
      · have : onMachine M (loc :: rest.map (fun kv => kv.2))
            = onMachine M (rest.map (fun kv => kv.2)) := by simp [onMachine, h]
        rw [this, if_neg h]
    rw [e1, e2, e3]

/-- The size check of one dependency: the file size the inner loop computes is the sum of the
sizes of the selected replicas, modulo `2 ^ 64`. -/
theorem accumulateReplicas_selected (dl : SimulatedDataLayerManager) (M : Nat)
    (d : ReferenceDescriptor) (r m : Nat) (hr : r < UINT64_SIZE) (hm : m < UINT64_SIZE) :
    accumulateReplicas M (dl.GetRackForMachine M) (GetClosestReplicas dl d.location M [])
        (r, m, 0) =
      ((r + totalBytes (inRack (dl.GetRackForMachine M) (selectedReplicas dl M d)))
          % UINT64_SIZE,
       (m + totalBytes (onMachine M (selectedReplicas dl M d))) % UINT64_SIZE,
       totalBytes (selectedReplicas dl M d) % UINT64_SIZE) := by
  have hpos : (0 : Nat) < UINT64_SIZE := by unfold UINT64_SIZE; positivity
  rw [accumulateReplicas_eq M _ _ r m 0 hr hm hpos]
  simp [selectedReplicas]

/-- When `ComputeDataStatsForMachine` returns, every dependency has passed its size check and
the three statistics are, modulo `2 ^ 64`, the declared bytes, the selected bytes in the rack and
the selected bytes on the machine. -/
theorem computeDataStatsLoop_some (dl : SimulatedDataLayerManager) (M : Nat)
    (deps : List ReferenceDescriptor) :
    ∀ acc stats, acc.input_size < UINT64_SIZE → acc.data_on_rack < UINT64_SIZE →
      acc.data_on_machine < UINT64_SIZE →
      computeDataStatsLoop dl M deps acc = some stats →
      (∀ d ∈ deps, d.size = totalBytes (selectedReplicas dl M d) % UINT64_SIZE) ∧
      stats.input_size = (acc.input_size + declaredBytes deps) % UINT64_SIZE ∧
      stats.data_on_rack = (acc.data_on_rack + totalBytes (inRack (dl.GetRackForMachine M)
        (deps.map (selectedReplicas dl M)).flatten)) % UINT64_SIZE ∧
      stats.data_on_machine = (acc.data_on_machine + totalBytes (onMachine M
        (deps.map (selectedReplicas dl M)).flatten)) % UINT64_SIZE := by
  induction deps with
  | nil =>
    intro acc stats h1 h2 h3 h
    simp only [computeDataStatsLoop, Option.some.injEq] at h
    subst h
    simp [declaredBytes, inRack, onMachine, totalBytes, Nat.mod_eq_of_lt h1,
      Nat.mod_eq_of_lt h2, Nat.mod_eq_of_lt h3]
  | cons d rest ih =>
    intro acc stats h1 h2 h3 h
    simp only [computeDataStatsLoop, accumulateReplicas_selected dl M d _ _ h2 h3] at h
    split_ifs at h with hsz
    have hlt : ∀ x : Nat, x % UINT64_SIZE < UINT64_SIZE :=
      fun x => Nat.mod_lt _ (by unfold UINT64_SIZE; positivity)
    obtain ⟨i1, i2, i3, i4⟩ := ih _ stats (add64_lt _ _) (hlt _) (hlt _) h
    refine ⟨?_, ?_, ?_, ?_⟩
    · intro e he
      rcases List.mem_cons.mp he with rfl | he'
      · exact hsz
      · exact i1 e he'
    · rw [i2]
      simp only [declaredBytes, List.map_cons, List.sum_cons, add64]
      rw [Nat.add_mod, Nat.mod_mod, ← Nat.add_mod]
      congr 1; omega
    · rw [i3]
      simp only [List.map_cons, List.flatten_cons, inRack_append, totalBytes_append]
      rw [Nat.add_mod, Nat.mod_mod, ← Nat.add_mod]
      congr 1; omega
    · rw [i4]
      simp only [List.map_cons, List.flatten_cons, onMachine_append, totalBytes_append]
      rw [Nat.add_mod, Nat.mod_mod, ← Nat.add_mod]
      congr 1; omega

/-- When every dependency passes its size check, `ComputeDataStatsForMachine` returns. -/
theorem computeDataStatsLoop_of_sizes (dl : SimulatedDataLayerManager) (M : Nat)
    (deps : List ReferenceDescriptor) :
    ∀ acc, acc.data_on_rack < UINT64_SIZE → acc.data_on_machine < UINT64_SIZE →
      (∀ d ∈ deps, d.size = totalBytes (selectedReplicas dl M d) % UINT64_SIZE) →
      ∃ stats, computeDataStatsLoop dl M deps acc = some stats := by
  induction deps with
  | nil => intro acc _ _ _; exact ⟨acc, rfl⟩
  | cons d rest ih =>
    intro acc h2 h3 hall
    have hlt : ∀ x : Nat, x % UINT64_SIZE < UINT64_SIZE :=
      fun x => Nat.mod_lt _ (by unfold UINT64_SIZE; positivity)
    simp only [computeDataStatsLoop, accumulateReplicas_selected dl M d _ _ h2 h3]
    rw [if_pos (hall d (List.mem_cons_self _ _))]
    exact ih _ (hlt _) (hlt _) (fun e he => hall e (List.mem_cons_of_mem _ he))

/-- The sum of the declared sizes is, modulo `2 ^ 64`, the sum of the selected bytes, once every
dependency has passed its size check. -/
theorem declaredBytes_mod (dl : SimulatedDataLayerManager) (M : Nat)
    (deps : List ReferenceDescriptor)
    (hall : ∀ d ∈ deps, d.size = totalBytes (selectedReplicas dl M d) % UINT64_SIZE) :
    declaredBytes deps % UINT64_SIZE
      = totalBytes (deps.map (selectedReplicas dl M)).flatten % UINT64_SIZE := by
  induction deps with
  | nil => simp [declaredBytes, totalBytes]
  | cons d rest ih =>
    have ih' := ih (fun e he => hall e (List.mem_cons_of_mem _ he))
    have hd := hall d (List.mem_cons_self _ _)
    simp only [declaredBytes, List.map_cons, List.sum_cons, List.flatten_cons,
      totalBytes_append] at ih' ⊢
    rw [Nat.add_mod, ih', hd, Nat.mod_mod, ← Nat.add_mod]

/-! ## One selected replica per block -/

theorem mem_keys_of_FindOrNull {β : Type} (m : List (Nat × β)) (k : Nat) (v : β)
    (h : FindOrNull m k = some v) : k ∈ m.map (fun kv => kv.1) :=
  List.mem_map.mpr ⟨(k, v), FindOrNull_mem m k v h, rfl⟩

theorem FindOrNull_of_mem_keys {β : Type} (m : List (Nat × β)) (k : Nat)
    (h : k ∈ m.map (fun kv => kv.1)) : ∃ v, FindOrNull m k = some v := by
  induction m with
  | nil => simp at h
  | cons p rest ih =>
    obtain ⟨k', v'⟩ := p
    by_cases hk : k' = k
    · exact ⟨v', by simp [FindOrNull, hk]⟩
    · have hrest : k ∈ rest.map (fun kv => kv.1) := by
        rcases List.mem_cons.mp h with h1 | h1
        · exact absurd h1.symm hk
        · exact h1
      obtain ⟨v, hv⟩ := ih hrest
      exact ⟨v, by simp [FindOrNull, hk, hv]⟩

/-- In a map without repeated keys, an entry is what the lookup of its key finds. -/
theorem FindOrNull_of_mem {β : Type} (m : List (Nat × β))
    (hnd : (m.map (fun kv => kv.1)).Nodup) (k : Nat) (v : β) (h : (k, v) ∈ m) :
    FindOrNull m k = some v := by
  induction m with
  | nil => cases h
  | cons p rest ih =>
    obtain ⟨k', v'⟩ := p
    simp only [List.map_cons, List.nodup_cons] at hnd
    rcases List.mem_cons.mp h with h1 | h1
    · simp only [Prod.mk.injEq] at h1
      simp [FindOrNull, h1.1, h1.2]
    · have hk : k' ≠ k := by
        intro e
        exact hnd.1 (List.mem_map.mpr ⟨(k, v), h1, e.symm⟩)
      simp only [FindOrNull, hk, if_false]
      exact ih hnd.2 h1

theorem updateEntry_keys {β : Type} (m : List (Nat × β)) (k : Nat) (v : β) :
    (updateEntry m k v).map (fun kv => kv.1) = m.map (fun kv => kv.1) := by
  induction m with
  | nil => rfl
  | cons p rest ih =>
    obtain ⟨k', v'⟩ := p
    by_cases hk : k' = k
    · simp [updateEntry, hk]
    · simp [updateEntry, hk, ih]

theorem InsertIfNotPresent_nodup {β : Type} (m : List (Nat × β)) (k : Nat) (v : β)
    (hnd : (m.map (fun kv => kv.1)).Nodup) :
    ((InsertIfNotPresent m k v).map (fun kv => kv.1)).Nodup := by
  unfold InsertIfNotPresent
  cases hf : FindOrNull m k with
  | some x => exact hnd
  | none =>
    simp only [List.map_append, List.map_cons, List.map_nil]
    refine List.Nodup.append hnd (List.nodup_singleton _) ?_
    intro a ha hb
    rw [List.mem_singleton] at hb
    subst hb
    obtain ⟨x, hx⟩ := FindOrNull_of_mem_keys m a ha
    rw [hf] at hx; cases hx

theorem InsertOrUpdate_nodup {β : Type} (m : List (Nat × β)) (k : Nat) (v : β)
    (hnd : (m.map (fun kv => kv.1)).Nodup) :
    ((InsertOrUpdate m k v).map (fun kv => kv.1)).Nodup := by
  unfold InsertOrUpdate
  cases hf : FindOrNull m k with
  | some x => simp only [updateEntry_keys]; exact hnd
  | none =>
    simp only [List.map_append, List.map_cons, List.map_nil]
    refine List.Nodup.append hnd (List.nodup_singleton _) ?_
    intro a ha hb
    rw [List.mem_singleton] at hb
    subst hb
    obtain ⟨x, hx⟩ := FindOrNull_of_mem_keys m a ha
    rw [hf] at hx; cases hx

theorem closestReplicaStep_nodup (M rack : Nat) (m : List (Nat × DataLocation))
    (location : DataLocation) (hnd : (m.map (fun kv => kv.1)).Nodup) :
    ((closestReplicaStep M rack m location).map (fun kv => kv.1)).Nodup := by
  have h1 := InsertIfNotPresent_nodup m location.block_id_ location hnd
  have h2 := InsertOrUpdate_nodup _ location.block_id_ location h1
  unfold closestReplicaStep
  simp only
  cases FindOrNull (InsertIfNotPresent m location.block_id_ location) location.block_id_ with
  | none => exact h1
  | some c =>
    simp only
    split_ifs
    · exact h2
    · exact h2
    · exact h1
    · exact h1

theorem foldl_closestReplicaStep_nodup (M rack : Nat) (locations : List DataLocation) :
    ∀ m : List (Nat × DataLocation), (m.map (fun kv => kv.1)).Nodup →
      ((locations.foldl (closestReplicaStep M rack) m).map (fun kv => kv.1)).Nodup := by
  induction locations with
  | nil => intro m h; exact h
  | cons location rest ih =>
    intro m h
    exact ih _ (closestReplicaStep_nodup M rack m location h)

/-- A block that is listed has an entry. -/
theorem closestOfBlock_isSome (M rack b : Nat) (locations : List DataLocation) :
    ∀ cur, ((∃ c, cur = some c) ∨ ∃ l ∈ locations, l.block_id_ = b) →
      ∃ r, closestOfBlock M rack b cur locations = some r := by
  induction locations with
  | nil =>
    intro cur h
    rcases h with ⟨c, hc⟩ | ⟨l, hl, _⟩
    · exact ⟨c, hc⟩
    · cases hl
  | cons location rest ih =>
    intro cur h
    simp only [closestOfBlock]
    apply ih
    by_cases hb : location.block_id_ = b
    · left
      simp only [hb, if_true]
      cases cur with
      | none => exact ⟨location, rfl⟩
      | some c =>
        simp only [pickCloser]
        split_ifs <;> exact ⟨_, rfl⟩
    · simp only [hb, if_false]
      rcases h with hc | ⟨l, hl, hlb⟩
      · left; exact hc
      · rcases List.mem_cons.mp hl with rfl | hrest
        · exact absurd hlb hb
        · right; exact ⟨l, hrest, hlb⟩

/-- The result of `GetClosestReplicas`, started from an empty map, holds exactly one entry per
block of the file: no key is repeated, every entry is a listed replica of the block that is its
key, and every listed block is a key. -/
theorem GetClosestReplicas_one_per_block (dl : SimulatedDataLayerManager) (file : String)
    (M : Nat) :
    ((GetClosestReplicas dl file M []).map (fun kv => kv.1)).Nodup ∧
    (∀ kv ∈ GetClosestReplicas dl file M [],
      kv.2 ∈ dl.GetFileLocations file ∧ kv.2.block_id_ = kv.1) ∧
    (∀ l ∈ dl.GetFileLocations file,
      l.block_id_ ∈ (GetClosestReplicas dl file M []).map (fun kv => kv.1)) := by
  have hnd : ((GetClosestReplicas dl file M []).map (fun kv => kv.1)).Nodup := by
    unfold GetClosestReplicas
    exact foldl_closestReplicaStep_nodup M _ _ [] (by simp)
  refine ⟨hnd, ?_, ?_⟩
  · intro kv hkv
    obtain ⟨k, r⟩ := kv
    have hf := FindOrNull_of_mem _ hnd k r hkv
    rw [FindOrNull_GetClosestReplicas] at hf
    rcases closestOfBlock_mem M _ k _ none r hf with h0 | h1
    · cases h0
    · exact h1
  · intro l hl
    obtain ⟨r, hr⟩ := closestOfBlock_isSome M (dl.GetRackForMachine M) l.block_id_
      (dl.GetFileLocations file) none (Or.inr ⟨l, hl, rfl⟩)
    rw [← FindOrNull_GetClosestReplicas] at hr
    exact mem_keys_of_FindOrNull _ _ r hr

/-! ## Size check and conservation of the data size -/

/-- What `GetEstimatedTransferTimeUS` returns, in terms of the selected replicas: the
statistics are the selected bytes (all, in the rack, on the machine) modulo `2 ^ 64`, the check
`input_size ≥ data_on_rack` has passed, and the value is the sum of the two quotients. -/
theorem GetEstimatedTransferTimeUS_some (dl : SimulatedDataLayerManager) (td : TaskDescriptor)
    (M v : Nat) (hv : GetEstimatedTransferTimeUS dl td M = some v) :
    ∃ stats, ComputeDataStatsForMachine dl td M 0 0 = some stats ∧
      (∀ d ∈ td.dependencies, d.size = totalBytes (selectedReplicas dl M d) % UINT64_SIZE) ∧
      stats.input_size = totalBytes (taskSelected dl td M) % UINT64_SIZE ∧
      stats.data_on_rack
        = totalBytes (inRack (dl.GetRackForMachine M) (taskSelected dl td M)) % UINT64_SIZE ∧
      stats.data_on_machine
        = totalBytes (onMachine M (taskSelected dl td M)) % UINT64_SIZE ∧
      stats.data_on_rack ≤ stats.input_size ∧
      v = add64
        (mul64 dl.simulated_remote_transfer_time (sub64 stats.input_size stats.data_on_rack)
          / dl.BYTES_TO_MBITS)
        (mul64 dl.simulated_rack_transfer_time (sub64 stats.data_on_rack stats.data_on_machine)
          / dl.BYTES_TO_MBITS) := by
  unfold GetEstimatedTransferTimeUS at hv
  cases hs : ComputeDataStatsForMachine dl td M 0 0 with
  | none => simp [hs] at hv
  | some stats =>
    simp only [hs] at hv
    split_ifs at hv with hge
    simp only [Option.some.injEq] at hv
    have hpos : (0 : Nat) < UINT64_SIZE := by unfold UINT64_SIZE; positivity
    obtain ⟨h1, h2, h3, h4⟩ :=
      computeDataStatsLoop_some dl M td.dependencies _ stats hpos hpos hpos hs
    simp only [Nat.zero_add] at h2 h3 h4
    refine ⟨stats, rfl, h1, ?_, h3, h4, hge, hv.symm⟩
    rw [h2, declaredBytes_mod dl M td.dependencies h1]
    rfl

theorem sub64_self {a : Nat} (ha : a < UINT64_SIZE) : sub64 a a = 0 := by
  rw [sub64_eq_of_le ha le_rfl]; exact Nat.sub_self a

theorem sub64_zero {a : Nat} (ha : a < UINT64_SIZE) : sub64 a 0 = a := by
  rw [sub64_eq_of_le ha (Nat.zero_le a)]; rfl

theorem mul64_lt (a b : Nat) : mul64 a b < UINT64_SIZE :=
  Nat.mod_lt _ (by unfold UINT64_SIZE; positivity)

theorem mul64_div_lt (a b c : Nat) : mul64 a b / c < UINT64_SIZE :=
  lt_of_le_of_lt (Nat.div_le_self _ _) (mul64_lt a b)

/-- Claim C16, counterexample. The only replica is on the target machine 1 and carries the rack
id 2, while machine 1 is in rack 1. All the closest replicas are on the target and every check
passes, yet the value returned is `2 ^ 47`, not 0: the 1000 bytes count as remote
(`250 × 1000 / 131072 = 1`), and `rack_data = 0 − 1000` wraps around. -/
theorem C16_counterexample_local_replica_of_another_rack :
    (∀ r ∈ taskSelected inconsistentLayer (freshTask 7 [{ location := "f", size := 1000 }]) 1,
      r.machine_res_id_ = 1) ∧
    taskSelected inconsistentLayer (freshTask 7 [{ location := "f", size := 1000 }]) 1 ≠ [] ∧
    GetEstimatedTransferTimeUS inconsistentLayer
        (freshTask 7 [{ location := "f", size := 1000 }]) 1 = some (2 ^ 47) ∧
    GetEstimatedTransferTimeUS inconsistentLayer
        (freshTask 7 [{ location := "f", size := 1000 }]) 1 ≠ some 0 := by
  decide

/-- Claim C16, amended. For every task and target machine on which the checks pass and the replicas
selected on the target machine carry the rack id of the target, `GetEstimatedTransferTimeUS` returns
0 when all the selected replicas are on the target machine (in particular for a task without
dependencies), `rack_transfer × input_size / bytes_per_Mbit` when all are in the rack of the target
and none on the target, and `remote_transfer × input_size / bytes_per_Mbit` when none is in the rack
of the target (the products being 64-bit products, exact when they fit). -/
theorem C16_single_class_transfer (dl : SimulatedDataLayerManager) (td : TaskDescriptor)
    (M v : Nat) (hv : GetEstimatedTransferTimeUS dl td M = some v)
    (hcons : ∀ r ∈ taskSelected dl td M,
      r.machine_res_id_ = M → r.rack_id_ = dl.GetRackForMachine M) :
    ∃ stats, ComputeDataStatsForMachine dl td M 0 0 = some stats ∧
      ((∀ r ∈ taskSelected dl td M, r.machine_res_id_ = M) → v = 0) ∧
      ((∀ r ∈ taskSelected dl td M,
          r.rack_id_ = dl.GetRackForMachine M ∧ r.machine_res_id_ ≠ M) →
        v = mul64 dl.simulated_rack_transfer_time stats.input_size / dl.BYTES_TO_MBITS ∧
        (dl.simulated_rack_transfer_time * stats.input_size < UINT64_SIZE →
          v = dl.simulated_rack_transfer_time * stats.input_size / dl.BYTES_TO_MBITS)) ∧
      ((∀ r ∈ taskSelected dl td M, r.rack_id_ ≠ dl.GetRackForMachine M) →
        v = mul64 dl.simulated_remote_transfer_time stats.input_size / dl.BYTES_TO_MBITS ∧
        (dl.simulated_remote_transfer_time * stats.input_size < UINT64_SIZE →
          v = dl.simulated_remote_transfer_time * stats.input_size / dl.BYTES_TO_MBITS)) := by
  obtain ⟨stats, hs, _, hi, hr, hm, _, hval⟩ := GetEstimatedTransferTimeUS_some dl td M v hv
  have hpos : (0 : Nat) < UINT64_SIZE := by unfold UINT64_SIZE; positivity
  have hilt : stats.input_size < UINT64_SIZE := by rw [hi]; exact Nat.mod_lt _ hpos
  have hz : (0 : Nat) / dl.BYTES_TO_MBITS = 0 := Nat.zero_div _
  refine ⟨stats, hs, ?_, ?_, ?_⟩
  · intro hall
    have e1 : inRack (dl.GetRackForMachine M) (taskSelected dl td M) = taskSelected dl td M := by
      unfold inRack
      rw [List.filter_eq_self]
      intro r hr'
      simp [(hcons r hr' (hall r hr')).symm]
    have e2 : onMachine M (taskSelected dl td M) = taskSelected dl td M := by
      unfold onMachine
      rw [List.filter_eq_self]
      intro r hr'
      simp [(hall r hr').symm]
    rw [e1] at hr
    rw [e2] at hm
    rw [hval, hr, hm, hi, sub64_self (Nat.mod_lt _ hpos)]
    simp [mul64, add64]
  · intro hall
    have e1 : inRack (dl.GetRackForMachine M) (taskSelected dl td M) = taskSelected dl td M := by
      unfold inRack
      rw [List.filter_eq_self]
      intro r hr'
      simp [((hall r hr').1).symm]
    have e2 : onMachine M (taskSelected dl td M) = [] := by
      unfold onMachine
      rw [List.filter_eq_nil_iff]
      intro r hr'
      simp only [decide_eq_true_eq]
      exact fun e => (hall r hr').2 e.symm
    rw [e1] at hr
    rw [e2] at hm
    have hm0 : stats.data_on_machine = 0 := by rw [hm]; simp [totalBytes]
    have hri : stats.data_on_rack = stats.input_size := by rw [hr, hi]
    have hvr : v = mul64 dl.simulated_rack_transfer_time stats.input_size
        / dl.BYTES_TO_MBITS := by
      rw [hval, hri, hm0, sub64_self hilt, sub64_zero hilt]
      simp only [mul64, Nat.mul_zero, Nat.zero_mod, hz, add64, Nat.zero_add]
      exact Nat.mod_eq_of_lt (mul64_div_lt _ _ _)
    refine ⟨hvr, fun hfit => ?_⟩
    rw [hvr, mul64_eq_of_lt hfit]
  · intro hall
    have e1 : inRack (dl.GetRackForMachine M) (taskSelected dl td M) = [] := by
      unfold inRack
      rw [List.filter_eq_nil_iff]
      intro r hr'
      simp only [decide_eq_true_eq]
      exact fun e => hall r hr' e.symm
    have e2 : onMachine M (taskSelected dl td M) = [] := by
      unfold onMachine
      rw [List.filter_eq_nil_iff]
      intro r hr'
      simp only [decide_eq_true_eq]
      exact fun e => hall r hr' (hcons r hr' e.symm)
    rw [e1] at hr
    rw [e2] at hm
    have hm0 : stats.data_on_machine = 0 := by rw [hm]; simp [totalBytes]
    have hr0 : stats.data_on_rack = 0 := by rw [hr]; simp [totalBytes]
    have hvr : v = mul64 dl.simulated_remote_transfer_time stats.input_size
        / dl.BYTES_TO_MBITS := by
      rw [hval, hr0, hm0, sub64_zero hilt, sub64_self hpos]
      simp only [mul64, Nat.mul_zero, Nat.zero_mod, hz, add64, Nat.add_zero]
      exact Nat.mod_eq_of_lt (mul64_div_lt _ _ _)
    refine ⟨hvr, fun hfit => ?_⟩
    rw [hvr, mul64_eq_of_lt hfit]

/-- Claim C16, amended, witness: the scenarios of the specification. 80 MB in the rack of the target
and not on it cost `100 × 80 MB / 131072 = 64000` microseconds, 100 MB outside the rack cost
`250 × 100 MB / 131072 = 200000`, and input that is all on the target costs 0. -/
theorem C16_single_class_transfer_witness :
    GetEstimatedTransferTimeUS (clusterLayer 41943040 41943040)
      (freshTask 7 [{ location := "f", size := 83886080 }]) 4 = some 64000 ∧
    64000 = 100 * 83886080 / 131072 ∧
    GetEstimatedTransferTimeUS (clusterLayer 52428800 52428800)
      (freshTask 7 [{ location := "f", size := 104857600 }]) 1 = some 200000 ∧
    200000 = 250 * 104857600 / 131072 ∧
    GetEstimatedTransferTimeUS (localLayer 4000 1300)
      (freshTask 7 [{ location := "f", size := 5300 }]) 1 = some 0 := by
  obtain ⟨s2, h2, _, hrack, _⟩ :=
    C16_single_class_transfer (clusterLayer 41943040 41943040)
      (freshTask 7 [{ location := "f", size := 83886080 }]) 4 64000 (by decide) (by decide)
  obtain ⟨s3, h3, _, _, hremote⟩ :=
    C16_single_class_transfer (clusterLayer 52428800 52428800)
      (freshTask 7 [{ location := "f", size := 104857600 }]) 1 200000 (by decide) (by decide)
  obtain ⟨s1, h1, hlocal, _, _⟩ :=
    C16_single_class_transfer (localLayer 4000 1300)
      (freshTask 7 [{ location := "f", size := 5300 }]) 1 0 (by decide) (by decide)
  have e2 : s2.input_size = 83886080 := by
    have : ComputeDataStatsForMachine (clusterLayer 41943040 41943040)
        (freshTask 7 [{ location := "f", size := 83886080 }]) 4 0 0
        = some { input_size := 83886080, data_on_rack := 83886080, data_on_machine := 0 } := by
      decide
    rw [this] at h2
    rw [← Option.some.inj h2]
  have e3 : s3.input_size = 104857600 := by
    have : ComputeDataStatsForMachine (clusterLayer 52428800 52428800)
        (freshTask 7 [{ location := "f", size := 104857600 }]) 1 0 0
        = some { input_size := 104857600, data_on_rack := 0, data_on_machine := 0 } := by
      decide
    rw [this] at h3
    rw [← Option.some.inj h3]
  have r2 := (hrack (by decide)).2
  have r3 := (hremote (by decide)).2
  rw [e2] at r2
  rw [e3] at r3
  exact ⟨by decide, r2 (by decide), by decide, r3 (by decide), by decide⟩

/-! ## Transfer time when one block comes closer -/

theorem totalBytes_insert (X Y : List DataLocation) (r : DataLocation) :
    totalBytes (X ++ r :: Y) = totalBytes (X ++ Y) + r.size_bytes_ := by
  simp only [totalBytes_append, totalBytes_cons]; omega

theorem totalBytes_inRack_insert (rack : Nat) (X Y : List DataLocation) (r : DataLocation) :
    totalBytes (inRack rack (X ++ r :: Y))
      = totalBytes (inRack rack (X ++ Y)) + (if rack = r.rack_id_ then r.size_bytes_ else 0) := by
  by_cases h : rack = r.rack_id_
  · have : inRack rack (r :: Y) = r :: inRack rack Y := by simp [inRack, h]
    simp only [inRack_append, totalBytes_append, this, totalBytes_cons, if_pos h]; omega
  · have : inRack rack (r :: Y) = inRack rack Y := by simp [inRack, h]
    simp only [inRack_append, totalBytes_append, this, if_neg h]; omega

theorem totalBytes_onMachine_insert (M : Nat) (X Y : List DataLocation) (r : DataLocation) :
    totalBytes (onMachine M (X ++ r :: Y))
      = totalBytes (onMachine M (X ++ Y))
        + (if M = r.machine_res_id_ then r.size_bytes_ else 0) := by
  by_cases h : M = r.machine_res_id_
  · have : onMachine M (r :: Y) = r :: onMachine M Y := by simp [onMachine, h]
    simp only [onMachine_append, totalBytes_append, this, totalBytes_cons, if_pos h]; omega
  · have : onMachine M (r :: Y) = onMachine M Y := by simp [onMachine, h]
    simp only [onMachine_append, totalBytes_append, this, if_neg h]; omega

/-- When the replicas selected on the target carry the rack id of the target and the selected
bytes, multiplied by either rate, fit in 64 bits, nothing wraps: the value returned is
`remote × (all − in rack) / B + rack × (in rack − on machine) / B` over the selected bytes. -/
theorem GetEstimatedTransferTimeUS_exact (dl : SimulatedDataLayerManager) (td : TaskDescriptor)
    (M v : Nat) (hv : GetEstimatedTransferTimeUS dl td M = some v)
    (hcons : ∀ r ∈ taskSelected dl td M,
      r.machine_res_id_ = M → r.rack_id_ = dl.GetRackForMachine M)
    (hfit : totalBytes (taskSelected dl td M) < UINT64_SIZE)
    (hR : dl.simulated_remote_transfer_time * totalBytes (taskSelected dl td M) < UINT64_SIZE)
    (hK : dl.simulated_rack_transfer_time * totalBytes (taskSelected dl td M) < UINT64_SIZE) :
    v = dl.simulated_remote_transfer_time
          * (totalBytes (taskSelected dl td M)
              - totalBytes (inRack (dl.GetRackForMachine M) (taskSelected dl td M)))
          / dl.BYTES_TO_MBITS
        + dl.simulated_rack_transfer_time
          * (totalBytes (inRack (dl.GetRackForMachine M) (taskSelected dl td M))
              - totalBytes (onMachine M (taskSelected dl td M)))
          / dl.BYTES_TO_MBITS := by
  obtain ⟨stats, _, _, hi, hr, hm, _, hval⟩ := GetEstimatedTransferTimeUS_some dl td M v hv
  have hRT := totalBytes_inRack_le (dl.GetRackForMachine M) (taskSelected dl td M)
  have hMR := totalBytes_onMachine_le_inRack M (dl.GetRackForMachine M) _ hcons
  set T := totalBytes (taskSelected dl td M) with hT
  set RB := totalBytes (inRack (dl.GetRackForMachine M) (taskSelected dl td M)) with hRB
  set MB := totalBytes (onMachine M (taskSelected dl td M)) with hMB
  set R := dl.simulated_remote_transfer_time with hRdef
  set K := dl.simulated_rack_transfer_time with hKdef
  rw [Nat.mod_eq_of_lt hfit] at hi
  rw [Nat.mod_eq_of_lt (by omega)] at hr hm
  have h1 : R * (T - RB) ≤ R * T := Nat.mul_le_mul_left R (Nat.sub_le _ _)
  have h2 : K * (RB - MB) ≤ K * T := Nat.mul_le_mul_left K (by omega)
  have hsum : R * (T - RB) + K * (RB - MB) < UINT64_SIZE := by
    rcases Nat.le_total K R with hKR | hRK
    · have : K * (RB - MB) ≤ R * (RB - MB) := Nat.mul_le_mul_right _ hKR
      have h3 : R * (T - RB) + R * (RB - MB) = R * (T - MB) := by
        rw [← Nat.mul_add]; congr 1; omega
      have h4 : R * (T - MB) ≤ R * T := Nat.mul_le_mul_left R (Nat.sub_le _ _)
      omega
    · have : R * (T - RB) ≤ K * (T - RB) := Nat.mul_le_mul_right _ hRK
      have h3 : K * (T - RB) + K * (RB - MB) = K * (T - MB) := by
        rw [← Nat.mul_add]; congr 1; omega
      have h4 : K * (T - MB) ≤ K * T := Nat.mul_le_mul_left K (Nat.sub_le _ _)
      omega
  have hq1 := Nat.div_le_self (R * (T - RB)) dl.BYTES_TO_MBITS
  have hq2 := Nat.div_le_self (K * (RB - MB)) dl.BYTES_TO_MBITS
  rw [hval, hi, hr, hm, sub64_eq_of_le hfit hRT, sub64_eq_of_le (by omega) hMR,
    mul64_eq_of_lt (by omega), mul64_eq_of_lt (by omega)]
  exact add64_eq_of_lt (by omega)

/-- Claim C12, counterexample. With the default flags (rack 100 ≤ remote 250) and 131072 bytes
per Mbit, a task has a 1-byte block whose replica is remote and a 1310-byte block in the rack of
the target: the estimate is 0. When the replica of the 1-byte block is in the rack of the target
instead (on machine 2, not on the target), all else unchanged, the estimate is 1. -/
theorem C12_counterexample_rack_move_increases :
    taskSelected (tinyBlockLayer 3 2) tinyBlockTask 1
      = [{ machine_res_id_ := 3, rack_id_ := 2, block_id_ := 0, size_bytes_ := 1 },
         { machine_res_id_ := 2, rack_id_ := 1, block_id_ := 1, size_bytes_ := 1310 }] ∧
    taskSelected (tinyBlockLayer 2 1) tinyBlockTask 1
      = [{ machine_res_id_ := 2, rack_id_ := 1, block_id_ := 0, size_bytes_ := 1 },
         { machine_res_id_ := 2, rack_id_ := 1, block_id_ := 1, size_bytes_ := 1310 }] ∧
    (tinyBlockLayer 3 2).GetRackForMachine 1 = 1 ∧
    GetEstimatedTransferTimeUS (tinyBlockLayer 3 2) tinyBlockTask 1 = some 0 ∧
    GetEstimatedTransferTimeUS (tinyBlockLayer 2 1) tinyBlockTask 1 = some 1 := by
  decide

/-- Claim C12, amended. For a fixed task and target machine, with the rack rate at most the
remote rate, when the replica selected for one block changes from remote (outside the rack of
the target) to same-rack (in the rack of the target, not on the target), the other selected
replicas unchanged, the value returned by `GetEstimatedTransferTimeUS` increases by at most 1:
the two terms are rounded down separately. (Replicas on the target carry the rack id of the
target, and the selected bytes times either rate fit in 64 bits.) -/
theorem C12_remote_to_rack_increases_at_most_one (dl : SimulatedDataLayerManager)
    (locations' : String → List DataLocation) (td : TaskDescriptor) (M v v' : Nat)
    (X Y : List DataLocation) (r r' : DataLocation)
    (hrates : dl.simulated_rack_transfer_time ≤ dl.simulated_remote_transfer_time)
    (hsel : taskSelected dl td M = X ++ r :: Y)
    (hsel' : taskSelected { dl with GetFileLocations := locations' } td M = X ++ r' :: Y)
    (_hblock : r'.block_id_ = r.block_id_) (hsize : r'.size_bytes_ = r.size_bytes_)
    (hr : r.rack_id_ ≠ dl.GetRackForMachine M)
    (hr' : r'.rack_id_ = dl.GetRackForMachine M ∧ r'.machine_res_id_ ≠ M)
    (hcons : ∀ q ∈ X ++ r :: Y,
      q.machine_res_id_ = M → q.rack_id_ = dl.GetRackForMachine M)
    (hfit : totalBytes (X ++ r :: Y) < UINT64_SIZE)
    (hR : dl.simulated_remote_transfer_time * totalBytes (X ++ r :: Y) < UINT64_SIZE)
    (hv : GetEstimatedTransferTimeUS dl td M = some v)
    (hv' : GetEstimatedTransferTimeUS { dl with GetFileLocations := locations' } td M
      = some v') :
    v' ≤ v + 1 := by
  have hT' : totalBytes (X ++ r' :: Y) = totalBytes (X ++ r :: Y) := by
    rw [totalBytes_insert, totalBytes_insert, hsize]
  have hK : dl.simulated_rack_transfer_time * totalBytes (X ++ r :: Y) < UINT64_SIZE :=
    lt_of_le_of_lt (Nat.mul_le_mul_right _ hrates) hR
  have hrM : r.machine_res_id_ ≠ M := fun e => hr (hcons r (by simp) e)
  have hcons' : ∀ q ∈ X ++ r' :: Y,
      q.machine_res_id_ = M → q.rack_id_ = dl.GetRackForMachine M := by
    intro q hq hqM
    rcases List.mem_append.mp hq with h | h
    · exact hcons q (List.mem_append.mpr (Or.inl h)) hqM
    · rcases List.mem_cons.mp h with rfl | h
      · exact hr'.1
      · exact hcons q (List.mem_append.mpr (Or.inr (List.mem_cons_of_mem _ h))) hqM
  have e := GetEstimatedTransferTimeUS_exact dl td M v hv (by rw [hsel]; exact hcons)
    (by rw [hsel]; exact hfit) (by rw [hsel]; exact hR) (by rw [hsel]; exact hK)
  have e' : v' = dl.simulated_remote_transfer_time
          * (totalBytes (X ++ r' :: Y)
              - totalBytes (inRack (dl.GetRackForMachine M) (X ++ r' :: Y)))
          / dl.BYTES_TO_MBITS
        + dl.simulated_rack_transfer_time
          * (totalBytes (inRack (dl.GetRackForMachine M) (X ++ r' :: Y))
              - totalBytes (onMachine M (X ++ r' :: Y)))
          / dl.BYTES_TO_MBITS := by
    have := GetEstimatedTransferTimeUS_exact { dl with GetFileLocations := locations' } td M v'
      hv' (by rw [hsel']; exact hcons') (by rw [hsel', hT']; exact hfit)
      (by rw [hsel', hT']; exact hR) (by rw [hsel', hT']; exact hK)
    rw [hsel'] at this
    exact this
  rw [hsel] at e
  have hRTle := totalBytes_inRack_le (dl.GetRackForMachine M) (X ++ Y)
  have hMRle := totalBytes_onMachine_le_inRack M (dl.GetRackForMachine M) (X ++ Y)
    (fun q hq hqM => hcons q (by
      rcases List.mem_append.mp hq with h | h
      · exact List.mem_append.mpr (Or.inl h)
      · exact List.mem_append.mpr (Or.inr (List.mem_cons_of_mem _ h))) hqM)
  rw [totalBytes_insert, totalBytes_inRack_insert, totalBytes_onMachine_insert,
    if_neg (fun h => hr h.symm), if_neg (fun h => hrM h.symm)] at e
  rw [totalBytes_insert, totalBytes_inRack_insert, totalBytes_onMachine_insert,
    if_pos hr'.1.symm, if_neg (fun h => hr'.2 h.symm), hsize] at e'
  simp only [Nat.add_zero] at e e'
  set T0 := totalBytes (X ++ Y)
  set RB0 := totalBytes (inRack (dl.GetRackForMachine M) (X ++ Y))
  set MB0 := totalBytes (onMachine M (X ++ Y))
  set s := r.size_bytes_
  set R := dl.simulated_remote_transfer_time
  set K := dl.simulated_rack_transfer_time
  set B := dl.BYTES_TO_MBITS
  have ha : T0 + s - (RB0 + s) = T0 - RB0 := by omega
  have hb : RB0 + s - MB0 = (RB0 - MB0) + s := by omega
  have hc : T0 + s - RB0 = (T0 - RB0) + s := by omega
  rw [ha, hb] at e'
  rw [hc] at e
  have hnum : R * (T0 - RB0) + K * ((RB0 - MB0) + s)
      ≤ R * ((T0 - RB0) + s) + K * (RB0 - MB0) := by
    have : K * s ≤ R * s := Nat.mul_le_mul_right _ hrates
    rw [Nat.mul_add, Nat.mul_add]; omega
  have h1 := (div_add_div_le_add_div (R * (T0 - RB0)) (K * ((RB0 - MB0) + s)) B).1
  have h2 := (div_add_div_le_add_div (R * ((T0 - RB0) + s)) (K * (RB0 - MB0)) B).2
  have h3 := Nat.div_le_div_right (c := B) hnum
  omega

/-- Claim C12, witness: the two-block task, where the move of the 1-byte block into the rack
takes the estimate from 0 to 1. -/
theorem C12_remote_to_rack_increases_at_most_one_witness :
    GetEstimatedTransferTimeUS (tinyBlockLayer 3 2) tinyBlockTask 1 = some 0 ∧
    GetEstimatedTransferTimeUS
      { tinyBlockLayer 3 2 with GetFileLocations := (tinyBlockLayer 2 1).GetFileLocations }
      tinyBlockTask 1 = some 1 ∧
    1 ≤ 0 + 1 :=
  ⟨by decide, by decide,
    C12_remote_to_rack_increases_at_most_one (tinyBlockLayer 3 2)
      (tinyBlockLayer 2 1).GetFileLocations tinyBlockTask 1 0 1 []
      [{ machine_res_id_ := 2, rack_id_ := 1, block_id_ := 1, size_bytes_ := 1310 }]
      { machine_res_id_ := 3, rack_id_ := 2, block_id_ := 0, size_bytes_ := 1 }
      { machine_res_id_ := 2, rack_id_ := 1, block_id_ := 0, size_bytes_ := 1 }
      (by decide) (by decide) (by decide) (by decide) (by decide) (by decide) (by decide)
      (by decide) (by decide) (by decide) (by decide) (by decide)⟩

/-- With `0 < p_min < 1` and `max_blocks ≥ 2` the coefficient is positive. -/
theorem GoogleBlockDistribution.coef_pos (percent_min min_blocks max_blocks : ℕ)
    (hp1 : (percent_min : ℝ) / 100 < 1) (hmax : 2 ≤ max_blocks) :
    0 < (GoogleBlockDistribution.construct percent_min min_blocks max_blocks).coef := by
  have hlog : 0 < Real.logb 2 (max_blocks : ℝ) :=
    Real.logb_pos (by norm_num) (by exact_mod_cast (by omega : 1 < max_blocks))
  have h100 : ((100.0 : ℝ)) = 100 := by norm_num
  simp only [GoogleBlockDistribution.construct, h100]
  exact div_pos (by linarith) hlog

/-- Above `p_min`, `inverse` undoes the distribution function on every positive integer. -/
theorem GoogleBlockDistribution.inverse_F_of_two_le (d : GoogleBlockDistribution)
    (hcoef : 0 < d.coef) (x : ℕ) (hx : 2 ≤ x) : d.inverse (d.F x) = x := by
  have hlog : 0 < Real.logb 2 (x : ℝ) :=
    Real.logb_pos (by norm_num) (by exact_mod_cast (by omega : 1 < x))
  have hgt : ¬ d.F x ≤ d.p_min := by
    unfold GoogleBlockDistribution.F
    have := mul_pos hcoef hlog
    linarith
  have hexp : (d.F x - d.p_min) / d.coef = Real.logb 2 (x : ℝ) := by
    unfold GoogleBlockDistribution.F
    field_simp
  have hxpos : (0 : ℝ) < (x : ℝ) := by exact_mod_cast (by omega : 0 < x)
  unfold GoogleBlockDistribution.inverse
  rw [if_neg hgt, hexp, Real.rpow_logb (by norm_num) (by norm_num) hxpos, round_natCast]
  simp

/-- Claim C20. For every construction with `0 < p_min < 1`, `min_blocks ≥ 1` and
`max_blocks ≥ 2`, and every integer `x` with `min_blocks ≤ x ≤ max_blocks`,
`inverse (F x) = x`, where `F x = p_min + coef · log2 x` and
`coef = (1 − p_min) / log2 max_blocks`, in exact real arithmetic; and
`inverse 1.0 = max_blocks`. -/
theorem C20_inverse_undoes_F (percent_min min_blocks max_blocks x : ℕ)
    (_hp0 : 0 < (percent_min : ℝ) / 100) (hp1 : (percent_min : ℝ) / 100 < 1)
    (hmin : 1 ≤ min_blocks) (hmax : 2 ≤ max_blocks)
    (hx1 : min_blocks ≤ x) (hx2 : x ≤ max_blocks) :
    (GoogleBlockDistribution.construct percent_min min_blocks max_blocks).inverse
        ((GoogleBlockDistribution.construct percent_min min_blocks max_blocks).F x) = x ∧
    (GoogleBlockDistribution.construct percent_min min_blocks max_blocks).inverse 1.0
      = max_blocks ∧
    (GoogleBlockDistribution.construct percent_min min_blocks max_blocks).coef
      = (1 - (GoogleBlockDistribution.construct percent_min min_blocks max_blocks).p_min)
        / Real.logb 2 (max_blocks : ℝ) := by
  have hcoef := GoogleBlockDistribution.coef_pos percent_min min_blocks max_blocks hp1 hmax
  have h100 : ((100.0 : ℝ)) = 100 := by norm_num
  have h1 : ((1.0 : ℝ)) = 1 := by norm_num
  refine ⟨?_, ?_, rfl⟩
  · rcases Nat.lt_or_ge x 2 with hlt | hge
    · have hx : x = 1 := by omega
      have hm : min_blocks = 1 := by omega
      subst hx
      have hF : (GoogleBlockDistribution.construct percent_min min_blocks max_blocks).F
          ((1 : ℕ) : ℝ)
          = (GoogleBlockDistribution.construct percent_min min_blocks max_blocks).p_min := by
        simp [GoogleBlockDistribution.F]
      unfold GoogleBlockDistribution.inverse
      rw [hF, if_pos le_rfl]
      exact hm
    · exact GoogleBlockDistribution.inverse_F_of_two_le _ hcoef x hge
  · have hlog : 0 < Real.logb 2 (max_blocks : ℝ) :=
      Real.logb_pos (by norm_num) (by exact_mod_cast (by omega : 1 < max_blocks))
    have hmpos : (0 : ℝ) < (max_blocks : ℝ) := by exact_mod_cast (by omega : 0 < max_blocks)
    have hgt : ¬ (1.0 : ℝ)
        ≤ (GoogleBlockDistribution.construct percent_min min_blocks max_blocks).p_min := by
      simp only [GoogleBlockDistribution.construct, h100, h1]
      linarith
    have hexp : ((1.0 : ℝ)
          - (GoogleBlockDistribution.construct percent_min min_blocks max_blocks).p_min)
        / (GoogleBlockDistribution.construct percent_min min_blocks max_blocks).coef
        = Real.logb 2 (max_blocks : ℝ) := by
      simp only [GoogleBlockDistribution.construct, h100, h1]
      have hne : (1 - (percent_min : ℝ) / 100) ≠ 0 := by linarith
      rw [div_div_eq_mul_div, mul_comm, mul_div_assoc, div_self hne, mul_one]
    unfold GoogleBlockDistribution.inverse
    rw [if_neg hgt, hexp, Real.rpow_logb (by norm_num) (by norm_num) hmpos, round_natCast]
    simp

/-- Claim C20, witness: the default construction (50 percent, 1 to 320 blocks) at `x = 320`. -/
theorem C20_inverse_undoes_F_witness :
    (GoogleBlockDistribution.construct 50 1 320).inverse
        ((GoogleBlockDistribution.construct 50 1 320).F ((320 : ℕ) : ℝ)) = 320 ∧
    (GoogleBlockDistribution.construct 50 1 320).inverse 1.0 = 320 :=
  ⟨(C20_inverse_undoes_F 50 1 320 320 (by norm_num) (by norm_num) (by norm_num)
      (by norm_num) (by norm_num) (by norm_num)).1,
   (C20_inverse_undoes_F 50 1 320 320 (by norm_num) (by norm_num) (by norm_num)
      (by norm_num) (by norm_num) (by norm_num)).2.1⟩

/-! ## Random placement -/

/-- The sampling loop with `n` attempts: either some draw `k < n` is the first to land on an
idle resource, the loop returns that resource and has called `rand_r` exactly `k + 1` times; or
no draw lands on an idle resource, the loop returns nothing and has called `rand_r` exactly `n`
times. -/
theorem randomAttempts_spec (rand_r : Nat → Nat × Nat) (resources : List ResourceDescriptor) :
    ∀ n seed,
      (∃ k, k < n ∧ (∀ j, j < k → ¬ drawIsIdle rand_r resources seed j) ∧
        ∃ rd, drawnResource rand_r resources seed k = some rd ∧
          rd.state = ResourceState.RESOURCE_IDLE ∧
          randomAttempts rand_r resources n seed
            = (some rd.uuid, seedAfter rand_r seed (k + 1))) ∨
      ((∀ k, k < n → ¬ drawIsIdle rand_r resources seed k) ∧
        randomAttempts rand_r resources n seed = (none, seedAfter rand_r seed n)) := by
  intro n
  induction n with
  | zero =>
    intro seed
    right
    exact ⟨fun k hk => absurd hk (Nat.not_lt_zero k), rfl⟩
  | succ n ih =>
    intro seed
    have hshift : ∀ j, drawnResource rand_r resources seed (j + 1)
        = drawnResource rand_r resources (rand_r seed).2 j := fun j => rfl
    have hshiftI : ∀ j, drawIsIdle rand_r resources seed (j + 1)
        ↔ drawIsIdle rand_r resources (rand_r seed).2 j := fun j => Iff.rfl
    have hzero : drawnResource rand_r resources seed 0
        = resources.get? (((rand_r seed).1 % 2 ^ 32) % resources.length) := rfl
    -- the first draw does not land on an idle resource: the loop goes on
    have hcont : ¬ drawIsIdle rand_r resources seed 0 →
        randomAttempts rand_r resources (n + 1) seed
          = randomAttempts rand_r resources n (rand_r seed).2 →
        (∃ k, k < n + 1 ∧ (∀ j, j < k → ¬ drawIsIdle rand_r resources seed j) ∧
          ∃ rd, drawnResource rand_r resources seed k = some rd ∧
            rd.state = ResourceState.RESOURCE_IDLE ∧
            randomAttempts rand_r resources (n + 1) seed
              = (some rd.uuid, seedAfter rand_r seed (k + 1))) ∨
        ((∀ k, k < n + 1 → ¬ drawIsIdle rand_r resources seed k) ∧
          randomAttempts rand_r resources (n + 1) seed
            = (none, seedAfter rand_r seed (n + 1))) := by
      intro hnot hstep
      rcases ih (rand_r seed).2 with ⟨k, hk, hbefore, rd, h1, h2, h3⟩ | ⟨hall, hres⟩
      · left
        refine ⟨k + 1, by omega, ?_, rd, by rw [hshift]; exact h1, h2, by rw [hstep, h3]; rfl⟩
        intro j hj
        cases j with
        | zero => exact hnot
        | succ j' => rw [hshiftI]; exact hbefore j' (by omega)
      · right
        refine ⟨?_, by rw [hstep, hres]; rfl⟩
        intro k hk
        cases k with
        | zero => exact hnot
        | succ k' => rw [hshiftI]; exact hall k' (by omega)
    cases hget : resources.get? (((rand_r seed).1 % 2 ^ 32) % resources.length) with
    | none =>
      apply hcont
      · rintro ⟨rd, h1, _⟩
        rw [hzero, hget] at h1; cases h1
      · simp only [randomAttempts, hget]
    | some res =>
      by_cases hst : res.state = ResourceState.RESOURCE_IDLE
      · left
        refine ⟨0, by omega, fun j hj => absurd hj (Nat.not_lt_zero j), res,
          by rw [hzero, hget], hst, ?_⟩
        simp only [randomAttempts, hget, hst, if_true]
        rfl
      · apply hcont
        · rintro ⟨rd, h1, h2⟩
          rw [hzero, hget] at h1
          exact hst (by rw [Option.some.inj h1]; exact h2)
        · simp only [randomAttempts, hget, hst, if_false]

theorem drawnResource_mem (rand_r : Nat → Nat × Nat) (resources : List ResourceDescriptor)
    (seed k : Nat) (rd : ResourceDescriptor)
    (h : drawnResource rand_r resources seed k = some rd) : rd ∈ resources := by
  unfold drawnResource at h
  exact List.mem_iff_get?.mpr ⟨_, h⟩

/-- Claim C21. For every non-empty resource map and every `rand_r`, `FindRandomResourceForTask`
returns after at most 2000 draws: either some draw `k < 2000` is the first to land on an idle
resource, and the call succeeds with that resource after `k + 1` draws; or none of the 2000
draws lands on an idle resource, and the call fails after 2000 draws. In particular a resource
returned is an idle resource of the map, and the call fails when no resource is idle. -/
theorem C21_random_placement (sched : FulcrumScheduler) (td : TaskDescriptor)
    (hne : sched.resource_map_ ≠ []) :
    ((∃ k, k < 2000 ∧
        (∀ j, j < k → ¬ drawIsIdle sched.rand_r (sched.resource_map_.map (fun kv => kv.2))
          sched.rand_seed_ j) ∧
        ∃ rd, drawnResource sched.rand_r (sched.resource_map_.map (fun kv => kv.2))
            sched.rand_seed_ k = some rd ∧
          rd.state = ResourceState.RESOURCE_IDLE ∧
          FindRandomResourceForTask sched td
            = some (some rd.uuid,
                { sched with rand_seed_ := seedAfter sched.rand_r sched.rand_seed_ (k + 1) })) ∨
      ((∀ k, k < 2000 → ¬ drawIsIdle sched.rand_r (sched.resource_map_.map (fun kv => kv.2))
          sched.rand_seed_ k) ∧
        FindRandomResourceForTask sched td
          = some (none,
              { sched with rand_seed_ := seedAfter sched.rand_r sched.rand_seed_ 2000 }))) ∧
    (∀ u sched', FindRandomResourceForTask sched td = some (some u, sched') →
      ∃ kv ∈ sched.resource_map_, kv.2.uuid = u ∧
        kv.2.state = ResourceState.RESOURCE_IDLE) ∧
    ((∀ kv ∈ sched.resource_map_, kv.2.state ≠ ResourceState.RESOURCE_IDLE) →
      ∃ sched', FindRandomResourceForTask sched td = some (none, sched')) := by
  have hlen : ¬ (sched.resource_map_.map (fun kv => kv.2)).length = 0 := by
    rw [List.length_map]
    exact fun h => hne (List.length_eq_zero.mp h)
  have hmem : ∀ k rd, drawnResource sched.rand_r (sched.resource_map_.map (fun kv => kv.2))
      sched.rand_seed_ k = some rd → ∃ kv ∈ sched.resource_map_, kv.2 = rd := by
    intro k rd h
    have := drawnResource_mem _ _ _ _ _ h
    obtain ⟨kv, hkv, e⟩ := List.mem_map.mp this
    exact ⟨kv, hkv, e⟩
  have hmain := randomAttempts_spec sched.rand_r (sched.resource_map_.map (fun kv => kv.2))
    2000 sched.rand_seed_
  have hcases : (∃ k, k < 2000 ∧
        (∀ j, j < k → ¬ drawIsIdle sched.rand_r (sched.resource_map_.map (fun kv => kv.2))
          sched.rand_seed_ j) ∧
        ∃ rd, drawnResource sched.rand_r (sched.resource_map_.map (fun kv => kv.2))
            sched.rand_seed_ k = some rd ∧
          rd.state = ResourceState.RESOURCE_IDLE ∧
          FindRandomResourceForTask sched td
            = some (some rd.uuid,
                { sched with rand_seed_ := seedAfter sched.rand_r sched.rand_seed_ (k + 1) })) ∨
      ((∀ k, k < 2000 → ¬ drawIsIdle sched.rand_r (sched.resource_map_.map (fun kv => kv.2))
          sched.rand_seed_ k) ∧
        FindRandomResourceForTask sched td
          = some (none,
              { sched with rand_seed_ := seedAfter sched.rand_r sched.rand_seed_ 2000 })) := by
    rcases hmain with ⟨k, hk, hbefore, rd, h1, h2, h3⟩ | ⟨hall, hres⟩
    · left
      refine ⟨k, hk, hbefore, rd, h1, h2, ?_⟩
      unfold FindRandomResourceForTask
      rw [if_neg hlen, h3]
    · right
      refine ⟨hall, ?_⟩
      unfold FindRandomResourceForTask
      rw [if_neg hlen, hres]
  refine ⟨hcases, ?_, ?_⟩
  · intro u sched' h
    rcases hcases with ⟨k, _, _, rd, h1, h2, h3⟩ | ⟨_, hres⟩
    · rw [h3] at h
      simp only [Option.some.injEq, Prod.mk.injEq] at h
      obtain ⟨kv, hkv, e⟩ := hmem k rd h1
      exact ⟨kv, hkv, by rw [e]; exact h.1, by rw [e]; exact h2⟩
    · rw [hres] at h
      simp only [Option.some.injEq, Prod.mk.injEq] at h
      exact absurd h.1 (by simp)
  · intro hnone
    rcases hcases with ⟨k, _, _, rd, h1, h2, _⟩ | ⟨_, hres⟩
    · obtain ⟨kv, hkv, e⟩ := hmem k rd h1
      exact absurd (by rw [e]; exact h2) (hnone kv hkv)
    · exact ⟨_, hres⟩

/-- Claim C21, witness. On the cluster of `twoDataMachines` with `rand_r` counting up from 0,
the first draw hits machine 3 (busy) and the second PU 31 (idle): the call succeeds with 31,
which is an idle resource of the map. -/
theorem C21_random_placement_witness :
    twoDataMachines.resource_map_ ≠ [] ∧
    FindRandomResourceForTask twoDataMachines (freshTask 7 [])
      = some (some 31, { twoDataMachines with rand_seed_ := 2 }) ∧
    ∃ kv ∈ twoDataMachines.resource_map_, kv.2.uuid = 31 ∧
      kv.2.state = ResourceState.RESOURCE_IDLE :=
  ⟨by decide, rfl,
    (C21_random_placement twoDataMachines (freshTask 7 []) (by decide)).2.1 31
      { twoDataMachines with rand_seed_ := 2 } rfl⟩

/-! ## Start and finish times across the lifecycle -/

/-- Claim C23, the code on a migration after which the start time exceeds the finish time. Task
7, whose input is all on machine 1, is placed at time 0 on PU 11 of machine 1 with 100
microseconds left: start 0, finish 100. It is migrated at time 60 to PU 12 of machine 2 (new
transfer 10): the entry becomes 40, the start time 60, and the finish time
`60 + 10 + 40 − 60 = 50`, which is before the start time (and not `60 + 10 + 40 = 110`). -/
theorem C23_migration_finish_before_start :
    GetTransferTimeUS (hookOver (localLayer 4000 1300)) (submittedTask 4000 1300 100).td 11
      = some 0 ∧
    GetTransferTimeUS (hookOver (localLayer 4000 1300)) (submittedTask 4000 1300 100).td 12
      = some 10 ∧
    ((OnTaskPlacement (hookOver (localLayer 4000 1300)) 0
        (submittedTask 4000 1300 100) 11).map
      (fun s => (s.td.start_time, s.td.finish_time))) = some (0, 100) ∧
    (((OnTaskPlacement (hookOver (localLayer 4000 1300)) 0
        (submittedTask 4000 1300 100) 11).bind
      (fun s => OnTaskMigration (hookOver (localLayer 4000 1300)) 60 s 11 12)).map
      (fun s => (s.td.start_time, s.td.finish_time, FindOrNull s.task_runtime_ 7)))
      = some (60, 50, some 40) ∧
    ¬ (60 ≤ 50) := by
  decide

/-- What `OnTaskPlacement` leaves behind for a task with an entry, when the transfer estimate is
computed. -/
theorem OnTaskPlacement_of_entry (hook : NoInterferenceTransfer) (t : Nat) (s : HookState)
    (res_id transfer remaining : Nat)
    (h : GetTransferTimeUS hook s.td res_id = some transfer)
    (hentry : FindOrNull s.task_runtime_ s.td.uid = some remaining) :
    OnTaskPlacement hook t s res_id = some
      { td := { s.td with
          start_time := t, has_start_time := true,
          total_unscheduled_time := hook.UpdateTaskTotalUnscheduledTime
            { s.td with start_time := t, has_start_time := true },
          finish_time := add64 (add64 t transfer) remaining },
        task_runtime_ := s.task_runtime_,
        tasks_end_time := s.tasks_end_time ++
          [{ task_id_ := s.td.uid, previous_end_time_ := none,
             current_end_time_ := some (add64 (add64 t transfer) remaining) }] } := by
  have h' : GetTransferTimeUS hook
      { s.td with start_time := t, has_start_time := true,
                  total_unscheduled_time := hook.UpdateTaskTotalUnscheduledTime
                    { s.td with start_time := t, has_start_time := true } } res_id
      = some transfer :=
    (GetTransferTimeUS_congr hook s.td _ res_id rfl).trans h
  simp only [OnTaskPlacement, h', hentry]

/-- What `OnTaskEviction` leaves behind for a task with an entry, when the transfer estimate is
computed. -/
theorem OnTaskEviction_of_entry (hook : NoInterferenceTransfer) (t : Nat) (s : HookState)
    (res_id transfer remaining : Nat)
    (h : GetTransferTimeUS hook s.td res_id = some transfer)
    (hentry : FindOrNull s.task_runtime_ s.td.uid = some remaining) :
    OnTaskEviction hook t s res_id = some
      { td := { s.td with
          total_run_time := hook.ComputeTaskTotalRunTime t s.td,
          start_time := 0, has_start_time := false, submit_time := t },
        task_runtime_ := InsertOrUpdate s.task_runtime_ s.td.uid
          (sub64 remaining (taskExecutedFor t s.td.start_time transfer)),
        tasks_end_time := s.tasks_end_time ++
          [{ task_id_ := s.td.uid, previous_end_time_ := some s.td.finish_time,
             current_end_time_ := none }] } := by
  simp only [OnTaskEviction, h, hentry]

/-- Claim C26. A task with the entry `remaining` is placed at time `t0` by `OnTaskPlacement`,
so that its finish time is `t0 + transfer + remaining` (a sum that fits in 64 bits), and is then
evicted from the same resource at a time `t` with `t0 ≤ t ≤ finish`, under the same data layer.
Then `executed_for ≤ remaining`, the subtraction in `OnTaskEviction` does not wrap, and the new
entry is `finish − max(t, t0 + transfer)`. -/
theorem C26_eviction_after_placement (hook : NoInterferenceTransfer) (t0 t : Nat)
    (s s1 : HookState) (res_id transfer remaining : Nat)
    (htransfer : GetTransferTimeUS hook s.td res_id = some transfer)
    (hentry : FindOrNull s.task_runtime_ s.td.uid = some remaining)
    (hfit : t0 + transfer + remaining < UINT64_SIZE)
    (hplace : OnTaskPlacement hook t0 s res_id = some s1)
    (ht0 : t0 ≤ t) (ht : t ≤ s1.td.finish_time) :
    s1.td.finish_time = t0 + transfer + remaining ∧
    ∃ s2, OnTaskEviction hook t s1 res_id = some s2 ∧
      taskExecutedFor t s1.td.start_time transfer ≤ remaining ∧
      sub64 remaining (taskExecutedFor t s1.td.start_time transfer)
        = remaining - taskExecutedFor t s1.td.start_time transfer ∧
      FindOrNull s2.task_runtime_ s.td.uid
        = some (s1.td.finish_time - max t (t0 + transfer)) := by
  rw [OnTaskPlacement_of_entry hook t0 s res_id transfer remaining htransfer hentry] at hplace
  have hs1 := (Option.some.inj hplace).symm
  have hfin : s1.td.finish_time = t0 + transfer + remaining := by
    rw [hs1]
    show add64 (add64 t0 transfer) remaining = t0 + transfer + remaining
    rw [add64_eq_of_lt (a := t0) (b := transfer) (by omega), add64_eq_of_lt hfit]
  have hstart : s1.td.start_time = t0 := by rw [hs1]
  have huid : s1.td.uid = s.td.uid := by rw [hs1]
  have htab : s1.task_runtime_ = s.task_runtime_ := by rw [hs1]
  have hdeps : s1.td.dependencies = s.td.dependencies := by rw [hs1]
  have htransfer1 : GetTransferTimeUS hook s1.td res_id = some transfer :=
    (GetTransferTimeUS_congr hook s.td s1.td res_id hdeps).trans htransfer
  have hentry1 : FindOrNull s1.task_runtime_ s1.td.uid = some remaining := by
    rw [htab, huid]; exact hentry
  have htlt : t < UINT64_SIZE := by omega
  have hexec : taskExecutedFor t s1.td.start_time transfer = (t - t0) - transfer := by
    rw [hstart]; exact taskExecutedFor_eq htlt ht0
  have hle : taskExecutedFor t s1.td.start_time transfer ≤ remaining := by
    rw [hexec]; omega
  have hsub : sub64 remaining (taskExecutedFor t s1.td.start_time transfer)
      = remaining - taskExecutedFor t s1.td.start_time transfer :=
    sub64_eq_of_le (by omega) hle
  refine ⟨hfin, _, OnTaskEviction_of_entry hook t s1 res_id transfer remaining htransfer1
    hentry1, hle, hsub, ?_⟩
  have hsub1 : sub64 remaining (t - t0 - transfer) = remaining - (t - t0 - transfer) := by
    rw [← hexec]; exact hsub
  simp only [huid, FindOrNull_InsertOrUpdate, if_true, hexec, hsub1, hfin,
    Option.some.injEq]
  rcases Nat.le_total t (t0 + transfer) with h | h
  · rw [max_eq_right h]; omega
  · rw [max_eq_left h]; omega

/-- Claim C26, witness. Task 7 is placed at time 0 with transfer 10 and 100 microseconds left
(finish 110) and evicted from the same PU at time 50: 40 microseconds are credited and the new
entry is `110 − max(50, 10) = 60`. -/
theorem C26_eviction_after_placement_witness :
    ∃ s1 s2,
      OnTaskPlacement (hookOver (clusterLayer 4000 1300)) 0 (submittedTask 4000 1300 100) 11
        = some s1 ∧
      s1.td.finish_time = 110 ∧
      OnTaskEviction (hookOver (clusterLayer 4000 1300)) 50 s1 11 = some s2 ∧
      FindOrNull s2.task_runtime_ 7 = some 60 := by
  have hrun : (OnTaskPlacement (hookOver (clusterLayer 4000 1300)) 0
      (submittedTask 4000 1300 100) 11).map (fun s => s.td.finish_time) = some 110 := by
    decide
  cases hp : OnTaskPlacement (hookOver (clusterLayer 4000 1300)) 0
      (submittedTask 4000 1300 100) 11 with
  | none => rw [hp] at hrun; cases hrun
  | some s1 =>
    rw [hp] at hrun
    have hfin : s1.td.finish_time = 110 := Option.some.inj hrun
    obtain ⟨_, s2, h2, _, _, h5⟩ :=
      C26_eviction_after_placement (hookOver (clusterLayer 4000 1300)) 0 50
        (submittedTask 4000 1300 100) s1 11 10 100 (by decide) (by decide) (by decide) hp
        (by decide) (by rw [hfin]; decide)
    refine ⟨s1, s2, rfl, hfin, h2, ?_⟩
    rw [hfin] at h5
    exact h5

/-! ## Range of the block-count distribution -/

/-- The part of the truncation range that `inverse` does respect: for `y ≤ 1` the returned block
count is at most `max_blocks`, and above `p_min` it is at least 1. -/
theorem GoogleBlockDistribution.inverse_le_max_blocks (percent_min min_blocks max_blocks : ℕ)
    (hp1 : (percent_min : ℝ) / 100 < 1) (hmin : min_blocks ≤ max_blocks)
    (hmax : 2 ≤ max_blocks) (y : ℝ) (hy1 : y ≤ 1) :
    (GoogleBlockDistribution.construct percent_min min_blocks max_blocks).inverse y
        ≤ max_blocks ∧
    ((percent_min : ℝ) / 100 < y →
      1 ≤ (GoogleBlockDistribution.construct percent_min min_blocks max_blocks).inverse y) := by
  have hcoef := GoogleBlockDistribution.coef_pos percent_min min_blocks max_blocks hp1 hmax
  have hlog : 0 < Real.logb 2 (max_blocks : ℝ) :=
    Real.logb_pos (by norm_num) (by exact_mod_cast (by omega : 1 < max_blocks))
  have hmaxpos : (0 : ℝ) < (max_blocks : ℝ) := by exact_mod_cast (by omega : 0 < max_blocks)
  have h100 : ((100.0 : ℝ)) = 100 := by norm_num
  have hpmin : (GoogleBlockDistribution.construct percent_min min_blocks max_blocks).p_min
      = (percent_min : ℝ) / 100 := by
    simp only [GoogleBlockDistribution.construct, h100]
  have hcoefeq : (GoogleBlockDistribution.construct percent_min min_blocks max_blocks).coef
      = (1 - (percent_min : ℝ) / 100) / Real.logb 2 (max_blocks : ℝ) := by
    simp only [GoogleBlockDistribution.construct, h100]
  unfold GoogleBlockDistribution.inverse
  rw [hpmin]
  by_cases hy : y ≤ (percent_min : ℝ) / 100
  · rw [if_pos hy]
    exact ⟨hmin, fun h => absurd hy (not_le.mpr h)⟩
  · rw [if_neg hy]
    have hy' : (percent_min : ℝ) / 100 < y := not_le.mp hy
    have hexp_pos : 0 < (y - (percent_min : ℝ) / 100) /
        (GoogleBlockDistribution.construct percent_min min_blocks max_blocks).coef :=
      div_pos (by linarith) hcoef
    have hexp_le : (y - (percent_min : ℝ) / 100) /
        (GoogleBlockDistribution.construct percent_min min_blocks max_blocks).coef
        ≤ Real.logb 2 (max_blocks : ℝ) := by
      rw [div_le_iff₀ hcoef, hcoefeq, mul_div_cancel₀ _ (ne_of_gt hlog)]
      linarith
    have hpow_le : (2 : ℝ) ^ ((y - (percent_min : ℝ) / 100) /
        (GoogleBlockDistribution.construct percent_min min_blocks max_blocks).coef)
        ≤ (max_blocks : ℝ) := by
      calc (2 : ℝ) ^ ((y - (percent_min : ℝ) / 100) /
              (GoogleBlockDistribution.construct percent_min min_blocks max_blocks).coef)
          ≤ (2 : ℝ) ^ Real.logb 2 (max_blocks : ℝ) :=
            Real.rpow_le_rpow_of_exponent_le (by norm_num) hexp_le
        _ = (max_blocks : ℝ) := Real.rpow_logb (by norm_num) (by norm_num) hmaxpos
    have hpow_gt : (1 : ℝ) < (2 : ℝ) ^ ((y - (percent_min : ℝ) / 100) /
        (GoogleBlockDistribution.construct percent_min min_blocks max_blocks).coef) :=
      Real.one_lt_rpow (by norm_num) hexp_pos
    have hround_le : round ((2 : ℝ) ^ ((y - (percent_min : ℝ) / 100) /
        (GoogleBlockDistribution.construct percent_min min_blocks max_blocks).coef))
        ≤ (max_blocks : ℤ) := by
      rw [round_eq, ← Int.lt_add_one_iff, Int.floor_lt]
      push_cast
      linarith
    have hround_ge : (1 : ℤ) ≤ round ((2 : ℝ) ^ ((y - (percent_min : ℝ) / 100) /
        (GoogleBlockDistribution.construct percent_min min_blocks max_blocks).coef)) := by
      rw [round_eq, Int.le_floor]
      push_cast
      linarith
    constructor
    · omega
    · intro _
      omega

/-- Claim C28, the code on a construction with `min_blocks = 2`. With `p_min = 0.5` and
`min_blocks = max_blocks = 2` the coefficient is 0.5, and for `y = 0.75`, which lies in `[0, 1]`
above `p_min`, `inverse` returns `round (2 ^ 0.5) = 1`, below `min_blocks`. -/
theorem C28_inverse_below_min_blocks :
    (GoogleBlockDistribution.construct 50 2 2).p_min = 1 / 2 ∧
    (GoogleBlockDistribution.construct 50 2 2).coef = 1 / 2 ∧
    (GoogleBlockDistribution.construct 50 2 2).inverse 0.75 = 1 ∧
    (GoogleBlockDistribution.construct 50 2 2).inverse 0.75
      < (GoogleBlockDistribution.construct 50 2 2).min_blocks := by
  have hp : (GoogleBlockDistribution.construct 50 2 2).p_min = 1 / 2 := by
    simp only [GoogleBlockDistribution.construct]; norm_num
  have hcoef : (GoogleBlockDistribution.construct 50 2 2).coef = 1 / 2 := by
    simp only [GoogleBlockDistribution.construct, Nat.cast_ofNat]
    rw [Real.logb_self_eq_one (by norm_num)]
    norm_num
  have hx2 : ((2 : ℝ) ^ (1 / 2 : ℝ)) ^ 2 = 2 := by
    rw [← Real.rpow_natCast, ← Real.rpow_mul (by norm_num)]
    norm_num
  have hxpos : 0 < (2 : ℝ) ^ (1 / 2 : ℝ) := Real.rpow_pos_of_pos (by norm_num) _
  have hround : round ((2 : ℝ) ^ (1 / 2 : ℝ)) = 1 := by
    rw [round_eq, Int.floor_eq_iff]
    constructor
    · push_cast; nlinarith
    · push_cast; nlinarith
  have hinv : (GoogleBlockDistribution.construct 50 2 2).inverse 0.75 = 1 := by
    unfold GoogleBlockDistribution.inverse
    rw [hp, hcoef, if_neg (by norm_num)]
    have hexp : ((0.75 : ℝ) - 1 / 2) / (1 / 2) = 1 / 2 := by norm_num
    rw [hexp, hround]
    rfl
  refine ⟨hp, hcoef, hinv, ?_⟩
  rw [hinv]
  show 1 < 2
  norm_num

/-! ## `GetClosestReplicas` against the reference selection -/

/-- From a current entry in the rack but not on the machine, only a replica on the machine
replaces it: the first such replica of the block. -/
theorem closestOfBlock_from_rack (M rack b : Nat) (locations : List DataLocation) :
    ∀ c : DataLocation, M ≠ c.machine_res_id_ → rack = c.rack_id_ →
      closestOfBlock M rack b (some c) locations =
        match (locations.filter (fun l => l.block_id_ = b)).find?
            (fun l => M = l.machine_res_id_) with
        | some l => some l
        | none => some c := by
  induction locations with
  | nil => intro c _ _; rfl
  | cons l rest ih =>
    intro c hc hrack
    unfold closestOfBlock
    by_cases hb : l.block_id_ = b
    · rw [if_pos hb]
      by_cases hl : M = l.machine_res_id_
      · have hpick : pickCloser M rack (some c) l = some l := by
          simp only [pickCloser, if_pos hc, if_pos hl]
        rw [hpick, closestOfBlock_local_stays M rack b rest l hl.symm]
        simp [List.filter_cons, hb, List.find?_cons, hl]
      · have hpick : pickCloser M rack (some c) l = some c := by
          have hno : ¬ (rack = l.rack_id_ ∧ rack ≠ c.rack_id_) := fun h => h.2 hrack
          simp only [pickCloser, if_pos hc, if_neg hl, if_neg hno]
        rw [hpick, ih c hc hrack]
        simp [List.filter_cons, hb, List.find?_cons, hl]
    · rw [if_neg hb, ih c hc hrack]
      simp [List.filter_cons, hb]

/-- From a current entry outside the rack, the first replica of the block on the machine
replaces it; when there is none, the first one in the rack does. -/
theorem closestOfBlock_from_remote (M rack b : Nat) (locations : List DataLocation) :
    ∀ c : DataLocation, M ≠ c.machine_res_id_ → rack ≠ c.rack_id_ →
      closestOfBlock M rack b (some c) locations =
        match (locations.filter (fun l => l.block_id_ = b)).find?
            (fun l => M = l.machine_res_id_) with
        | some l => some l
        | none =>
          match (locations.filter (fun l => l.block_id_ = b)).find?
              (fun l => rack = l.rack_id_) with
          | some l => some l
          | none => some c := by
  induction locations with
  | nil => intro c _ _; rfl
  | cons l rest ih =>
    intro c hc hrack
    unfold closestOfBlock
    by_cases hb : l.block_id_ = b
    · rw [if_pos hb]
      by_cases hl : M = l.machine_res_id_
      · have hpick : pickCloser M rack (some c) l = some l := by
          simp only [pickCloser, if_pos hc, if_pos hl]
        rw [hpick, closestOfBlock_local_stays M rack b rest l hl.symm]
        simp [List.filter_cons, hb, List.find?_cons, hl]
      · by_cases hlr : rack = l.rack_id_
        · have hpick : pickCloser M rack (some c) l = some l := by
            have hyes : rack = l.rack_id_ ∧ rack ≠ c.rack_id_ := ⟨hlr, hrack⟩
            simp only [pickCloser, if_pos hc, if_neg hl, if_pos hyes]
          rw [hpick, closestOfBlock_from_rack M rack b rest l hl hlr]
          simp only [List.filter_cons, hb, decide_True, if_true, List.find?_cons, hl,
            decide_False, hlr]
        · have hpick : pickCloser M rack (some c) l = some c := by
            have hno : ¬ (rack = l.rack_id_ ∧ rack ≠ c.rack_id_) := fun h => hlr h.1
            simp only [pickCloser, if_pos hc, if_neg hl, if_neg hno]
          rw [hpick, ih c hc hrack]
          simp [List.filter_cons, hb, List.find?_cons, hl, hlr]
    · rw [if_neg hb, ih c hc hrack]
      simp [List.filter_cons, hb]

/-- From no entry at all, the loop of `GetClosestReplicas` leaves for block `b` the reference
selection. -/
theorem closestOfBlock_eq_firstOfBestClass (M rack b : Nat) (locations : List DataLocation) :
    closestOfBlock M rack b none locations = firstOfBestClass M rack b locations := by
  induction locations with
  | nil => rfl
  | cons l rest ih =>
    unfold closestOfBlock
    by_cases hb : l.block_id_ = b
    · rw [if_pos hb]
      have hpick : pickCloser M rack none l = some l := rfl
      rw [hpick]
      by_cases hl : M = l.machine_res_id_
      · rw [closestOfBlock_local_stays M rack b rest l hl.symm]
        simp [firstOfBestClass, List.filter_cons, hb, List.find?_cons, hl]
      · by_cases hlr : rack = l.rack_id_
        · rw [closestOfBlock_from_rack M rack b rest l hl hlr]
          simp only [firstOfBestClass, List.filter_cons, hb, decide_True, if_true,
            List.find?_cons, hl, decide_False, hlr]
        · rw [closestOfBlock_from_remote M rack b rest l hl hlr]
          simp only [firstOfBestClass, List.filter_cons, hb, decide_True, if_true,
            List.find?_cons, hl, decide_False, hlr, List.head?_cons]
    · rw [if_neg hb, ih]
      simp [firstOfBestClass, List.filter_cons, hb]

/-- Claim C25. For every data layer (hence every list of replica locations) and every target
machine `M`, the map `GetClosestReplicas` returns from an empty map has no repeated key, its
keys are exactly the block ids occurring in the list, and its value for every block is the
reference selection `firstOfBestClass`: the earliest-listed replica of the block on `M`, else
the earliest-listed one in the rack of `M`, else the earliest-listed one. -/
theorem C25_closest_replicas_refine_reference (dl : SimulatedDataLayerManager) (file : String)
    (M : Nat) :
    ((GetClosestReplicas dl file M []).map (fun kv => kv.1)).Nodup ∧
    (∀ b, b ∈ (GetClosestReplicas dl file M []).map (fun kv => kv.1) ↔
      ∃ l ∈ dl.GetFileLocations file, l.block_id_ = b) ∧
    (∀ b, FindOrNull (GetClosestReplicas dl file M []) b
      = firstOfBestClass M (dl.GetRackForMachine M) b (dl.GetFileLocations file)) := by
  obtain ⟨hnd, hval, hkeys⟩ := GetClosestReplicas_one_per_block dl file M
  refine ⟨hnd, fun b => ⟨fun hb => ?_, fun hb => ?_⟩, fun b => ?_⟩
  · obtain ⟨kv, hkv, hk⟩ := List.mem_map.mp hb
    exact ⟨kv.2, (hval kv hkv).1, (hval kv hkv).2.trans hk⟩
  · obtain ⟨l, hl, hlb⟩ := hb
    rw [← hlb]
    exact hkeys l hl
  · rw [FindOrNull_GetClosestReplicas]
    exact closestOfBlock_eq_firstOfBestClass M (dl.GetRackForMachine M) b
      (dl.GetFileLocations file)

/-! ## The ordering of the three statistics -/

theorem size_le_declaredBytes (deps : List ReferenceDescriptor) (d : ReferenceDescriptor)
    (hd : d ∈ deps) : d.size ≤ declaredBytes deps := by
  induction deps with
  | nil => cases hd
  | cons e rest ih =>
    simp only [declaredBytes, List.map_cons, List.sum_cons] at ih ⊢
    rcases List.mem_cons.mp hd with h | h
    · rw [h]; omega
    · have := ih h; omega

/-- With every declared size equal to the plain sum of the selected sizes, the declared sizes of
a task add up to the bytes of all the selected replicas. -/
theorem declaredBytes_of_exact (dl : SimulatedDataLayerManager) (M : Nat)
    (deps : List ReferenceDescriptor)
    (hall : ∀ d ∈ deps, d.size = totalBytes (selectedReplicas dl M d)) :
    declaredBytes deps = totalBytes (deps.map (selectedReplicas dl M)).flatten := by
  induction deps with
  | nil => simp [declaredBytes, totalBytes]
  | cons d rest ih =>
    have ih' := ih (fun e he => hall e (List.mem_cons_of_mem _ he))
    have hd := hall d (List.mem_cons_self _ _)
    simp only [declaredBytes, List.map_cons, List.sum_cons, List.flatten_cons,
      totalBytes_append] at ih' ⊢
    rw [ih', hd]

/-- Every replica selected for a task is one of the replicas listed for one of its
dependencies. -/
theorem taskSelected_listed (dl : SimulatedDataLayerManager) (td : TaskDescriptor) (M : Nat)
    (r : DataLocation) (hr : r ∈ taskSelected dl td M) :
    ∃ d ∈ td.dependencies, r ∈ dl.GetFileLocations d.location := by
  unfold taskSelected at hr
  obtain ⟨l, hl, hrl⟩ := List.mem_flatten.mp hr
  obtain ⟨d, hd, hdl⟩ := List.mem_map.mp hl
  refine ⟨d, hd, ?_⟩
  rw [← hdl] at hrl
  unfold selectedReplicas at hrl
  obtain ⟨kv, hkv, hkvr⟩ := List.mem_map.mp hrl
  rw [← hkvr]
  exact ((GetClosestReplicas_one_per_block dl d.location M).2.1 kv hkv).1

/-- Claim C24, counterexample. Every replica carries the rack id of its machine and both
declared sizes, `2 ^ 64 − 1` and 1, are the sizes of the selected replicas. The sum of the
declared sizes wraps to `input_size = 0`, below `data_on_rack = 2 ^ 64 − 1`, and the `CHECK_GE`
of `GetEstimatedTransferTimeUS` fails. -/
theorem C24_counterexample_input_size_wraps :
    (∀ d ∈ [({ location := "a", size := 2 ^ 64 - 1 } : ReferenceDescriptor),
          { location := "b", size := 1 }],
      (∀ r ∈ hugeFileLayer.GetFileLocations d.location,
        r.rack_id_ = hugeFileLayer.GetRackForMachine r.machine_res_id_) ∧
      d.size = totalBytes (selectedReplicas hugeFileLayer 1 d) ∧ d.size < UINT64_SIZE) ∧
    ComputeDataStatsForMachine hugeFileLayer
        (freshTask 7 [{ location := "a", size := 2 ^ 64 - 1 }, { location := "b", size := 1 }])
        1 0 0
      = some { input_size := 0, data_on_rack := 2 ^ 64 - 1, data_on_machine := 0 } ∧
    GetEstimatedTransferTimeUS hugeFileLayer
        (freshTask 7 [{ location := "a", size := 2 ^ 64 - 1 }, { location := "b", size := 1 }])
        1 = none := by
  decide

/-- Claim C24, amended. When every listed replica carries the rack id of its machine, every
dependency's declared size is the sum of the sizes of its selected replicas, and the declared sizes
of the task add up to less than `2 ^ 64`, `ComputeDataStatsForMachine` started from zeroed
accumulators returns statistics with `input_size ≥ data_on_rack ≥ data_on_machine`,
`GetEstimatedTransferTimeUS` passes its `CHECK_GE` and returns, and both of its subtractions are
plain subtractions. -/
theorem C24_statistics_ordered (dl : SimulatedDataLayerManager) (td : TaskDescriptor) (M : Nat)
    (hrack : ∀ d ∈ td.dependencies, ∀ r ∈ dl.GetFileLocations d.location,
      r.rack_id_ = dl.GetRackForMachine r.machine_res_id_)
    (hsize : ∀ d ∈ td.dependencies, d.size = totalBytes (selectedReplicas dl M d))
    (hfit : declaredBytes td.dependencies < UINT64_SIZE) :
    ∃ stats v, ComputeDataStatsForMachine dl td M 0 0 = some stats ∧
      stats.data_on_rack ≤ stats.input_size ∧
      stats.data_on_machine ≤ stats.data_on_rack ∧
      GetEstimatedTransferTimeUS dl td M = some v ∧
      sub64 stats.input_size stats.data_on_rack = stats.input_size - stats.data_on_rack ∧
      sub64 stats.data_on_rack stats.data_on_machine
        = stats.data_on_rack - stats.data_on_machine := by
  have hU : 0 < UINT64_SIZE := by unfold UINT64_SIZE; norm_num
  have hmod : ∀ d ∈ td.dependencies,
      d.size = totalBytes (selectedReplicas dl M d) % UINT64_SIZE := by
    intro d hd
    have h1 := size_le_declaredBytes td.dependencies d hd
    have h2 := hsize d hd
    rw [Nat.mod_eq_of_lt (by omega)]
    exact h2
  have htotal : declaredBytes td.dependencies = totalBytes (taskSelected dl td M) :=
    declaredBytes_of_exact dl M td.dependencies hsize
  have hcons : ∀ r ∈ taskSelected dl td M,
      r.machine_res_id_ = M → r.rack_id_ = dl.GetRackForMachine M := by
    intro r hr hM
    obtain ⟨d, hd, hrd⟩ := taskSelected_listed dl td M r hr
    rw [hrack d hd r hrd, hM]
  obtain ⟨stats, hstats⟩ := computeDataStatsLoop_of_sizes dl M td.dependencies
    { input_size := 0, data_on_rack := 0, data_on_machine := 0 } hU hU hmod
  obtain ⟨_, hin, hrk, hmc⟩ := computeDataStatsLoop_some dl M td.dependencies
    { input_size := 0, data_on_rack := 0, data_on_machine := 0 } stats hU hU hU hstats
  have hrk_le := totalBytes_inRack_le (dl.GetRackForMachine M) (taskSelected dl td M)
  have hmc_le := totalBytes_onMachine_le_inRack M (dl.GetRackForMachine M)
    (taskSelected dl td M) hcons
  simp only [Nat.zero_add] at hin hrk hmc
  rw [Nat.mod_eq_of_lt hfit] at hin
  have hrk' : stats.data_on_rack
      = totalBytes (inRack (dl.GetRackForMachine M) (taskSelected dl td M)) := by
    rw [hrk]; exact Nat.mod_eq_of_lt (by unfold taskSelected at hrk_le htotal; omega)
  have hmc' : stats.data_on_machine = totalBytes (onMachine M (taskSelected dl td M)) := by
    rw [hmc]
    exact Nat.mod_eq_of_lt (by unfold taskSelected at hrk_le hmc_le htotal; omega)
  have h1 : stats.data_on_rack ≤ stats.input_size := by omega
  have h2 : stats.data_on_machine ≤ stats.data_on_rack := by omega
  have hcall : ComputeDataStatsForMachine dl td M 0 0 = some stats := hstats
  have hv : ∃ v, GetEstimatedTransferTimeUS dl td M = some v := by
    simp only [GetEstimatedTransferTimeUS, hcall, ge_iff_le, h1, if_true]
    exact ⟨_, rfl⟩
  obtain ⟨v, hv⟩ := hv
  exact ⟨stats, v, hcall, h1, h2, hv, sub64_eq_of_le (by omega) h1,
    sub64_eq_of_le (by omega) h2⟩

/-- Claim C24, amended, witness. Seen from machine 1 of rack 1, the three blocks of 64 bytes are
selected on machine 1, in rack 1 and in rack 3: the statistics are 192 ≥ 128 ≥ 64. -/
theorem C24_statistics_ordered_witness :
    ComputeDataStatsForMachine replicatedLayer
        (freshTask 7 [{ location := "f", size := 192 }]) 1 0 0
      = some { input_size := 192, data_on_rack := 128, data_on_machine := 64 } ∧
    ∃ stats v, ComputeDataStatsForMachine replicatedLayer
        (freshTask 7 [{ location := "f", size := 192 }]) 1 0 0 = some stats ∧
      stats.data_on_rack ≤ stats.input_size ∧
      stats.data_on_machine ≤ stats.data_on_rack ∧
      GetEstimatedTransferTimeUS replicatedLayer
        (freshTask 7 [{ location := "f", size := 192 }]) 1 = some v ∧
      sub64 stats.input_size stats.data_on_rack = stats.input_size - stats.data_on_rack ∧
      sub64 stats.data_on_rack stats.data_on_machine
        = stats.data_on_rack - stats.data_on_machine :=
  ⟨by decide,
   C24_statistics_ordered replicatedLayer (freshTask 7 [{ location := "f", size := 192 }]) 1
    (by decide) (by decide) (by decide)⟩

/-! ## Independence of the order in which the DFS lists the replicas -/

/-- The sum of a weight over the values of a map with distinct keys, taken key by key. -/
theorem sum_values_by_keys (w : DataLocation → Nat) (m : List (Nat × DataLocation))
    (hnd : (m.map (fun kv => kv.1)).Nodup) :
    (m.map (fun kv => w kv.2)).sum =
      ((m.map (fun kv => kv.1)).map (fun b =>
        match FindOrNull m b with
        | some r => w r
        | none => 0)).sum := by
  induction m with
  | nil => rfl
  | cons p rest ih =>
    obtain ⟨k, v⟩ := p
    simp only [List.map_cons, List.nodup_cons] at hnd
    have hrest : (rest.map (fun kv => kv.1)).map (fun b =>
          match FindOrNull ((k, v) :: rest) b with
          | some r => w r
          | none => 0)
        = (rest.map (fun kv => kv.1)).map (fun b =>
          match FindOrNull rest b with
          | some r => w r
          | none => 0) := by
      apply List.map_congr_left
      intro b hb
      have hne : k ≠ b := fun h => hnd.1 (h ▸ hb)
      simp only [FindOrNull, if_neg hne]
    simp only [List.map_cons, List.sum_cons]
    rw [hrest, ← ih hnd.2]
    simp [FindOrNull]

/-- Two maps with distinct keys, the same keys, and values of equal weight under every key have
the same total weight, whatever their iteration orders. -/
theorem sum_values_congr (w : DataLocation → Nat) (m m' : List (Nat × DataLocation))
    (hnd : (m.map (fun kv => kv.1)).Nodup) (hnd' : (m'.map (fun kv => kv.1)).Nodup)
    (hkeys : ∀ b, b ∈ m.map (fun kv => kv.1) ↔ b ∈ m'.map (fun kv => kv.1))
    (hval : ∀ b r r', FindOrNull m b = some r → FindOrNull m' b = some r' → w r = w r') :
    (m.map (fun kv => w kv.2)).sum = (m'.map (fun kv => w kv.2)).sum := by
  rw [sum_values_by_keys w m hnd, sum_values_by_keys w m' hnd']
  have hperm : (m.map (fun kv => kv.1)).Perm (m'.map (fun kv => kv.1)) :=
    (List.perm_ext_iff_of_nodup hnd hnd').mpr hkeys
  rw [(hperm.map _).sum_eq]
  congr 1
  apply List.map_congr_left
  intro b hb
  obtain ⟨r, hr⟩ := FindOrNull_of_mem_keys m b ((hkeys b).mpr hb)
  obtain ⟨r', hr'⟩ := FindOrNull_of_mem_keys m' b hb
  rw [hr, hr']
  exact hval b r r' hr hr'

theorem totalBytes_inRack_eq_sum (rack : Nat) (l : List DataLocation) :
    totalBytes (inRack rack l)
      = (l.map (fun r => if rack = r.rack_id_ then r.size_bytes_ else 0)).sum := by
  induction l with
  | nil => rfl
  | cons r rest ih =>
    by_cases h : rack = r.rack_id_
    · have : inRack rack (r :: rest) = r :: inRack rack rest := by simp [inRack, h]
      rw [this, totalBytes_cons, ih]
      simp [h]
    · have : inRack rack (r :: rest) = inRack rack rest := by simp [inRack, h]
      rw [this, ih]
      simp [h]

theorem totalBytes_onMachine_eq_sum (M : Nat) (l : List DataLocation) :
    totalBytes (onMachine M l)
      = (l.map (fun r => if M = r.machine_res_id_ then r.size_bytes_ else 0)).sum := by
  induction l with
  | nil => rfl
  | cons r rest ih =>
    by_cases h : M = r.machine_res_id_
    · have : onMachine M (r :: rest) = r :: onMachine M rest := by simp [onMachine, h]
      rw [this, totalBytes_cons, ih]
      simp [h]
    · have : onMachine M (r :: rest) = onMachine M rest := by simp [onMachine, h]
      rw [this, ih]
      simp [h]

/-- What decides the class of the replica selected for block `b`: it is on the machine exactly
when some listed replica of the block is, and otherwise it is in the rack exactly when some
listed replica of the block is. -/
theorem closestOfBlock_class (M rack b : Nat) (locations : List DataLocation)
    (r : DataLocation) (h : closestOfBlock M rack b none locations = some r) :
    r ∈ locations ∧ r.block_id_ = b ∧
    (M = r.machine_res_id_ ↔ ∃ l ∈ locations, l.block_id_ = b ∧ l.machine_res_id_ = M) ∧
    (M ≠ r.machine_res_id_ →
      (rack = r.rack_id_ ↔ ∃ l ∈ locations, l.block_id_ = b ∧ l.rack_id_ = rack)) := by
  have hmem : r ∈ locations ∧ r.block_id_ = b := by
    rcases closestOfBlock_mem M rack b locations none r h with h0 | h1
    · cases h0
    · exact h1
  have hloc : M = r.machine_res_id_ ↔
      ∃ l ∈ locations, l.block_id_ = b ∧ l.machine_res_id_ = M := by
    constructor
    · intro hM
      exact ⟨r, hmem.1, hmem.2, hM.symm⟩
    · intro hex
      obtain ⟨q, hq, hqM⟩ := closestOfBlock_local M rack b locations none hex
      rw [h] at hq
      cases hq
      exact hqM.symm
  refine ⟨hmem.1, hmem.2, hloc, fun hne => ⟨fun hr => ⟨r, hmem.1, hmem.2, hr.symm⟩, ?_⟩⟩
  intro hex
  have hno : ∀ l ∈ locations, l.block_id_ = b → l.machine_res_id_ ≠ M := by
    intro l hl hlb hlM
    exact hne (hloc.mpr ⟨l, hl, hlb, hlM⟩)
  obtain ⟨q, hq, hqr⟩ := closestOfBlock_rack M rack b locations none
    (fun c hc => by cases hc) hno hex
  rw [h] at hq
  cases hq
  exact hqr.symm

/-- The replicas selected for one block under two orderings of the same list are in the same
locality class. -/
theorem closestOfBlock_perm_class (M rack b : Nat) (locations locations' : List DataLocation)
    (hperm : locations'.Perm locations) (r r' : DataLocation)
    (h : closestOfBlock M rack b none locations = some r)
    (h' : closestOfBlock M rack b none locations' = some r') :
    (M = r.machine_res_id_ ↔ M = r'.machine_res_id_) ∧
    (M ≠ r.machine_res_id_ → (rack = r.rack_id_ ↔ rack = r'.rack_id_)) ∧
    localityClass M rack r = localityClass M rack r' := by
  obtain ⟨_, _, hloc, hrk⟩ := closestOfBlock_class M rack b locations r h
  obtain ⟨_, _, hloc', hrk'⟩ := closestOfBlock_class M rack b locations' r' h'
  have hex : ∀ p : DataLocation → Prop,
      (∃ l ∈ locations', p l) ↔ ∃ l ∈ locations, p l := by
    intro p
    constructor
    · rintro ⟨l, hl, hp⟩; exact ⟨l, hperm.mem_iff.mp hl, hp⟩
    · rintro ⟨l, hl, hp⟩; exact ⟨l, hperm.mem_iff.mpr hl, hp⟩
  have e1 : M = r.machine_res_id_ ↔ M = r'.machine_res_id_ :=
    hloc.trans ((hex _).symm.trans hloc'.symm)
  have e2 : M ≠ r.machine_res_id_ → (rack = r.rack_id_ ↔ rack = r'.rack_id_) := by
    intro hne
    have hne' : M ≠ r'.machine_res_id_ := fun h => hne (e1.mpr h)
    exact (hrk hne).trans ((hex _).symm.trans (hrk' hne').symm)
  refine ⟨e1, e2, ?_⟩
  unfold localityClass
  by_cases hM : M = r.machine_res_id_
  · rw [if_pos hM, if_pos (e1.mp hM)]
  · have hM' : M ≠ r'.machine_res_id_ := fun h => hM (e1.mpr h)
    rw [if_neg hM, if_neg hM']
    by_cases hR : rack = r.rack_id_
    · rw [if_pos hR, if_pos ((e2 hM).mp hR)]
    · rw [if_neg hR, if_neg (fun h => hR ((e2 hM).mpr h))]

/-- The three sums of one dependency do not depend on the order of the listed replicas, when
racks are derived from machines and the replicas of a block have one size. -/
theorem selectedReplicas_perm_sums (dl : SimulatedDataLayerManager)
    (locations' : String → List DataLocation) (M : Nat) (d : ReferenceDescriptor)
    (hperm : (locations' d.location).Perm (dl.GetFileLocations d.location))
    (hrack : ∀ r ∈ dl.GetFileLocations d.location,
      r.rack_id_ = dl.GetRackForMachine r.machine_res_id_)
    (hsize : ∀ r ∈ dl.GetFileLocations d.location, ∀ r' ∈ dl.GetFileLocations d.location,
      r.block_id_ = r'.block_id_ → r.size_bytes_ = r'.size_bytes_) :
    totalBytes (selectedReplicas { dl with GetFileLocations := locations' } M d)
      = totalBytes (selectedReplicas dl M d) ∧
    totalBytes (inRack (dl.GetRackForMachine M)
        (selectedReplicas { dl with GetFileLocations := locations' } M d))
      = totalBytes (inRack (dl.GetRackForMachine M) (selectedReplicas dl M d)) ∧
    totalBytes (onMachine M (selectedReplicas { dl with GetFileLocations := locations' } M d))
      = totalBytes (onMachine M (selectedReplicas dl M d)) := by
  obtain ⟨hnd, hval, hkeys⟩ := GetClosestReplicas_one_per_block dl d.location M
  obtain ⟨hnd', hval', hkeys'⟩ :=
    GetClosestReplicas_one_per_block { dl with GetFileLocations := locations' } d.location M
  have hk : ∀ b, b ∈ (GetClosestReplicas { dl with GetFileLocations := locations' }
        d.location M []).map (fun kv => kv.1)
      ↔ b ∈ (GetClosestReplicas dl d.location M []).map (fun kv => kv.1) := by
    intro b
    constructor
    · intro hb
      obtain ⟨kv, hkv, hkb⟩ := List.mem_map.mp hb
      have := hkeys kv.2 (hperm.mem_iff.mp (hval' kv hkv).1)
      rw [(hval' kv hkv).2, hkb] at this
      exact this
    · intro hb
      obtain ⟨kv, hkv, hkb⟩ := List.mem_map.mp hb
      have := hkeys' kv.2 (hperm.mem_iff.mpr (hval kv hkv).1)
      rw [(hval kv hkv).2, hkb] at this
      exact this
  have hpair : ∀ b r' r,
      FindOrNull (GetClosestReplicas { dl with GetFileLocations := locations' }
        d.location M []) b = some r' →
      FindOrNull (GetClosestReplicas dl d.location M []) b = some r →
      r'.size_bytes_ = r.size_bytes_ ∧
      (M = r.machine_res_id_ ↔ M = r'.machine_res_id_) ∧
      (dl.GetRackForMachine M = r.rack_id_ ↔ dl.GetRackForMachine M = r'.rack_id_) := by
    intro b r' r h' h
    rw [FindOrNull_GetClosestReplicas] at h h'
    obtain ⟨hm, hb, _, _⟩ := closestOfBlock_class M _ b _ r h
    obtain ⟨hm', hb', _, _⟩ := closestOfBlock_class M _ b _ r' h'
    have hm'' : r' ∈ dl.GetFileLocations d.location := hperm.mem_iff.mp hm'
    obtain ⟨e1, e2, _⟩ := closestOfBlock_perm_class M (dl.GetRackForMachine M) b
      (dl.GetFileLocations d.location) (locations' d.location) hperm r r' h h'
    refine ⟨hsize r' hm'' r hm (hb'.trans hb.symm), e1, ?_⟩
    by_cases hM : M = r.machine_res_id_
    · have hM' := e1.mp hM
      have h1 : dl.GetRackForMachine M = r.rack_id_ := by rw [hrack r hm, ← hM]
      have h2 : dl.GetRackForMachine M = r'.rack_id_ := by rw [hrack r' hm'', ← hM']
      exact ⟨fun _ => h2, fun _ => h1⟩
    · exact e2 hM
  refine ⟨?_, ?_, ?_⟩
  · unfold selectedReplicas totalBytes
    rw [List.map_map, List.map_map]
    exact sum_values_congr (fun r => r.size_bytes_) _ _ hnd' hnd hk
      (fun b r' r h' h => (hpair b r' r h' h).1)
  · rw [totalBytes_inRack_eq_sum, totalBytes_inRack_eq_sum]
    unfold selectedReplicas
    rw [List.map_map, List.map_map]
    refine sum_values_congr
      (fun r => if dl.GetRackForMachine M = r.rack_id_ then r.size_bytes_ else 0)
      _ _ hnd' hnd hk (fun b r' r h' h => ?_)
    obtain ⟨hs, _, hr⟩ := hpair b r' r h' h
    by_cases hR : dl.GetRackForMachine M = r.rack_id_
    · simp only [if_pos hR, if_pos (hr.mp hR), hs]
    · simp only [if_neg hR, if_neg (fun h => hR (hr.mpr h))]
  · rw [totalBytes_onMachine_eq_sum, totalBytes_onMachine_eq_sum]
    unfold selectedReplicas
    rw [List.map_map, List.map_map]
    refine sum_values_congr
      (fun r => if M = r.machine_res_id_ then r.size_bytes_ else 0)
      _ _ hnd' hnd hk (fun b r' r h' h => ?_)
    obtain ⟨hs, hm, _⟩ := hpair b r' r h' h
    by_cases hM : M = r.machine_res_id_
    · simp only [if_pos hM, if_pos (hm.mp hM), hs]
    · simp only [if_neg hM, if_neg (fun h => hM (hm.mpr h))]

/-- The loop over the dependencies returns the same statistics under both orderings. -/
theorem computeDataStatsLoop_perm (dl : SimulatedDataLayerManager)
    (locations' : String → List DataLocation) (M : Nat) (deps : List ReferenceDescriptor)
    (hperm : ∀ d ∈ deps, (locations' d.location).Perm (dl.GetFileLocations d.location))
    (hrack : ∀ d ∈ deps, ∀ r ∈ dl.GetFileLocations d.location,
      r.rack_id_ = dl.GetRackForMachine r.machine_res_id_)
    (hsize : ∀ d ∈ deps, ∀ r ∈ dl.GetFileLocations d.location,
      ∀ r' ∈ dl.GetFileLocations d.location,
      r.block_id_ = r'.block_id_ → r.size_bytes_ = r'.size_bytes_) :
    ∀ acc, acc.data_on_rack < UINT64_SIZE → acc.data_on_machine < UINT64_SIZE →
      computeDataStatsLoop { dl with GetFileLocations := locations' } M deps acc
        = computeDataStatsLoop dl M deps acc := by
  induction deps with
  | nil => intro acc _ _; rfl
  | cons d rest ih =>
    intro acc h2 h3
    have hlt : ∀ x : Nat, x % UINT64_SIZE < UINT64_SIZE :=
      fun x => Nat.mod_lt _ (by unfold UINT64_SIZE; positivity)
    obtain ⟨s1, s2, s3⟩ := selectedReplicas_perm_sums dl locations' M d
      (hperm d (List.mem_cons_self _ _)) (hrack d (List.mem_cons_self _ _))
      (hsize d (List.mem_cons_self _ _))
    have hacc := accumulateReplicas_selected { dl with GetFileLocations := locations' } M d
      _ _ h2 h3
    simp only [s1, s2, s3] at hacc
    simp only [computeDataStatsLoop, hacc, accumulateReplicas_selected dl M d _ _ h2 h3]
    split_ifs with hsz
    · exact ih (fun e he => hperm e (List.mem_cons_of_mem _ he))
        (fun e he => hrack e (List.mem_cons_of_mem _ he))
        (fun e he => hsize e (List.mem_cons_of_mem _ he)) _ (hlt _) (hlt _)
    · rfl

/-- Claim C27. Let the DFS list, for every file, the same replicas in another order
(`locations'`), every replica carrying the rack id of its machine. Then for every file and
block the replicas `GetClosestReplicas` selects under the two orderings are in the same locality
class (on the machine, in its rack, remote); and when all the listed replicas of a block have
the same size, `ComputeDataStatsForMachine` (from accumulators that are 64-bit values) and
`GetEstimatedTransferTimeUS` return the same under both orderings. -/
theorem C27_listing_order_is_immaterial (dl : SimulatedDataLayerManager)
    (locations' : String → List DataLocation) (td : TaskDescriptor)
    (M data_on_rack data_on_machine : Nat)
    (hperm : ∀ file, (locations' file).Perm (dl.GetFileLocations file))
    (hrack : ∀ file, ∀ r ∈ dl.GetFileLocations file,
      r.rack_id_ = dl.GetRackForMachine r.machine_res_id_)
    (hr : data_on_rack < UINT64_SIZE) (hm : data_on_machine < UINT64_SIZE) :
    (∀ file b,
      (FindOrNull (GetClosestReplicas dl file M []) b).map
          (localityClass M (dl.GetRackForMachine M))
        = (FindOrNull (GetClosestReplicas { dl with GetFileLocations := locations' }
            file M []) b).map (localityClass M (dl.GetRackForMachine M))) ∧
    ((∀ file, ∀ r ∈ dl.GetFileLocations file, ∀ r' ∈ dl.GetFileLocations file,
        r.block_id_ = r'.block_id_ → r.size_bytes_ = r'.size_bytes_) →
      ComputeDataStatsForMachine { dl with GetFileLocations := locations' } td M
          data_on_rack data_on_machine
        = ComputeDataStatsForMachine dl td M data_on_rack data_on_machine ∧
      GetEstimatedTransferTimeUS { dl with GetFileLocations := locations' } td M
        = GetEstimatedTransferTimeUS dl td M) := by
  constructor
  · intro file b
    rw [FindOrNull_GetClosestReplicas, FindOrNull_GetClosestReplicas]
    show (closestOfBlock M (dl.GetRackForMachine M) b none (dl.GetFileLocations file)).map _
      = (closestOfBlock M (dl.GetRackForMachine M) b none (locations' file)).map _
    cases h : closestOfBlock M (dl.GetRackForMachine M) b none (dl.GetFileLocations file) with
    | none =>
      cases h' : closestOfBlock M (dl.GetRackForMachine M) b none (locations' file) with
      | none => rfl
      | some r' =>
        exfalso
        obtain ⟨hm', hb', _, _⟩ := closestOfBlock_class M _ b _ r' h'
        obtain ⟨q, hq⟩ := closestOfBlock_isSome M (dl.GetRackForMachine M) b
          (dl.GetFileLocations file) none
          (Or.inr ⟨r', (hperm file).mem_iff.mp hm', hb'⟩)
        rw [h] at hq
        cases hq
    | some r =>
      cases h' : closestOfBlock M (dl.GetRackForMachine M) b none (locations' file) with
      | none =>
        exfalso
        obtain ⟨hm0, hb0, _, _⟩ := closestOfBlock_class M _ b _ r h
        obtain ⟨q, hq⟩ := closestOfBlock_isSome M (dl.GetRackForMachine M) b
          (locations' file) none (Or.inr ⟨r, (hperm file).mem_iff.mpr hm0, hb0⟩)
        rw [h'] at hq
        cases hq
      | some r' =>
        simp only [Option.map_some']
        exact congrArg some (closestOfBlock_perm_class M (dl.GetRackForMachine M) b
          (dl.GetFileLocations file) (locations' file) (hperm file) r r' h h').2.2
  · intro hsize
    have hloop : ∀ a c, a < UINT64_SIZE → c < UINT64_SIZE →
        ComputeDataStatsForMachine { dl with GetFileLocations := locations' } td M a c
          = ComputeDataStatsForMachine dl td M a c := by
      intro a c ha hc
      unfold ComputeDataStatsForMachine
      exact computeDataStatsLoop_perm dl locations' M td.dependencies
        (fun d _ => hperm d.location) (fun d _ => hrack d.location)
        (fun d _ => hsize d.location) _ ha hc
    refine ⟨hloop _ _ hr hm, ?_⟩
    have hU : 0 < UINT64_SIZE := by unfold UINT64_SIZE; norm_num
    unfold GetEstimatedTransferTimeUS
    rw [hloop 0 0 hU hU]

/-- Claim C27, witness. The five replicas of `replicatedLayer` listed in reverse order: seen
from machine 1, block 0 is still selected on the machine, block 1 in the rack and block 2
remotely, and the statistics and the transfer time are unchanged. -/
theorem C27_listing_order_is_immaterial_witness :
    (FindOrNull (GetClosestReplicas replicatedLayer "f" 1 []) 1).map (fun r => r.machine_res_id_)
      = some 2 ∧
    ComputeDataStatsForMachine
        { replicatedLayer with
          GetFileLocations := fun file => (replicatedLayer.GetFileLocations file).reverse }
        (freshTask 7 [{ location := "f", size := 192 }]) 1 0 0
      = some { input_size := 192, data_on_rack := 128, data_on_machine := 64 } ∧
    GetEstimatedTransferTimeUS
        { replicatedLayer with
          GetFileLocations := fun file => (replicatedLayer.GetFileLocations file).reverse }
        (freshTask 7 [{ location := "f", size := 192 }]) 1
      = GetEstimatedTransferTimeUS replicatedLayer
        (freshTask 7 [{ location := "f", size := 192 }]) 1 := by
  have h := C27_listing_order_is_immaterial replicatedLayer
    (fun file => (replicatedLayer.GetFileLocations file).reverse)
    (freshTask 7 [{ location := "f", size := 192 }]) 1 0 0
    (fun file => List.reverse_perm _)
    (fun _ => (by decide : ∀ r ∈ replicatedLayer.GetFileLocations "f",
      r.rack_id_ = replicatedLayer.GetRackForMachine r.machine_res_id_))
    (by decide) (by decide)
  have h2 := h.2 (fun _ => (by decide : ∀ r ∈ replicatedLayer.GetFileLocations "f",
    ∀ r' ∈ replicatedLayer.GetFileLocations "f",
    r.block_id_ = r'.block_id_ → r.size_bytes_ = r'.size_bytes_))
  refine ⟨by decide, ?_, h2.2⟩
  rw [h2.1]
  decide

/-! ## The order of machines holding the same number of bytes -/

/-- Claim C22, counterexample. Machines 1 and 2 hold 100 bytes each and both have an idle PU.
When `data_on_machines` is iterated as 1, 2 the sorted vector is 2, 1 (an admissible outcome of
`std::sort`: the comparator does not separate the two), so the machine with the larger id is
tried first and PU 21 is chosen; when it is iterated as 2, 1 the sorted vector is 1, 2 and PU 11
is chosen. -/
theorem C22_counterexample_tie_follows_iteration_order :
    dataOn [(1, 100), (2, 100)] 1 = dataOn [(1, 100), (2, 100)] 2 ∧
    StdSortOutcome [(1, 100), (2, 100)] [1, 2]
      (sortedDataMachines (tiedMachines [(1, 100), (2, 100)]) (freshTask 7 [])) ∧
    sortedDataMachines (tiedMachines [(1, 100), (2, 100)]) (freshTask 7 []) = [2, 1] ∧
    FindResourceForTask (tiedMachines [(1, 100), (2, 100)]) (freshTask 7 [])
      = some (some 21) ∧
    sortedDataMachines (tiedMachines [(2, 100), (1, 100)]) (freshTask 7 []) = [1, 2] ∧
    FindResourceForTask (tiedMachines [(2, 100), (1, 100)]) (freshTask 7 [])
      = some (some 11) :=
  ⟨by decide, insertionSortByData_outcome _ _, by decide, by decide, by decide, by decide⟩

/-- The value read by the comparator does not depend on the iteration order of a map with
distinct keys. -/
theorem dataOn_perm (d d' : List (Nat × Nat)) (hnd : (d.map (fun kv => kv.1)).Nodup)
    (hperm : d'.Perm d) (m : Nat) : dataOn d' m = dataOn d m := by
  have hnd' : (d'.map (fun kv => kv.1)).Nodup := ((hperm.map _).nodup_iff).mpr hnd
  unfold dataOn
  cases h : FindOrNull d m with
  | some v =>
    rw [FindOrNull_of_mem d' hnd' m v (hperm.mem_iff.mpr (FindOrNull_mem d m v h))]
  | none =>
    cases h' : FindOrNull d' m with
    | none => rfl
    | some v =>
      rw [FindOrNull_of_mem d hnd m v (hperm.mem_iff.mp (FindOrNull_mem d' m v h'))] at h
      cases h

/-- The locality pass reads the resource map, the machine-to-PU multimap and
`MachineResIDForResource` only. -/
theorem localityPass_congr (sched sched' : FulcrumScheduler)
    (h1 : sched'.resource_map_ = sched.resource_map_)
    (h2 : sched'.machine_res_id_pus_ = sched.machine_res_id_pus_)
    (h3 : sched'.MachineResIDForResource = sched.MachineResIDForResource)
    (l : List Nat) : localityPass sched' l = localityPass sched l := by
  induction l with
  | nil => rfl
  | cons m rest ih =>
    simp only [localityPass, h1, h2, h3, ih]

/-- Two admissible outcomes of `std::sort` on rearrangements of the same machines, none of
which hold the same number of bytes, are the same vector, in strictly descending order. -/
theorem StdSortOutcome_unique (d : List (Nat × Nat)) (input input' output output' : List Nat)
    (hnd : input.Nodup) (hperm : input'.Perm input)
    (hdistinct : ∀ m ∈ input, ∀ m' ∈ input, m ≠ m' → dataOn d m ≠ dataOn d m')
    (hsort : StdSortOutcome d input output) (hsort' : StdSortOutcome d input' output') :
    output' = output ∧ output.Pairwise (fun a b => dataOn d a > dataOn d b) := by
  have strict : ∀ out : List Nat, out.Perm input →
      out.Pairwise (fun a b => ¬ moreData d b a) →
      out.Pairwise (fun a b => dataOn d a > dataOn d b) := by
    intro out hp hs
    have hndo : out.Nodup := (hp.nodup_iff).mpr hnd
    refine (hs.and hndo).imp_of_mem ?_
    intro a b ha hb hab
    have hne := hdistinct a (hp.subset ha) b (hp.subset hb) hab.2
    have hge : ¬ (dataOn d b > dataOn d a) := hab.1
    omega
  have s1 := strict output hsort.1 hsort.2
  have s2 := strict output' (hsort'.1.trans hperm) hsort'.2
  haveI : IsAntisymm Nat (fun a b => dataOn d a > dataOn d b) :=
    ⟨fun a b h1 h2 => absurd h1 (by omega)⟩
  exact ⟨List.eq_of_perm_of_sorted ((hsort'.1.trans hperm).trans hsort.1.symm) s2 s1, s1⟩

/-- Claim C22, amended. The vector `data_machines` is sorted by descending `data_on_machines`
value and the comparator says nothing about machines holding the same number of bytes. When no
two data-bearing machines hold the same number of bytes, the vector is in strictly descending
order and neither it nor the result of `FindResourceForTask` depends on the iteration order of
the `data_on_machines` map (`stats'`, a rearrangement of the map) or on which admissible outcome
`std::sort` produces (`std_sort'`). -/
theorem C22_order_determined_without_ties (sched : FulcrumScheduler) (td : TaskDescriptor)
    (stats' : TaskDescriptor → List (Nat × Nat))
    (std_sort' : List (Nat × Nat) → List Nat → List Nat)
    (hnd : (dataMachines sched td).Nodup)
    (hperm : (stats' td).Perm (sched.ComputeClusterDataStatistics td))
    (hsort : StdSortOutcome (sched.ComputeClusterDataStatistics td) (dataMachines sched td)
      (sortedDataMachines sched td))
    (hsort' : StdSortOutcome (stats' td) ((stats' td).map (fun kv => kv.1))
      (std_sort' (stats' td) ((stats' td).map (fun kv => kv.1))))
    (hdistinct : ∀ m ∈ dataMachines sched td, ∀ m' ∈ dataMachines sched td, m ≠ m' →
      dataOn (sched.ComputeClusterDataStatistics td) m
        ≠ dataOn (sched.ComputeClusterDataStatistics td) m') :
    sortedDataMachines
        { sched with ComputeClusterDataStatistics := stats', std_sort := std_sort' } td
      = sortedDataMachines sched td ∧
    (sortedDataMachines sched td).Pairwise (fun a b =>
      dataOn (sched.ComputeClusterDataStatistics td) a
        > dataOn (sched.ComputeClusterDataStatistics td) b) ∧
    FindResourceForTask
        { sched with ComputeClusterDataStatistics := stats', std_sort := std_sort' } td
      = FindResourceForTask sched td := by
  have hkeys : ((sched.ComputeClusterDataStatistics td).map (fun kv => kv.1)).Nodup := hnd
  have hpermk : ((stats' td).map (fun kv => kv.1)).Perm (dataMachines sched td) :=
    hperm.map _
  have hsort'' : StdSortOutcome (sched.ComputeClusterDataStatistics td)
      ((stats' td).map (fun kv => kv.1))
      (std_sort' (stats' td) ((stats' td).map (fun kv => kv.1))) := by
    refine ⟨hsort'.1, hsort'.2.imp ?_⟩
    intro a b hab
    unfold moreData at hab ⊢
    rw [dataOn_perm _ _ hkeys hperm a, dataOn_perm _ _ hkeys hperm b] at hab
    exact hab
  obtain ⟨heq, hstrict⟩ := StdSortOutcome_unique (sched.ComputeClusterDataStatistics td)
    (dataMachines sched td) ((stats' td).map (fun kv => kv.1))
    (sortedDataMachines sched td) (std_sort' (stats' td) ((stats' td).map (fun kv => kv.1)))
    hnd hpermk hdistinct hsort hsort''
  have hvec : sortedDataMachines
      { sched with ComputeClusterDataStatistics := stats', std_sort := std_sort' } td
      = sortedDataMachines sched td := heq
  refine ⟨hvec, hstrict, ?_⟩
  unfold FindResourceForTask
  rw [hvec, localityPass_congr sched
    { sched with ComputeClusterDataStatistics := stats', std_sort := std_sort' } rfl rfl rfl]

/-- Claim C22, amended, witness. Machine 1 holds 100 bytes and machine 2 holds 50: iterated as
2, 1 or as 1, 2 the sorted vector is 1, 2 and PU 22 is chosen. -/
theorem C22_order_determined_without_ties_witness :
    sortedDataMachines
        { twoDataMachines with
          ComputeClusterDataStatistics := fun _ => [(1, 100), (2, 50)],
          std_sort := insertionSortByData } (freshTask 7 [])
      = sortedDataMachines twoDataMachines (freshTask 7 []) ∧
    sortedDataMachines twoDataMachines (freshTask 7 []) = [1, 2] ∧
    FindResourceForTask
        { twoDataMachines with
          ComputeClusterDataStatistics := fun _ => [(1, 100), (2, 50)],
          std_sort := insertionSortByData } (freshTask 7 [])
      = FindResourceForTask twoDataMachines (freshTask 7 []) ∧
    FindResourceForTask twoDataMachines (freshTask 7 []) = some (some 22) := by
  have h := C22_order_determined_without_ties twoDataMachines (freshTask 7 [])
    (fun _ => [(1, 100), (2, 50)]) insertionSortByData (by decide)
    (List.Perm.swap _ _ _) (insertionSortByData_outcome _ _)
    (insertionSortByData_outcome _ _) (by decide)
  exact ⟨h.1, by decide, h.2.2, by decide⟩

end Firmament
